import Mathlib

/-
  Verification of the utah-watchdog data-synchronization engine.

  This file shallowly embeds the parts of the repository that the claims
  concern:
    - src/database/normalization.py   (field and record normalizers)
    - src/ingestion/base.py           (generic ETL engine, statistics)
    - src/ingestion/congress_members.py (member transform and seat-conflict load)
    - src/ingestion/votes.py          (vote load, member-position save, XML parse)
    - src/ingestion/contact_info.py   (enrichment load and process_item)

  MongoDB documents are modelled as association lists of (field, value)
  pairs, python values as the inductive `PValue`, collections as lists of
  documents, and `datetime.utcnow()` results as explicit `Nat` parameters.
  Python functions that can raise return `Option`.
-/

namespace UW

/-! ## Python string helpers (over the character list of a `String`) -/

/-- Whitespace characters recognised by the model of Python `str.strip`. -/
def isSpaceChar (c : Char) : Bool :=
  c = ' ' || c = '\t' || c = '\n' || c = '\r'

/-- Drop whitespace from both ends of a character list. -/
def trimChars (cs : List Char) : List Char :=
  ((cs.dropWhile isSpaceChar).reverse.dropWhile isSpaceChar).reverse

/-- Model of Python `str.strip()`. -/
def pyStrip (s : String) : String := ⟨trimChars s.data⟩

/-- Model of Python `str.upper()` (ASCII). -/
def pyUpper (s : String) : String := ⟨s.data.map Char.toUpper⟩

/-- Model of Python `str.lower()` (ASCII). -/
def pyLower (s : String) : String := ⟨s.data.map Char.toLower⟩

/-- Model of Python `len()` on a string. -/
def pyLen (s : String) : Nat := s.data.length

/-- Model of Python `str.replace(a, b)` for single characters. -/
def pyReplaceChar (s : String) (a b : Char) : String :=
  ⟨s.data.map (fun c => if c = a then b else c)⟩

/-! ## State normalization (src/database/normalization.py) -/

/-- The fixed full-name-to-code table `STATE_NAME_TO_CODE`. -/
def STATE_NAME_TO_CODE : List (String × String) :=
  [("Alabama", "AL"), ("Alaska", "AK"), ("Arizona", "AZ"), ("Arkansas", "AR"),
   ("California", "CA"), ("Colorado", "CO"), ("Connecticut", "CT"), ("Delaware", "DE"),
   ("Florida", "FL"), ("Georgia", "GA"), ("Hawaii", "HI"), ("Idaho", "ID"),
   ("Illinois", "IL"), ("Indiana", "IN"), ("Iowa", "IA"), ("Kansas", "KS"),
   ("Kentucky", "KY"), ("Louisiana", "LA"), ("Maine", "ME"), ("Maryland", "MD"),
   ("Massachusetts", "MA"), ("Michigan", "MI"), ("Minnesota", "MN"), ("Mississippi", "MS"),
   ("Missouri", "MO"), ("Montana", "MT"), ("Nebraska", "NE"), ("Nevada", "NV"),
   ("New Hampshire", "NH"), ("New Jersey", "NJ"), ("New Mexico", "NM"), ("New York", "NY"),
   ("North Carolina", "NC"), ("North Dakota", "ND"), ("Ohio", "OH"), ("Oklahoma", "OK"),
   ("Oregon", "OR"), ("Pennsylvania", "PA"), ("Rhode Island", "RI"), ("South Carolina", "SC"),
   ("South Dakota", "SD"), ("Tennessee", "TN"), ("Texas", "TX"), ("Utah", "UT"),
   ("Vermont", "VT"), ("Virginia", "VA"), ("Washington", "WA"), ("West Virginia", "WV"),
   ("Wisconsin", "WI"), ("Wyoming", "WY"),
   ("District of Columbia", "DC"), ("Puerto Rico", "PR")]

/-- The reverse table `STATE_CODE_TO_NAME` (the dict comprehension swap). -/
def STATE_CODE_TO_NAME : List (String × String) :=
  STATE_NAME_TO_CODE.map (fun p => (p.2, p.1))

/-- Dictionary lookup on an association table of strings. -/
def lookupStr (t : List (String × String)) (k : String) : Option String :=
  (t.find? (fun p => p.1 == k)).map (fun p => p.2)

/-- Model of `normalize_state`: strip, try a 2-letter code, then an exact
full-name lookup, then a case-insensitive full-name scan; `None`/empty input
and unrecognised input give `none`. -/
def normalize_state : Option String → Option String
  | none => none
  | some s =>
    if s == "" then none
    else
      let state_clean := pyStrip s
      if pyLen state_clean == 2 then
        let code := pyUpper state_clean
        if (STATE_CODE_TO_NAME.find? (fun p => p.1 == code)).isSome then some code
        else none
      else if (STATE_NAME_TO_CODE.find? (fun p => p.1 == state_clean)).isSome then
        lookupStr STATE_NAME_TO_CODE state_clean
      else
        match STATE_NAME_TO_CODE.find? (fun p => pyLower p.1 == pyLower state_clean) with
        | some p => some p.2
        | none => none

/-! ## Party normalization -/

/-- The `PARTY_MAPPINGS` dictionary, in source order. -/
def PARTY_MAPPINGS : List (String × String) :=
  [("Republican", "R"), ("Democrat", "D"), ("Democratic", "D"), ("Independent", "I"),
   ("Libertarian", "L"), ("Green", "G"),
   ("R", "R"), ("D", "D"), ("I", "I"), ("L", "L"), ("G", "G")]

/-- Model of `normalize_party`: direct lookup, case-insensitive lookup, then
the unknown/other/none fallback; every fallthrough returns `default`. -/
def normalize_party (party : Option String) (dflt : String) : String :=
  match party with
  | none => dflt
  | some s =>
    if s == "" then dflt
    else
      let party_clean := pyStrip s
      match PARTY_MAPPINGS.find? (fun p => p.1 == party_clean) with
      | some p => p.2
      | none =>
        match PARTY_MAPPINGS.find? (fun p => pyLower p.1 == pyLower party_clean) with
        | some p => p.2
        | none =>
          if ["unknown", "other", "none", ""].contains (pyLower party_clean) then dflt
          else dflt

/-! ## Chamber normalization -/

/-- The `CHAMBER_MAPPINGS` dictionary, in source order. -/
def CHAMBER_MAPPINGS : List (String × String) :=
  [("Senate", "senate"), ("House", "house"), ("House of Representatives", "house"),
   ("senate", "senate"), ("house", "house"), ("SENATE", "senate"), ("HOUSE", "house")]

/-- Model of `normalize_chamber`: direct lookup then case-insensitive fallback. -/
def normalize_chamber : Option String → Option String
  | none => none
  | some s =>
    if s == "" then none
    else
      let chamber_clean := pyStrip s
      match CHAMBER_MAPPINGS.find? (fun p => p.1 == chamber_clean) with
      | some p => some p.2
      | none =>
        match CHAMBER_MAPPINGS.find? (fun p => pyLower p.1 == pyLower chamber_clean) with
        | some p => some p.2
        | none => none

/-! ## Bill status normalization -/

/-- The `status_map` of `normalize_bill_status`. -/
def BILL_STATUS_MAP : List (String × String) :=
  [("intro", "introduced"), ("in_committee", "in_committee"),
   ("passed_house", "passed_house"), ("passed_senate", "passed_senate"),
   ("became_law", "became_law"), ("enacted", "became_law"), ("vetoed", "vetoed")]

/-- Model of `normalize_bill_status`: lower, strip, replace space and hyphen
with underscore, then map known synonyms; unmapped values pass through. -/
def normalize_bill_status : Option String → Option String
  | none => none
  | some s =>
    if s == "" then none
    else
      let normalized := pyReplaceChar (pyReplaceChar (pyStrip (pyLower s)) ' ' '_') '-' '_'
      match BILL_STATUS_MAP.find? (fun p => p.1 == normalized) with
      | some p => some p.2
      | none => some normalized

/-! ## Python values and MongoDB documents -/

/-- A dynamic Python/BSON value as stored in the document store. -/
inductive PValue where
  | vStr (s : String)
  | vNone
  | vBool (b : Bool)
  | vInt (n : Int)
  | vTime (t : Nat)
  | vList (xs : List PValue)

mutual

/-- Structural equality test on `PValue`. -/
def PValue.beq : PValue → PValue → Bool
  | .vStr a, .vStr b => a == b
  | .vNone, .vNone => true
  | .vBool a, .vBool b => a == b
  | .vInt a, .vInt b => a == b
  | .vTime a, .vTime b => a == b
  | .vList xs, .vList ys => PValue.beqList xs ys
  | _, _ => false

/-- Structural equality test on lists of `PValue`. -/
def PValue.beqList : List PValue → List PValue → Bool
  | [], [] => true
  | x :: xs, y :: ys => PValue.beq x y && PValue.beqList xs ys
  | _, _ => false

end

mutual

/-- `PValue.beq` decides equality. -/
def PValue.beq_iff : (a b : PValue) → (PValue.beq a b = true ↔ a = b)
  | .vStr _, .vStr _ => by simp [PValue.beq]
  | .vStr _, .vNone => by simp [PValue.beq]
  | .vStr _, .vBool _ => by simp [PValue.beq]
  | .vStr _, .vInt _ => by simp [PValue.beq]
  | .vStr _, .vTime _ => by simp [PValue.beq]
  | .vStr _, .vList _ => by simp [PValue.beq]
  | .vNone, .vStr _ => by simp [PValue.beq]
  | .vNone, .vNone => by simp [PValue.beq]
  | .vNone, .vBool _ => by simp [PValue.beq]
  | .vNone, .vInt _ => by simp [PValue.beq]
  | .vNone, .vTime _ => by simp [PValue.beq]
  | .vNone, .vList _ => by simp [PValue.beq]
  | .vBool _, .vStr _ => by simp [PValue.beq]
  | .vBool _, .vNone => by simp [PValue.beq]
  | .vBool _, .vBool _ => by simp [PValue.beq]
  | .vBool _, .vInt _ => by simp [PValue.beq]
  | .vBool _, .vTime _ => by simp [PValue.beq]
  | .vBool _, .vList _ => by simp [PValue.beq]
  | .vInt _, .vStr _ => by simp [PValue.beq]
  | .vInt _, .vNone => by simp [PValue.beq]
  | .vInt _, .vBool _ => by simp [PValue.beq]
  | .vInt _, .vInt _ => by simp [PValue.beq]
  | .vInt _, .vTime _ => by simp [PValue.beq]
  | .vInt _, .vList _ => by simp [PValue.beq]
  | .vTime _, .vStr _ => by simp [PValue.beq]
  | .vTime _, .vNone => by simp [PValue.beq]
  | .vTime _, .vBool _ => by simp [PValue.beq]
  | .vTime _, .vInt _ => by simp [PValue.beq]
  | .vTime _, .vTime _ => by simp [PValue.beq]
  | .vTime _, .vList _ => by simp [PValue.beq]
  | .vList _, .vStr _ => by simp [PValue.beq]
  | .vList _, .vNone => by simp [PValue.beq]
  | .vList _, .vBool _ => by simp [PValue.beq]
  | .vList _, .vInt _ => by simp [PValue.beq]
  | .vList _, .vTime _ => by simp [PValue.beq]
  | .vList xs, .vList ys => by
      simp only [PValue.beq, PValue.vList.injEq]
      exact PValue.beqList_iff xs ys

/-- `PValue.beqList` decides equality of value lists. -/
def PValue.beqList_iff : (xs ys : List PValue) → (PValue.beqList xs ys = true ↔ xs = ys)
  | [], [] => by simp [PValue.beqList]
  | [], _ :: _ => by simp [PValue.beqList]
  | _ :: _, [] => by simp [PValue.beqList]
  | x :: xs, y :: ys => by
      simp only [PValue.beqList, Bool.and_eq_true, List.cons.injEq]
      rw [PValue.beq_iff x y, PValue.beqList_iff xs ys]

end

instance : DecidableEq PValue := fun a b =>
  decidable_of_iff (PValue.beq a b = true) (PValue.beq_iff a b)

/-- Python truthiness of the modelled values (`if not v`). -/
def pyFalsy : PValue → Bool
  | .vStr s => s == ""
  | .vNone => true
  | .vBool b => !b
  | .vInt n => n == 0
  | .vTime _ => false
  | .vList xs => xs.isEmpty

/-- A Python dict / MongoDB document: ordered field-value pairs. -/
abbrev Doc := List (String × PValue)

/-- Read a field of a document (`d.get(k)` on a dict with unique keys). -/
def getKey (d : Doc) (k : String) : Option PValue :=
  (d.find? (fun p => p.1 == k)).map (fun p => p.2)

/-- Field-presence test (`k in d`). -/
def hasKey (d : Doc) (k : String) : Bool :=
  (d.find? (fun p => p.1 == k)).isSome

/-- Dict assignment `d[k] = v`: replace in place, else append. -/
def setKey (d : Doc) (k : String) (v : PValue) : Doc :=
  if hasKey d k then d.map (fun p => if p.1 == k then (k, v) else p)
  else d ++ [(k, v)]

/-! ## Value-level field normalizers

Each mirrors passing a dict value to the corresponding Python normalizer:
falsy values short-circuit, strings are normalized, and any other truthy
value would raise `AttributeError` in Python (modelled as `none`). -/

/-- Turn an optional string into a stored value. -/
def optSV : Option String → PValue
  | some t => .vStr t
  | none => .vNone

/-- Turn an optional integer into a stored value. -/
def optIV : Option Int → PValue
  | some n => .vInt n
  | none => .vNone

/-- `normalize_state` applied to a dict value. -/
def normalize_state_value (v : PValue) : Option PValue :=
  if pyFalsy v then some .vNone
  else match v with
    | .vStr s => some (optSV (normalize_state (some s)))
    | _ => none

/-- `normalize_party` applied to a dict value (with the default `"I"`). -/
def normalize_party_value (dflt : String) (v : PValue) : Option PValue :=
  if pyFalsy v then some (.vStr dflt)
  else match v with
    | .vStr s => some (.vStr (normalize_party (some s) dflt))
    | _ => none

/-- `normalize_chamber` applied to a dict value. -/
def normalize_chamber_value (v : PValue) : Option PValue :=
  if pyFalsy v then some .vNone
  else match v with
    | .vStr s => some (optSV (normalize_chamber (some s)))
    | _ => none

/-- `normalize_bill_status` applied to a dict value. -/
def normalize_bill_status_value (v : PValue) : Option PValue :=
  if pyFalsy v then some .vNone
  else match v with
    | .vStr s => some (optSV (normalize_bill_status (some s)))
    | _ => none

/-- Conditionally normalize one field of a record (`if k in r: r[k] = f(r[k])`). -/
def normField (r : Doc) (k : String) (f : PValue → Option PValue) : Option Doc :=
  if hasKey r k then
    match getKey r k with
    | some v => (f v).map (fun v2 => setKey r k v2)
    | none => some r
  else some r

/-! ## Record-level normalizers -/

/-- Model of `normalize_politician`: normalize state, party and chamber in
place, stamp `last_updated` if absent, default `in_office` to true if
absent. -/
def normalize_politician (now : Nat) (raw : Doc) : Option Doc := do
  let r1 ← normField raw "state" normalize_state_value
  let r2 ← normField r1 "party" (normalize_party_value "I")
  let r3 ← normField r2 "chamber" normalize_chamber_value
  let r4 := if hasKey r3 "last_updated" then r3 else setKey r3 "last_updated" (.vTime now)
  let r5 := if hasKey r4 "in_office" then r4 else setKey r4 "in_office" (.vBool true)
  pure r5

/-- Model of `normalize_contribution`: normalize `contributor_state`, stamp
`last_updated` if absent. -/
def normalize_contribution (now : Nat) (raw : Doc) : Option Doc := do
  let r1 ← normField raw "contributor_state" normalize_state_value
  pure (if hasKey r1 "last_updated" then r1 else setKey r1 "last_updated" (.vTime now))

/-- Model of `normalize_legislation`: normalize `status`, stamp
`last_updated` if absent. -/
def normalize_legislation (now : Nat) (raw : Doc) : Option Doc := do
  let r1 ← normField raw "status" normalize_bill_status_value
  pure (if hasKey r1 "last_updated" then r1 else setKey r1 "last_updated" (.vTime now))

end UW

namespace UW

/-! ## Facts about the state table, established by computation -/

/-- The canonical 2-letter state codes (the values of the name table). -/
def stateCodes : List String := STATE_NAME_TO_CODE.map (fun p => p.2)

/-- Distinct table entries have distinct lowercased names. -/
lemma stateTable_lower_inj :
    ∀ p ∈ STATE_NAME_TO_CODE, ∀ q ∈ STATE_NAME_TO_CODE,
      pyLower p.1 = pyLower q.1 → p = q := by decide

/-- No table name is empty. -/
lemma stateTable_keys_nonempty : ∀ p ∈ STATE_NAME_TO_CODE, pyLen p.1 ≠ 0 := by decide

/-- Every canonical code normalizes to itself. -/
lemma stateCodes_fixed :
    ∀ p ∈ STATE_NAME_TO_CODE, normalize_state (some p.2) = some p.2 := by decide

/-- The length of a lowercased string. -/
lemma pyLen_pyLower (s : String) : pyLen (pyLower s) = pyLen s := by
  simp [pyLen, pyLower]

/-- Any successful `normalize_state` result is a canonical table code. -/
lemma normalize_state_range (s c : String)
    (h : normalize_state (some s) = some c) :
    ∃ p ∈ STATE_NAME_TO_CODE, p.2 = c := by
  by_cases h0 : s = ""
  · subst h0; simp [normalize_state] at h
  · simp only [normalize_state] at h
    rw [if_neg (by simp [h0])] at h
    by_cases h2 : pyLen (pyStrip s) = 2
    · rw [if_pos (by simp [h2])] at h
      by_cases hf : (STATE_CODE_TO_NAME.find? (fun p => p.1 == pyUpper (pyStrip s))).isSome = true
      · rw [if_pos hf] at h
        obtain ⟨p, hp⟩ := Option.isSome_iff_exists.mp hf
        have hmem := List.mem_of_find?_eq_some hp
        have hpred : p.1 = pyUpper (pyStrip s) := by
          have := List.find?_some hp
          simpa using this
        have hc : pyUpper (pyStrip s) = c := by simpa using h
        obtain ⟨q, hq, hqe⟩ := List.mem_map.mp hmem
        refine ⟨q, hq, ?_⟩
        have hq2 : q.2 = p.1 := by rw [← hqe]
        rw [hq2, hpred, hc]
      · rw [if_neg hf] at h
        exact absurd h (by simp)
    · rw [if_neg (by simp [h2])] at h
      by_cases hex : (STATE_NAME_TO_CODE.find? (fun p => p.1 == pyStrip s)).isSome = true
      · rw [if_pos hex] at h
        unfold lookupStr at h
        obtain ⟨q, hq, hqe⟩ := Option.map_eq_some'.mp h
        exact ⟨q, List.mem_of_find?_eq_some hq, hqe⟩
      · rw [if_neg hex] at h
        cases hci : STATE_NAME_TO_CODE.find? (fun p => pyLower p.1 == pyLower (pyStrip s)) with
        | none => rw [hci] at h; exact absurd h (by simp)
        | some p =>
            rw [hci] at h
            refine ⟨p, List.mem_of_find?_eq_some hci, ?_⟩
            simpa using h

/-- Valid full names (any letter case, padded with whitespace) normalize to
their table code. -/
lemma normalize_state_full_name (name code s : String)
    (hmem : (name, code) ∈ STATE_NAME_TO_CODE)
    (hlow : pyLower (pyStrip s) = pyLower name)
    (hlen : pyLen (pyStrip s) ≠ 2) :
    normalize_state (some s) = some code := by
  have hs0 : s ≠ "" := by
    intro h0
    subst h0
    have h1 : pyLen (pyLower (pyStrip "")) = 0 := by decide
    rw [hlow, pyLen_pyLower] at h1
    exact stateTable_keys_nonempty (name, code) hmem h1
  simp only [normalize_state]
  rw [if_neg (by simp [hs0]), if_neg (by simp [hlen])]
  by_cases hex : (STATE_NAME_TO_CODE.find? (fun p => p.1 == pyStrip s)).isSome = true
  · rw [if_pos hex]
    obtain ⟨q, hq⟩ := Option.isSome_iff_exists.mp hex
    have hqmem := List.mem_of_find?_eq_some hq
    have hqpred : q.1 = pyStrip s := by simpa using List.find?_some hq
    have hqe : q = (name, code) := by
      apply stateTable_lower_inj q hqmem (name, code) hmem
      rw [hqpred]; exact hlow
    simp [lookupStr, hq, hqe]
  · rw [if_neg hex]
    have hfind : (STATE_NAME_TO_CODE.find?
        (fun p => pyLower p.1 == pyLower (pyStrip s))).isSome = true := by
      rw [List.find?_isSome]
      exact ⟨(name, code), hmem, by simp [hlow]⟩
    obtain ⟨q, hq⟩ := Option.isSome_iff_exists.mp hfind
    rw [hq]
    have hqmem := List.mem_of_find?_eq_some hq
    have hqpred : pyLower q.1 = pyLower (pyStrip s) := by simpa using List.find?_some hq
    have hqe : q = (name, code) := by
      apply stateTable_lower_inj q hqmem (name, code) hmem
      rw [hqpred, hlow]
    rw [hqe]

/-- Valid 2-letter codes (any letter case, padded with whitespace) normalize
to the canonical uppercase code. -/
lemma normalize_state_code (code s : String)
    (hmem : code ∈ stateCodes)
    (hlen : pyLen (pyStrip s) = 2)
    (hupper : pyUpper (pyStrip s) = code) :
    normalize_state (some s) = some code := by
  have hs0 : s ≠ "" := by
    intro h0; subst h0
    exact absurd hlen (by decide)
  simp only [normalize_state]
  rw [if_neg (by simp [hs0]), if_pos (by simp [hlen])]
  have hf : (STATE_CODE_TO_NAME.find?
      (fun p => p.1 == pyUpper (pyStrip s))).isSome = true := by
    rw [List.find?_isSome]
    obtain ⟨q, hq, hqe⟩ := List.mem_map.mp hmem
    refine ⟨(q.2, q.1), ?_, ?_⟩
    · exact List.mem_map_of_mem (fun p => (p.2, p.1)) hq
    · simp [hqe, hupper]
  rw [if_pos hf, hupper]

/-- Inputs matching no table entry (as a code or as a name) normalize to
`none`. -/
lemma normalize_state_invalid (s : String)
    (hname : ∀ p ∈ STATE_NAME_TO_CODE, pyLower (pyStrip s) ≠ pyLower p.1)
    (hcode : ∀ p ∈ STATE_NAME_TO_CODE, ¬(pyLen (pyStrip s) = 2 ∧ pyUpper (pyStrip s) = p.2)) :
    normalize_state (some s) = none := by
  by_cases h0 : s = ""
  · subst h0; rfl
  · simp only [normalize_state]
    rw [if_neg (by simp [h0])]
    by_cases h2 : pyLen (pyStrip s) = 2
    · rw [if_pos (by simp [h2])]
      rw [if_neg ?hcf]
      case hcf =>
        rw [List.find?_isSome]
        rintro ⟨p, hp, hpred⟩
        obtain ⟨q, hq, hqe⟩ := List.mem_map.mp hp
        have hp1 : p.1 = pyUpper (pyStrip s) := by simpa using hpred
        refine hcode q hq ⟨h2, ?_⟩
        rw [← hp1, ← hqe]
    · rw [if_neg (by simp [h2])]
      rw [if_neg ?hex]
      case hex =>
        rw [List.find?_isSome]
        rintro ⟨p, hp, hpred⟩
        have hp1 : p.1 = pyStrip s := by simpa using hpred
        exact hname p hp (by rw [hp1])
      cases hci : STATE_NAME_TO_CODE.find? (fun p => pyLower p.1 == pyLower (pyStrip s)) with
      | none => rfl
      | some p =>
          exfalso
          have hpred : pyLower p.1 = pyLower (pyStrip s) := by
            simpa using List.find?_some hci
          exact hname p (List.mem_of_find?_eq_some hci) hpred.symm

/-- The state normalizer is idempotent. -/
lemma normalize_state_idem (x : Option String) :
    normalize_state (normalize_state x) = normalize_state x := by
  match x with
  | none => rfl
  | some s =>
    cases h : normalize_state (some s) with
    | none => rfl
    | some c =>
        obtain ⟨p, hp, hpc⟩ := normalize_state_range s c h
        have hfix := stateCodes_fixed p hp
        rw [hpc] at hfix
        exact hfix

/-- C7: for every valid state input — a table full name in any letter case
or a canonical 2-letter code in any letter case, with surrounding whitespace
allowed — `normalize_state` returns the canonical uppercase code from the
fixed table; `None`, the empty string, and every input matching no table
entry return `null`; and `normalize_state` is idempotent. -/
theorem claim_C7_normalize_state :
    (∀ name code s, (name, code) ∈ STATE_NAME_TO_CODE →
        pyLower (pyStrip s) = pyLower name → pyLen (pyStrip s) ≠ 2 →
        normalize_state (some s) = some code)
    ∧ (∀ code s, code ∈ stateCodes →
        pyLen (pyStrip s) = 2 → pyUpper (pyStrip s) = code →
        normalize_state (some s) = some code)
    ∧ normalize_state none = none
    ∧ normalize_state (some "") = none
    ∧ (∀ s, (∀ p ∈ STATE_NAME_TO_CODE, pyLower (pyStrip s) ≠ pyLower p.1) →
        (∀ p ∈ STATE_NAME_TO_CODE, ¬(pyLen (pyStrip s) = 2 ∧ pyUpper (pyStrip s) = p.2)) →
        normalize_state (some s) = none)
    ∧ (∀ x, normalize_state (normalize_state x) = normalize_state x) := by
  exact ⟨normalize_state_full_name, normalize_state_code, rfl, rfl,
    normalize_state_invalid, normalize_state_idem⟩

/-- Witness for C7 at concrete inputs. -/
theorem claim_C7_normalize_state_witness :
    normalize_state (some "  uTah ") = some "UT"
    ∧ normalize_state (some " ut ") = some "UT"
    ∧ normalize_state (some "Atlantis") = none
    ∧ normalize_state (normalize_state (some "Utah")) = normalize_state (some "Utah") := by
  refine ⟨?_, ?_, ?_, ?_⟩
  · exact claim_C7_normalize_state.1 "Utah" "UT" "  uTah " (by decide) (by decide) (by decide)
  · exact claim_C7_normalize_state.2.1 "UT" " ut " (by decide) (by decide) (by decide)
  · exact claim_C7_normalize_state.2.2.2.2.1 "Atlantis" (by decide) (by decide)
  · exact claim_C7_normalize_state.2.2.2.2.2 (some "Utah")

/-! ## Lemmas about document field access and update -/

/-- The key list of a document. -/
def keys (d : Doc) : List String := d.map Prod.fst

@[simp] lemma getKey_nil (k : String) : getKey ([] : Doc) k = none := rfl

@[simp] lemma getKey_cons (p : String × PValue) (ds : Doc) (k : String) :
    getKey (p :: ds) k = if p.1 == k then some p.2 else getKey ds k := by
  simp only [getKey, List.find?]
  by_cases h : p.1 == k <;> simp [h]

@[simp] lemma hasKey_nil (k : String) : hasKey ([] : Doc) k = false := rfl

@[simp] lemma hasKey_cons (p : String × PValue) (ds : Doc) (k : String) :
    hasKey (p :: ds) k = (p.1 == k || hasKey ds k) := by
  simp only [hasKey, List.find?]
  by_cases h : p.1 == k <;> simp [h]

/-- Presence agrees with a successful read. -/
lemma hasKey_eq_isSome (d : Doc) (k : String) :
    hasKey d k = (getKey d k).isSome := by
  simp [hasKey, getKey]

/-- Presence is membership in the key list. -/
lemma hasKey_iff_mem_keys (d : Doc) (k : String) :
    hasKey d k = true ↔ k ∈ keys d := by
  induction d with
  | nil => simp [keys]
  | cons p ds ih =>
      simp only [hasKey_cons, keys, List.map_cons, List.mem_cons, Bool.or_eq_true,
        beq_iff_eq]
      rw [ih]
      constructor
      · rintro (h | h)
        · exact Or.inl h.symm
        · exact Or.inr h
      · rintro (h | h)
        · exact Or.inl h.symm
        · exact Or.inr h

/-- Reading an absent key. -/
lemma getKey_eq_none_of_hasKey_false (d : Doc) (k : String)
    (h : hasKey d k = false) : getKey d k = none := by
  rw [hasKey_eq_isSome] at h
  exact Option.not_isSome_iff_eq_none.mp (by simp [h])

/-- In-place replacement reads back the written value. -/
lemma getKey_mapRep_self (d : Doc) (k : String) (v : PValue)
    (h : hasKey d k = true) :
    getKey (d.map (fun p => if p.1 == k then (k, v) else p)) k = some v := by
  induction d with
  | nil => simp at h
  | cons p ds ih =>
      by_cases hp : p.1 = k
      · simp [hp]
      · rw [hasKey_cons] at h
        have h' : hasKey ds k = true := by simpa [hp] using h
        simpa [hp] using ih h'

/-- In-place replacement leaves other keys unread. -/
lemma getKey_mapRep_ne (d : Doc) (k k' : String) (v : PValue) (h : k' ≠ k) :
    getKey (d.map (fun p => if p.1 == k then (k, v) else p)) k' = getKey d k' := by
  induction d with
  | nil => rfl
  | cons p ds ih =>
      by_cases hp : p.1 = k <;> by_cases hp' : p.1 = k' <;>
        simp_all [Ne.symm h]

/-- In-place replacement preserves the key list. -/
lemma keys_mapRep (d : Doc) (k : String) (v : PValue) :
    keys (d.map (fun p => if p.1 == k then (k, v) else p)) = keys d := by
  induction d with
  | nil => rfl
  | cons p ds ih =>
      by_cases hp : p.1 = k <;> simp [keys, hp] <;> simpa [keys] using ih

/-- Appending a single fresh binding: reading other keys. -/
lemma getKey_append_single_ne (d : Doc) (k k' : String) (v : PValue) (h : k' ≠ k) :
    getKey (d ++ [(k, v)]) k' = getKey d k' := by
  induction d with
  | nil => simp [Ne.symm h]
  | cons p ds ih => by_cases hp : p.1 = k' <;> simp [hp, ih]

/-- Appending a single fresh binding: reading it back. -/
lemma getKey_append_single_self (d : Doc) (k : String) (v : PValue)
    (h : hasKey d k = false) :
    getKey (d ++ [(k, v)]) k = some v := by
  induction d with
  | nil => simp
  | cons p ds ih =>
      rw [hasKey_cons] at h
      have hp : ¬ p.1 = k := by
        intro hc; simp [hc] at h
      have h' : hasKey ds k = false := by simpa [hp] using h
      simpa [hp] using ih h'

/-- `setKey` reads back the written value. -/
lemma getKey_setKey_self (d : Doc) (k : String) (v : PValue) :
    getKey (setKey d k v) k = some v := by
  unfold setKey
  split
  · exact getKey_mapRep_self d k v (by assumption)
  · exact getKey_append_single_self d k v (by simpa using ‹¬ hasKey d k = true›)

/-- `setKey` leaves every other key unchanged. -/
lemma getKey_setKey_ne (d : Doc) (k k' : String) (v : PValue) (h : k' ≠ k) :
    getKey (setKey d k v) k' = getKey d k' := by
  unfold setKey
  split
  · exact getKey_mapRep_ne d k k' v h
  · exact getKey_append_single_ne d k k' v h

/-- `setKey` makes the written key present. -/
lemma hasKey_setKey_self (d : Doc) (k : String) (v : PValue) :
    hasKey (setKey d k v) k = true := by
  rw [hasKey_eq_isSome, getKey_setKey_self]; rfl

/-- `setKey` does not affect presence of other keys. -/
lemma hasKey_setKey_ne (d : Doc) (k k' : String) (v : PValue) (h : k' ≠ k) :
    hasKey (setKey d k v) k' = hasKey d k' := by
  rw [hasKey_eq_isSome, hasKey_eq_isSome, getKey_setKey_ne d k k' v h]

/-- The key list after `setKey`. -/
lemma keys_setKey (d : Doc) (k : String) (v : PValue) :
    keys (setKey d k v) = if hasKey d k then keys d else keys d ++ [k] := by
  unfold setKey
  split <;> rename_i h
  · exact keys_mapRep d k v
  · simp [keys]

/-! ## Frame properties of the record-level normalizers (C8) -/

/-- A successful conditional field normalization changes at most field `k`
and preserves key presence exactly. -/
lemma normField_frame (r : Doc) (k : String) (f : PValue → Option PValue)
    (out : Doc) (h : normField r k f = some out) :
    (∀ k', k' ≠ k → getKey out k' = getKey r k') ∧
    (∀ k', hasKey out k' = hasKey r k') := by
  unfold normField at h
  split at h
  · rename_i hk
    cases hv : getKey r k with
    | none =>
        rw [hv] at h
        cases h
        exact ⟨fun _ _ => rfl, fun _ => rfl⟩
    | some v =>
        rw [hv] at h
        obtain ⟨v2, hfv, hout⟩ := Option.map_eq_some'.mp h
        constructor
        · intro k' hk'
          rw [← hout]
          exact getKey_setKey_ne r k k' v2 hk'
        · intro k'
          by_cases hkk : k' = k
          · subst hkk
            rw [← hout, hasKey_eq_isSome, getKey_setKey_self, hk]
            rfl
          · rw [← hout]
            exact hasKey_setKey_ne r k k' v2 hkk
  · cases h
    exact ⟨fun _ _ => rfl, fun _ => rfl⟩

/-- A successful conditional field normalization stores exactly the
normalized value of the field. -/
lemma normField_value (r : Doc) (k : String) (f : PValue → Option PValue)
    (out : Doc) (h : normField r k f = some out) :
    (getKey r k).bind f = getKey out k := by
  unfold normField at h
  split at h
  · rename_i hk
    cases hv : getKey r k with
    | none =>
        rw [hv] at h
        cases h
        rw [hv]
        rfl
    | some v =>
        rw [hv] at h
        obtain ⟨v2, hfv, hout⟩ := Option.map_eq_some'.mp h
        rw [← hout, getKey_setKey_self, Option.some_bind, hfv]
  · rename_i hk
    cases h
    rw [getKey_eq_none_of_hasKey_false r k (by simpa using hk)]
    rfl

/-- Decompose a successful `normalize_politician` run into its steps. -/
lemma normalize_politician_split (now : Nat) (raw out : Doc)
    (h : normalize_politician now raw = some out) :
    ∃ r1 r2 r3,
      normField raw "state" normalize_state_value = some r1 ∧
      normField r1 "party" (normalize_party_value "I") = some r2 ∧
      normField r2 "chamber" normalize_chamber_value = some r3 ∧
      out = (if hasKey (if hasKey r3 "last_updated" then r3
                        else setKey r3 "last_updated" (.vTime now)) "in_office" then
               (if hasKey r3 "last_updated" then r3
                else setKey r3 "last_updated" (.vTime now))
             else
               setKey (if hasKey r3 "last_updated" then r3
                       else setKey r3 "last_updated" (.vTime now)) "in_office" (.vBool true)) := by
  unfold normalize_politician at h
  cases h1 : normField raw "state" normalize_state_value with
  | none => rw [h1] at h; simp at h
  | some r1 =>
      rw [h1] at h
      simp only [Option.bind_eq_bind, Option.some_bind] at h
      cases h2 : normField r1 "party" (normalize_party_value "I") with
      | none => rw [h2] at h; simp at h
      | some r2 =>
          rw [h2] at h
          simp only [Option.bind_eq_bind, Option.some_bind] at h
          cases h3 : normField r2 "chamber" normalize_chamber_value with
          | none => rw [h3] at h; simp at h
          | some r3 =>
              rw [h3] at h
              simp only [Option.bind_eq_bind, Option.some_bind] at h
              refine ⟨r1, r2, r3, rfl, h2, h3, ?_⟩
              simpa using h.symm

/-- Stamping a default leaves other keys unchanged. -/
lemma stamp_getKey_ne (r : Doc) (k k' : String) (v : PValue) (hne : k' ≠ k) :
    getKey (if hasKey r k then r else setKey r k v) k' = getKey r k' := by
  split
  · rfl
  · exact getKey_setKey_ne r k k' v hne

/-- Stamping a default keeps a present value. -/
lemma stamp_getKey_present (r : Doc) (k : String) (v : PValue)
    (hp : hasKey r k = true) :
    getKey (if hasKey r k then r else setKey r k v) k = getKey r k := by
  simp [hp]

/-- Stamping a default writes the default when the key is absent. -/
lemma stamp_getKey_absent (r : Doc) (k : String) (v : PValue)
    (hp : hasKey r k = false) :
    getKey (if hasKey r k then r else setKey r k v) k = some v := by
  rw [if_neg (by simp [hp])]
  exact getKey_setKey_self r k v

/-- Presence after stamping a default. -/
lemma stamp_hasKey (r : Doc) (k : String) (v : PValue) (k' : String) :
    hasKey (if hasKey r k then r else setKey r k v) k' = (hasKey r k' || (k' == k)) := by
  by_cases hp : hasKey r k = true
  · rw [if_pos hp]
    by_cases hkk : k' = k
    · subst hkk; simp [hp]
    · simp [hkk]
  · rw [if_neg hp]
    by_cases hkk : k' = k
    · subst hkk; simp [hasKey_setKey_self]
    · rw [hasKey_setKey_ne r k k' v hkk]; simp [hkk]

/-- Decompose a successful `normalize_contribution` run. -/
lemma normalize_contribution_split (now : Nat) (raw out : Doc)
    (h : normalize_contribution now raw = some out) :
    ∃ r1, normField raw "contributor_state" normalize_state_value = some r1 ∧
      out = (if hasKey r1 "last_updated" then r1
             else setKey r1 "last_updated" (.vTime now)) := by
  unfold normalize_contribution at h
  cases h1 : normField raw "contributor_state" normalize_state_value with
  | none => rw [h1] at h; simp at h
  | some r1 =>
      rw [h1] at h
      simp only [Option.bind_eq_bind, Option.some_bind] at h
      exact ⟨r1, rfl, by simpa using h.symm⟩

/-- Decompose a successful `normalize_legislation` run. -/
lemma normalize_legislation_split (now : Nat) (raw out : Doc)
    (h : normalize_legislation now raw = some out) :
    ∃ r1, normField raw "status" normalize_bill_status_value = some r1 ∧
      out = (if hasKey r1 "last_updated" then r1
             else setKey r1 "last_updated" (.vTime now)) := by
  unfold normalize_legislation at h
  cases h1 : normField raw "status" normalize_bill_status_value with
  | none => rw [h1] at h; simp at h
  | some r1 =>
      rw [h1] at h
      simp only [Option.bind_eq_bind, Option.some_bind] at h
      exact ⟨r1, rfl, by simpa using h.symm⟩

/-- C8 counterexample: `normalize_politician` adds an `in_office` field that
was not present in the input, beyond the permitted `last_updated` stamp. -/
theorem claim_C8_counterexample :
    normalize_politician 0 [("bioguide_id", PValue.vStr "L000577")]
      = some [("bioguide_id", PValue.vStr "L000577"),
              ("last_updated", PValue.vTime 0),
              ("in_office", PValue.vBool true)]
    ∧ hasKey [("bioguide_id", PValue.vStr "L000577")] "in_office" = false := by
  exact ⟨by decide, by decide⟩

/-- C8 (amended): each record-level normalizer rewrites exactly the fields
covered by its normalization rules, stamps `last_updated` iff absent, leaves
every other field present and unchanged, and adds no other field — except
that `normalize_politician` additionally defaults `in_office` to true when
it is absent. -/
theorem claim_C8_record_normalizers :
    (∀ now raw out, normalize_politician now raw = some out →
      (∀ k, k ∉ ["state", "party", "chamber", "last_updated", "in_office"] →
          getKey out k = getKey raw k)
      ∧ (getKey raw "state").bind normalize_state_value = getKey out "state"
      ∧ (getKey raw "party").bind (normalize_party_value "I") = getKey out "party"
      ∧ (getKey raw "chamber").bind normalize_chamber_value = getKey out "chamber"
      ∧ (hasKey raw "last_updated" = true →
          getKey out "last_updated" = getKey raw "last_updated")
      ∧ (hasKey raw "last_updated" = false →
          getKey out "last_updated" = some (.vTime now))
      ∧ (hasKey raw "in_office" = true →
          getKey out "in_office" = getKey raw "in_office")
      ∧ (hasKey raw "in_office" = false →
          getKey out "in_office" = some (.vBool true))
      ∧ (∀ k, hasKey out k = (hasKey raw k || k == "last_updated" || k == "in_office")))
    ∧ (∀ now raw out, normalize_contribution now raw = some out →
      (∀ k, k ∉ ["contributor_state", "last_updated"] → getKey out k = getKey raw k)
      ∧ (getKey raw "contributor_state").bind normalize_state_value
          = getKey out "contributor_state"
      ∧ (hasKey raw "last_updated" = true →
          getKey out "last_updated" = getKey raw "last_updated")
      ∧ (hasKey raw "last_updated" = false →
          getKey out "last_updated" = some (.vTime now))
      ∧ (∀ k, hasKey out k = (hasKey raw k || k == "last_updated")))
    ∧ (∀ now raw out, normalize_legislation now raw = some out →
      (∀ k, k ∉ ["status", "last_updated"] → getKey out k = getKey raw k)
      ∧ (getKey raw "status").bind normalize_bill_status_value = getKey out "status"
      ∧ (hasKey raw "last_updated" = true →
          getKey out "last_updated" = getKey raw "last_updated")
      ∧ (hasKey raw "last_updated" = false →
          getKey out "last_updated" = some (.vTime now))
      ∧ (∀ k, hasKey out k = (hasKey raw k || k == "last_updated"))) := by
  refine ⟨?_, ?_, ?_⟩
  · intro now raw out h
    obtain ⟨r1, r2, r3, h1, h2, h3, hout⟩ := normalize_politician_split now raw out h
    obtain ⟨f1, p1⟩ := normField_frame _ _ _ _ h1
    obtain ⟨f2, p2⟩ := normField_frame _ _ _ _ h2
    obtain ⟨f3, p3⟩ := normField_frame _ _ _ _ h3
    have v1 := normField_value _ _ _ _ h1
    have v2 := normField_value _ _ _ _ h2
    have v3 := normField_value _ _ _ _ h3
    subst hout
    refine ⟨?_, ?_, ?_, ?_, ?_, ?_, ?_, ?_, ?_⟩
    · intro k hk
      simp only [List.mem_cons, List.not_mem_nil, or_false] at hk
      push_neg at hk
      obtain ⟨hk1, hk2, hk3, hk4, hk5⟩ := hk
      rw [stamp_getKey_ne _ _ _ _ hk5, stamp_getKey_ne _ _ _ _ hk4,
        f3 k hk3, f2 k hk2, f1 k hk1]
    · rw [stamp_getKey_ne _ "in_office" "state" _ (by decide),
        stamp_getKey_ne _ "last_updated" "state" _ (by decide),
        f3 "state" (by decide), f2 "state" (by decide), v1]
    · rw [stamp_getKey_ne _ "in_office" "party" _ (by decide),
        stamp_getKey_ne _ "last_updated" "party" _ (by decide),
        f3 "party" (by decide), ← f1 "party" (by decide), v2]
    · rw [stamp_getKey_ne _ "in_office" "chamber" _ (by decide),
        stamp_getKey_ne _ "last_updated" "chamber" _ (by decide),
        ← f1 "chamber" (by decide), ← f2 "chamber" (by decide), v3]
    · intro hp
      have hp3 : hasKey r3 "last_updated" = true := by
        rw [p3, p2, p1]; exact hp
      rw [stamp_getKey_ne _ "in_office" "last_updated" _ (by decide),
        stamp_getKey_present _ _ _ hp3,
        f3 "last_updated" (by decide), f2 "last_updated" (by decide),
        f1 "last_updated" (by decide)]
    · intro hp
      have hp3 : hasKey r3 "last_updated" = false := by
        rw [p3, p2, p1]; exact hp
      rw [stamp_getKey_ne _ "in_office" "last_updated" _ (by decide),
        stamp_getKey_absent _ _ _ hp3]
    · intro hp
      have hp4 : hasKey (if hasKey r3 "last_updated" then r3
          else setKey r3 "last_updated" (.vTime now)) "in_office" = true := by
        rw [stamp_hasKey, p3, p2, p1]
        simp [hp]
      rw [stamp_getKey_present _ _ _ hp4,
        stamp_getKey_ne _ "last_updated" "in_office" _ (by decide),
        f3 "in_office" (by decide), f2 "in_office" (by decide),
        f1 "in_office" (by decide)]
    · intro hp
      have hp4 : hasKey (if hasKey r3 "last_updated" then r3
          else setKey r3 "last_updated" (.vTime now)) "in_office" = false := by
        rw [stamp_hasKey, p3, p2, p1]
        simp [hp]
      rw [stamp_getKey_absent _ _ _ hp4]
    · intro k
      rw [stamp_hasKey, stamp_hasKey, p3, p2, p1, Bool.or_assoc]
  · intro now raw out h
    obtain ⟨r1, h1, hout⟩ := normalize_contribution_split now raw out h
    obtain ⟨f1, p1⟩ := normField_frame _ _ _ _ h1
    have v1 := normField_value _ _ _ _ h1
    subst hout
    refine ⟨?_, ?_, ?_, ?_, ?_⟩
    · intro k hk
      simp only [List.mem_cons, List.not_mem_nil, or_false] at hk
      push_neg at hk
      obtain ⟨hk1, hk2⟩ := hk
      rw [stamp_getKey_ne _ _ _ _ hk2, f1 k hk1]
    · rw [v1, stamp_getKey_ne _ _ _ _ (by decide)]
    · intro hp
      have hp1 : hasKey r1 "last_updated" = true := by rw [p1]; exact hp
      rw [stamp_getKey_present _ _ _ hp1, f1 "last_updated" (by decide)]
    · intro hp
      have hp1 : hasKey r1 "last_updated" = false := by rw [p1]; exact hp
      rw [stamp_getKey_absent _ _ _ hp1]
    · intro k
      rw [stamp_hasKey, p1]
  · intro now raw out h
    obtain ⟨r1, h1, hout⟩ := normalize_legislation_split now raw out h
    obtain ⟨f1, p1⟩ := normField_frame _ _ _ _ h1
    have v1 := normField_value _ _ _ _ h1
    subst hout
    refine ⟨?_, ?_, ?_, ?_, ?_⟩
    · intro k hk
      simp only [List.mem_cons, List.not_mem_nil, or_false] at hk
      push_neg at hk
      obtain ⟨hk1, hk2⟩ := hk
      rw [stamp_getKey_ne _ _ _ _ hk2, f1 k hk1]
    · rw [v1, stamp_getKey_ne _ _ _ _ (by decide)]
    · intro hp
      have hp1 : hasKey r1 "last_updated" = true := by rw [p1]; exact hp
      rw [stamp_getKey_present _ _ _ hp1, f1 "last_updated" (by decide)]
    · intro hp
      have hp1 : hasKey r1 "last_updated" = false := by rw [p1]; exact hp
      rw [stamp_getKey_absent _ _ _ hp1]
    · intro k
      rw [stamp_hasKey, p1]

/-- Witness for the amended C8 at a concrete politician record. -/
theorem claim_C8_record_normalizers_witness :
    normalize_politician 0
      [("full_name", PValue.vStr "Lee, Mike"), ("state", PValue.vStr "Utah"),
       ("party", PValue.vStr "Republican"), ("chamber", PValue.vStr "Senate"),
       ("bioguide_id", PValue.vStr "L000577"), ("in_office", PValue.vBool true)]
      = some [("full_name", PValue.vStr "Lee, Mike"), ("state", PValue.vStr "UT"),
              ("party", PValue.vStr "R"), ("chamber", PValue.vStr "senate"),
              ("bioguide_id", PValue.vStr "L000577"), ("in_office", PValue.vBool true),
              ("last_updated", PValue.vTime 0)]
    ∧ getKey [("full_name", PValue.vStr "Lee, Mike"), ("state", PValue.vStr "UT"),
              ("party", PValue.vStr "R"), ("chamber", PValue.vStr "senate"),
              ("bioguide_id", PValue.vStr "L000577"), ("in_office", PValue.vBool true),
              ("last_updated", PValue.vTime 0)] "full_name"
        = getKey [("full_name", PValue.vStr "Lee, Mike"), ("state", PValue.vStr "Utah"),
              ("party", PValue.vStr "Republican"), ("chamber", PValue.vStr "Senate"),
              ("bioguide_id", PValue.vStr "L000577"),
              ("in_office", PValue.vBool true)] "full_name" := by
  have h : normalize_politician 0
      [("full_name", PValue.vStr "Lee, Mike"), ("state", PValue.vStr "Utah"),
       ("party", PValue.vStr "Republican"), ("chamber", PValue.vStr "Senate"),
       ("bioguide_id", PValue.vStr "L000577"), ("in_office", PValue.vBool true)]
      = some [("full_name", PValue.vStr "Lee, Mike"), ("state", PValue.vStr "UT"),
              ("party", PValue.vStr "R"), ("chamber", PValue.vStr "senate"),
              ("bioguide_id", PValue.vStr "L000577"), ("in_office", PValue.vBool true),
              ("last_updated", PValue.vTime 0)] := by decide
  refine ⟨h, ?_⟩
  exact (claim_C8_record_normalizers.1 0 _ _ h).1 "full_name" (by decide)

/-! ## MongoDB collection model -/

/-- Mongo equality match for one field: a missing field matches only a null
query value (Mongo treats a missing field as null). -/
def mongoEq (d : Doc) (k : String) (v : PValue) : Bool :=
  match getKey d k with
  | some w => w == v
  | none => v == PValue.vNone

/-- Match a conjunction of field equalities. -/
def mongoMatch (qf : List (String × PValue)) (d : Doc) : Bool :=
  qf.all (fun kv => mongoEq d kv.1 kv.2)

/-- Apply a `$set` document: write each field in order. -/
def applySet (d : Doc) (fields : Doc) : Doc :=
  fields.foldl (fun acc kv => setKey acc kv.1 kv.2) d

/-- Update the first document matching `q` (Mongo `update_one`). -/
def updateFirstMatch (q : Doc → Bool) (f : Doc → Doc) : List Doc → List Doc
  | [] => []
  | d :: ds => if q d then f d :: ds else d :: updateFirstMatch q f ds

/-- Mongo `update_one(query, {"$set": fields}, upsert=True)`; returns the new
collection and whether a new document was inserted. -/
def mongoUpsert (qf : List (String × PValue)) (fields : Doc) (S : List Doc) :
    List Doc × Bool :=
  if S.any (mongoMatch qf) then
    (updateFirstMatch (mongoMatch qf) (fun d => applySet d fields) S, false)
  else
    (S ++ [applySet qf fields], true)

/-- Mongo `update_one(query, {"$set": fields})` without upsert; returns the
new collection, whether a document matched, and whether it was modified. -/
def mongoUpdateOne (qf : List (String × PValue)) (fields : Doc) (S : List Doc) :
    List Doc × Bool × Bool :=
  match S.find? (mongoMatch qf) with
  | none => (S, false, false)
  | some d =>
      (updateFirstMatch (mongoMatch qf) (fun x => applySet x fields) S, true,
       !(applySet d fields == d))

/-- Mongo `update_many(query, {"$set": fields})`. -/
def mongoUpdateMany (q : Doc → Bool) (fields : Doc) (S : List Doc) : List Doc :=
  S.map (fun d => if q d then applySet d fields else d)

/-! ## The Politician model and the seat-conflict loader -/

/-- The `Politician` pydantic model (enum fields carry their dump values). -/
structure Politician where
  bioguide_id : String
  first_name : String
  last_name : String
  full_name : String
  party : String
  state : String
  chamber : String
  district : Option Int
  in_office : Bool
  title : Option String
  website : Option String
  phone : Option String
  office : Option String
  committees : List PValue
  last_updated : Nat
deriving DecidableEq

/-- `Politician.model_dump()`, in pydantic field order. -/
def Politician.model_dump (p : Politician) : Doc :=
  [("bioguide_id", .vStr p.bioguide_id), ("first_name", .vStr p.first_name),
   ("last_name", .vStr p.last_name), ("full_name", .vStr p.full_name),
   ("party", .vStr p.party), ("state", .vStr p.state), ("chamber", .vStr p.chamber),
   ("district", optIV p.district), ("in_office", .vBool p.in_office),
   ("title", optSV p.title), ("website", optSV p.website), ("phone", optSV p.phone),
   ("office", optSV p.office), ("committees", .vList p.committees),
   ("last_updated", .vTime p.last_updated)]

/-- The seat-invalidation query of `CongressMembersIngester.load`: same
state, district and chamber `house`, currently in office, different
bioguide id. -/
def houseSeatQuery (p : Politician) (d : Doc) : Bool :=
  mongoMatch [("state", .vStr p.state), ("district", optIV p.district),
              ("chamber", .vStr "house"), ("in_office", .vBool true)] d
  && !(mongoEq d "bioguide_id" (.vStr p.bioguide_id))

/-- The `$set` document used to flip a superseded seat holder. -/
def flipFields (now : Nat) : Doc :=
  [("in_office", .vBool false), ("last_updated", .vTime now)]

/-- `CongressMembersIngester.load`: for a House member, first flip every
other active holder of the same seat; then normalize the model dump and
upsert it by `bioguide_id`. -/
def politicianLoad (now : Nat) (p : Politician) (S : List Doc) :
    Option (List Doc × Bool) :=
  let S1 := if p.chamber == "house" then
      mongoUpdateMany (houseSeatQuery p) (flipFields now) S
    else S
  (normalize_politician now p.model_dump).map
    (fun nd => mongoUpsert [("bioguide_id", .vStr p.bioguide_id)] nd S1)

/-- The normalized model dump in closed form. -/
def normDump (p : Politician) : Doc :=
  [("bioguide_id", .vStr p.bioguide_id), ("first_name", .vStr p.first_name),
   ("last_name", .vStr p.last_name), ("full_name", .vStr p.full_name),
   ("party", .vStr (normalize_party (some p.party) "I")),
   ("state", optSV (normalize_state (some p.state))),
   ("chamber", optSV (normalize_chamber (some p.chamber))),
   ("district", optIV p.district), ("in_office", .vBool p.in_office),
   ("title", optSV p.title), ("website", optSV p.website), ("phone", optSV p.phone),
   ("office", optSV p.office), ("committees", .vList p.committees),
   ("last_updated", .vTime p.last_updated)]

/-- Normalizing a string value runs the state normalizer. -/
lemma normalize_state_value_vStr (s : String) :
    normalize_state_value (.vStr s) = some (optSV (normalize_state (some s))) := by
  unfold normalize_state_value
  by_cases h : s = ""
  · subst h; simp [pyFalsy, normalize_state, optSV]
  · rw [if_neg (by simp [pyFalsy, h])]

/-- Normalizing a string value runs the party normalizer. -/
lemma normalize_party_value_vStr (dflt s : String) :
    normalize_party_value dflt (.vStr s) = some (.vStr (normalize_party (some s) dflt)) := by
  unfold normalize_party_value
  by_cases h : s = ""
  · subst h; simp [pyFalsy, normalize_party]
  · rw [if_neg (by simp [pyFalsy, h])]

/-- Normalizing a string value runs the chamber normalizer. -/
lemma normalize_chamber_value_vStr (s : String) :
    normalize_chamber_value (.vStr s) = some (optSV (normalize_chamber (some s))) := by
  unfold normalize_chamber_value
  by_cases h : s = ""
  · subst h; simp [pyFalsy, normalize_chamber, optSV]
  · rw [if_neg (by simp [pyFalsy, h])]

/-- Normalizing a model dump always succeeds and yields the closed form. -/
lemma normalize_politician_model_dump (now : Nat) (p : Politician) :
    normalize_politician now p.model_dump = some (normDump p) := by
  simp [normalize_politician, Politician.model_dump, normDump, normField,
    normalize_state_value_vStr, normalize_party_value_vStr,
    normalize_chamber_value_vStr, setKey, hasKey, getKey, List.find?]

/-! ## C1: the seat-invalidation frame -/

/-- A stored document carrying the four seat fields. -/
def docHasSeatKeys (d : Doc) : Bool :=
  hasKey d "state" && hasKey d "district" && hasKey d "chamber" && hasKey d "in_office"

/-- The claim-level reading of "holds the same seat and is active". -/
def claimSeat (p : Politician) (d : Doc) : Prop :=
  getKey d "state" = some (.vStr p.state) ∧
  getKey d "district" = some (optIV p.district) ∧
  getKey d "chamber" = some (.vStr "house") ∧
  getKey d "in_office" = some (.vBool true)

instance (p : Politician) (d : Doc) : Decidable (claimSeat p d) := by
  unfold claimSeat; infer_instance

/-- On documents that carry the field, the Mongo equality match is plain
field equality. -/
lemma mongoEq_iff_of_hasKey (d : Doc) (k : String) (v : PValue)
    (h : hasKey d k = true) :
    mongoEq d k v = true ↔ getKey d k = some v := by
  unfold mongoEq
  rw [hasKey_eq_isSome] at h
  cases hg : getKey d k with
  | none => rw [hg] at h; simp at h
  | some w => simp

/-- A field reading different from a string query value fails the match. -/
lemma mongoEq_false_of_ne (d : Doc) (k : String) (x : String)
    (h : getKey d k ≠ some (.vStr x)) : mongoEq d k (.vStr x) = false := by
  unfold mongoEq
  cases hg : getKey d k with
  | none => simp
  | some w =>
      rw [hg] at h
      simp only [beq_eq_false_iff_ne, ne_eq]
      intro he
      exact h (by rw [he])

/-- The match against a single-field query. -/
lemma mongoMatch_single (k : String) (v : PValue) (d : Doc) :
    mongoMatch [(k, v)] d = mongoEq d k v := by
  simp [mongoMatch]

/-- A field reading equal to a string query value passes the match. -/
lemma mongoEq_true_of_eq (d : Doc) (k : String) (x : String)
    (hg : getKey d k = some (.vStr x)) : mongoEq d k (.vStr x) = true := by
  unfold mongoEq
  rw [hg]
  simp

/-- On well-formed documents, the code's seat query coincides with the
claim-level seat predicate plus a differing bioguide id. -/
lemma houseSeatQuery_iff (p : Politician) (d : Doc)
    (hwf : docHasSeatKeys d = true) :
    houseSeatQuery p d = true ↔
      (claimSeat p d ∧ getKey d "bioguide_id" ≠ some (.vStr p.bioguide_id)) := by
  unfold docHasSeatKeys at hwf
  simp only [Bool.and_eq_true] at hwf
  obtain ⟨⟨⟨h1, h2⟩, h3⟩, h4⟩ := hwf
  unfold houseSeatQuery mongoMatch
  simp only [List.all_cons, List.all_nil, Bool.and_true, Bool.and_eq_true,
    Bool.not_eq_true']
  rw [mongoEq_iff_of_hasKey d "state" _ h1, mongoEq_iff_of_hasKey d "district" _ h2,
    mongoEq_iff_of_hasKey d "chamber" _ h3, mongoEq_iff_of_hasKey d "in_office" _ h4]
  unfold claimSeat
  constructor
  · rintro ⟨hseat, hb⟩
    refine ⟨hseat, fun hg => ?_⟩
    rw [mongoEq_true_of_eq d _ _ hg] at hb
    exact absurd hb (by simp)
  · rintro ⟨hseat, hb⟩
    exact ⟨hseat, mongoEq_false_of_ne d _ _ hb⟩

/-- Updating the first match preserves length. -/
lemma length_updateFirstMatch (q : Doc → Bool) (f : Doc → Doc) (l : List Doc) :
    (updateFirstMatch q f l).length = l.length := by
  induction l with
  | nil => rfl
  | cons d ds ih =>
      unfold updateFirstMatch
      split <;> simp [ih]

/-- Positions that do not match are untouched by `updateFirstMatch`. -/
lemma getElem?_updateFirstMatch_of_not (q : Doc → Bool) (f : Doc → Doc)
    (l : List Doc) (i : Nat) (hi : i < l.length) (h : q l[i] = false) :
    (updateFirstMatch q f l)[i]? = some l[i] := by
  induction l generalizing i with
  | nil => simp at hi
  | cons d ds ih =>
      unfold updateFirstMatch
      cases i with
      | zero =>
          simp only [List.getElem_cons_zero] at h
          rw [if_neg (by simp [h])]
          simp
      | succ j =>
          have hj : j < ds.length := by simpa using hi
          have h' : q ds[j] = false := by simpa using h
          split
          · simp only [List.getElem?_cons_succ, List.getElem_cons_succ]
            rw [List.getElem?_eq_getElem hj]
          · simp only [List.getElem?_cons_succ, List.getElem_cons_succ]
            exact ih j hj h'

/-- Positions whose document does not match the upsert key are untouched by
the upsert. -/
lemma upsert_getElem?_of_not (qf : List (String × PValue)) (fields : Doc)
    (S : List Doc) (i : Nat) (hi : i < S.length)
    (h : mongoMatch qf S[i] = false) :
    (mongoUpsert qf fields S).1[i]? = some S[i] := by
  unfold mongoUpsert
  split
  · exact getElem?_updateFirstMatch_of_not _ _ S i hi h
  · simp only
    rw [List.getElem?_append_left (by exact hi), List.getElem?_eq_getElem hi]

/-- Field values outside `in_office` and `last_updated` survive a flip. -/
lemma getKey_flip (d : Doc) (now : Nat) (k : String)
    (hk1 : k ≠ "in_office") (hk2 : k ≠ "last_updated") :
    getKey (applySet d (flipFields now)) k = getKey d k := by
  show getKey (setKey (setKey d "in_office" (.vBool false)) "last_updated" (.vTime now)) k
      = getKey d k
  rw [getKey_setKey_ne _ _ _ _ hk2, getKey_setKey_ne _ _ _ _ hk1]

/-- C1: for every ingested House-member record, the conflict-resolution load
flips exactly the other records holding the same seat — same state, same
district, chamber `house`, `in_office` true, different bioguide id — to
`in_office = false` stamping `last_updated`, and leaves every other record
whose bioguide id differs from the incoming one (in particular every record
of another seat and every Senate record, under any load) unchanged. -/
theorem claim_C1_seat_invalidation (now : Nat) (p : Politician) (S : List Doc)
    (out : List Doc × Bool) (h : politicianLoad now p S = some out)
    (hwf : ∀ d ∈ S, docHasSeatKeys d = true)
    (i : Nat) (hi : i < S.length)
    (hbio : getKey S[i] "bioguide_id" ≠ some (.vStr p.bioguide_id)) :
    out.1[i]? = some (if p.chamber = "house" ∧ claimSeat p S[i]
                      then applySet S[i] (flipFields now) else S[i]) := by
  simp only [politicianLoad] at h
  rw [normalize_politician_model_dump] at h
  simp only [Option.map_some', Option.some.injEq] at h
  subst h
  by_cases hch : p.chamber = "house"
  · have hcb : (p.chamber == "house") = true := by simp [hch]
    rw [if_pos hcb]
    have hlen : i < (mongoUpdateMany (houseSeatQuery p) (flipFields now) S).length := by
      simpa [mongoUpdateMany] using hi
    have hS1i : (mongoUpdateMany (houseSeatQuery p) (flipFields now) S)[i] =
        (if houseSeatQuery p S[i] then applySet S[i] (flipFields now) else S[i]) := by
      simp [mongoUpdateMany]
    have hbio1 : getKey (mongoUpdateMany (houseSeatQuery p) (flipFields now) S)[i]
        "bioguide_id" = getKey S[i] "bioguide_id" := by
      rw [hS1i]
      split
      · exact getKey_flip S[i] now "bioguide_id" (by decide) (by decide)
      · rfl
    have hnm : mongoMatch [("bioguide_id", .vStr p.bioguide_id)]
        (mongoUpdateMany (houseSeatQuery p) (flipFields now) S)[i] = false := by
      rw [mongoMatch_single]
      apply mongoEq_false_of_ne
      rw [hbio1]
      exact hbio
    have := upsert_getElem?_of_not [("bioguide_id", .vStr p.bioguide_id)] (normDump p)
      (mongoUpdateMany (houseSeatQuery p) (flipFields now) S) i hlen hnm
    rw [this, hS1i]
    cases hq : houseSeatQuery p S[i] with
    | true =>
        have hcs := (houseSeatQuery_iff p S[i] (hwf S[i] (List.getElem_mem hi))).mp hq
        rw [if_pos rfl, if_pos ⟨hch, hcs.1⟩]
    | false =>
        have hcs : ¬ claimSeat p S[i] := by
          intro hc
          have := (houseSeatQuery_iff p S[i] (hwf S[i] (List.getElem_mem hi))).mpr ⟨hc, hbio⟩
          rw [hq] at this
          exact Bool.false_ne_true this
        rw [if_neg (by simp), if_neg (by intro hc; exact hcs hc.2)]
  · have hcb : (p.chamber == "house") = false := by simp [hch]
    rw [if_neg (by simp [hcb])]
    have hnm : mongoMatch [("bioguide_id", .vStr p.bioguide_id)] S[i] = false := by
      rw [mongoMatch_single]
      exact mongoEq_false_of_ne _ _ _ hbio
    rw [upsert_getElem?_of_not [("bioguide_id", .vStr p.bioguide_id)] (normDump p) S i hi hnm]
    rw [if_neg (by intro hc; exact hch hc.1)]

/-- Concrete incoming House member used in witnesses. -/
def c1Pol : Politician :=
  { bioguide_id := "B2", first_name := "Jane", last_name := "Doe",
    full_name := "Jane Doe", party := "R", state := "UT", chamber := "house",
    district := some 1, in_office := true, title := some "Representative",
    website := none, phone := none, office := none, committees := [],
    last_updated := 5 }

/-- Concrete previously-active holder of the same seat. -/
def c1Old : Doc :=
  [("bioguide_id", .vStr "B1"), ("state", .vStr "UT"), ("district", .vInt 1),
   ("chamber", .vStr "house"), ("in_office", .vBool true)]

/-- The flipped form of `c1Old`. -/
def c1OldFlipped : Doc :=
  [("bioguide_id", .vStr "B1"), ("state", .vStr "UT"), ("district", .vInt 1),
   ("chamber", .vStr "house"), ("in_office", .vBool false),
   ("last_updated", .vTime 9)]

/-- The freshly upserted document for `c1Pol`. -/
def c1New : Doc :=
  [("bioguide_id", .vStr "B2"), ("first_name", .vStr "Jane"),
   ("last_name", .vStr "Doe"), ("full_name", .vStr "Jane Doe"),
   ("party", .vStr "R"), ("state", .vStr "UT"), ("chamber", .vStr "house"),
   ("district", .vInt 1), ("in_office", .vBool true),
   ("title", .vStr "Representative"), ("website", .vNone), ("phone", .vNone),
   ("office", .vNone), ("committees", .vList []), ("last_updated", .vTime 5)]

/-- Witness for C1 at a concrete store. -/
theorem claim_C1_seat_invalidation_witness :
    politicianLoad 9 c1Pol [c1Old] = some ([c1OldFlipped, c1New], true)
    ∧ ([c1OldFlipped, c1New], true).1[0]? =
        some (if c1Pol.chamber = "house" ∧ claimSeat c1Pol c1Old
              then applySet c1Old (flipFields 9) else c1Old) := by
  refine ⟨by decide, ?_⟩
  exact claim_C1_seat_invalidation 9 c1Pol [c1Old] ([c1OldFlipped, c1New], true)
    (by decide) (by decide) 0 (by decide) (by decide)

/-! ## Contact-info enrichment (C6) -/

/-- Run statistics of an ingester (`self.stats`). -/
structure Stats where
  processed : Nat
  inserted : Nat
  updated : Nat
  errors : Nat
  started_at : Option Nat
  completed_at : Option Nat
deriving DecidableEq

/-- Fresh statistics. -/
def initStats : Stats := ⟨0, 0, 0, 0, none, none⟩

/-- The bioguide id field of a stored document. -/
def idOf (d : Doc) : Option PValue := getKey d "bioguide_id"

/-- The non-null contact fields to write, with the `last_updated` stamp. -/
def contactFields (now : Nat) (ci : Doc) : Doc :=
  (ci.filter (fun kv => kv.1 != "bioguide_id" && !(kv.2 == PValue.vNone)))
    ++ [("last_updated", PValue.vTime now)]

/-- The body of `ContactInfoIngester.load` once the bioguide id is read. -/
def contactLoadBody (now : Nat) (ci : Doc) (bv : PValue) (S : List Doc) :
    Option (List Doc × Bool) :=
  if pyFalsy bv then none
  else
    if (ci.filter (fun kv => kv.1 != "bioguide_id" && !(kv.2 == PValue.vNone))).isEmpty
    then some (S, false)
    else
      let r := mongoUpdateOne [("bioguide_id", bv)] (contactFields now ci) S
      if r.2.1 = false then some (r.1, false)
      else if r.2.2 then some (r.1, true) else some (r.1, false)

/-- `ContactInfoIngester.load`: update an existing politician with the
non-null contact fields; never upsert. Returns the collection and whether a
record was modified; `none` models the `ValueError` on a falsy bioguide id. -/
def contactLoad (now : Nat) (ci : Doc) (S : List Doc) : Option (List Doc × Bool) :=
  match getKey ci "bioguide_id" with
  | none => none
  | some bv => contactLoadBody now ci bv S

/-- Reducing the wrapper once the bioguide id is known. -/
lemma contactLoad_eq_body (now : Nat) (ci : Doc) (bv : PValue) (S : List Doc)
    (h : getKey ci "bioguide_id" = some bv) :
    contactLoad now ci S = contactLoadBody now ci bv S := by
  unfold contactLoad
  rw [h]

/-- `ContactInfoIngester.process_item`: count the item, then count an update
only when the load reported one; failures count as errors. -/
def contactProcessItem (now : Nat) (st : List Doc × Stats) :
    Option Doc → List Doc × Stats
  | none =>
      (st.1, { st.2 with processed := st.2.processed + 1, errors := st.2.errors + 1 })
  | some ci =>
      match contactLoad now ci st.1 with
      | none =>
          (st.1, { st.2 with processed := st.2.processed + 1, errors := st.2.errors + 1 })
      | some (S2, was) =>
          (S2, if was then
                 { st.2 with processed := st.2.processed + 1, updated := st.2.updated + 1 }
               else { st.2 with processed := st.2.processed + 1 })

/-- A full enrichment run over transformed items. -/
def contactRun (now : Nat) (items : List (Option Doc)) (S : List Doc)
    (stats : Stats) : List Doc × Stats :=
  items.foldl (contactProcessItem now) (S, stats)

/-- A non-falsy value is not null. -/
lemma ne_vNone_of_not_falsy (v : PValue) (h : pyFalsy v = false) :
    v ≠ PValue.vNone := by
  intro hv
  subst hv
  simp [pyFalsy] at h

/-- Mongo equality match fails for a non-null query value that no field
reading equals. -/
lemma mongoEq_false_of_ne_val (d : Doc) (k : String) (v : PValue)
    (hv : v ≠ PValue.vNone) (h : getKey d k ≠ some v) : mongoEq d k v = false := by
  unfold mongoEq
  cases hg : getKey d k with
  | none => simp [hv]
  | some w =>
      rw [hg] at h
      simp only [beq_eq_false_iff_ne, ne_eq]
      intro he
      exact h (by rw [he])

/-- Writing fields with other names leaves a key unread. -/
lemma getKey_applySet_not_mem (fields : Doc) (d : Doc) (k : String)
    (h : ∀ kv ∈ fields, kv.1 ≠ k) :
    getKey (applySet d fields) k = getKey d k := by
  induction fields generalizing d with
  | nil => rfl
  | cons kv fs ih =>
      show getKey (applySet (setKey d kv.1 kv.2) fs) k = getKey d k
      rw [ih (setKey d kv.1 kv.2) (fun kv2 h2 => h kv2 (List.mem_cons_of_mem kv h2)),
        getKey_setKey_ne d kv.1 k kv.2 (Ne.symm (h kv (List.mem_cons_self kv fs)))]

/-- `updateFirstMatch` preserves any per-document view preserved by `f`. -/
lemma map_updateFirstMatch (q : Doc → Bool) (f : Doc → Doc) (g : Doc → Option PValue)
    (l : List Doc) (h : ∀ d, g (f d) = g d) :
    (updateFirstMatch q f l).map g = l.map g := by
  induction l with
  | nil => rfl
  | cons d ds ih =>
      unfold updateFirstMatch
      split <;> simp [h, ih]

/-- No contact field writes the bioguide id. -/
lemma contactFields_no_bioguide (now : Nat) (ci : Doc) :
    ∀ kv ∈ contactFields now ci, kv.1 ≠ "bioguide_id" := by
  intro kv hkv
  rcases List.mem_append.mp hkv with hm | hm
  · have hp := (List.mem_filter.mp hm).2
    simp only [Bool.and_eq_true, bne_iff_ne, ne_eq] at hp
    exact hp.1
  · simp only [List.mem_singleton] at hm
    rw [hm]
    simp

/-- A successful contact load preserves the stored bioguide ids. -/
lemma contactLoad_ids (now : Nat) (ci : Doc) (S : List Doc)
    (out : List Doc × Bool) (h : contactLoad now ci S = some out) :
    out.1.map idOf = S.map idOf := by
  unfold contactLoad at h
  split at h
  · simp at h
  · rename_i bv heq
    unfold contactLoadBody at h
    split at h
    · simp at h
    · split at h
      · simp only [Option.some.injEq] at h
        rw [← h]
      · unfold mongoUpdateOne at h
        cases hf : S.find? (mongoMatch [("bioguide_id", bv)]) with
        | none =>
            rw [hf] at h
            have h2 : (S, false) = out := by simpa using h
            rw [← h2]
        | some d0 =>
            rw [hf] at h
            simp only at h
            have hpres : ∀ d, idOf (applySet d (contactFields now ci)) = idOf d :=
              fun d => getKey_applySet_not_mem _ d _ (contactFields_no_bioguide now ci)
            split at h
            · simp_all
            · split at h <;>
                · simp only [Option.some.injEq] at h
                  rw [← h]
                  exact map_updateFirstMatch _ _ idOf S hpres

/-- A contact load whose bioguide id matches no stored politician leaves the
store unchanged and reports no update. -/
lemma contactLoad_nomatch (now : Nat) (ci : Doc) (bv : PValue) (S : List Doc)
    (hb : getKey ci "bioguide_id" = some bv) (hfalsy : pyFalsy bv = false)
    (hnm : ∀ d ∈ S, getKey d "bioguide_id" ≠ some bv) :
    contactLoad now ci S = some (S, false) := by
  rw [contactLoad_eq_body now ci bv S hb]
  unfold contactLoadBody
  rw [if_neg (by simp [hfalsy])]
  split
  · rfl
  · have hfind : S.find? (mongoMatch [("bioguide_id", bv)]) = none := by
      rw [List.find?_eq_none]
      intro d hd
      rw [mongoMatch_single]
      simp [mongoEq_false_of_ne_val d _ bv (ne_vNone_of_not_falsy bv hfalsy) (hnm d hd)]
    unfold mongoUpdateOne
    rw [hfind]
    rfl

/-- Processing an enrichment item for a missing politician only counts it as
processed. -/
lemma contactProcessItem_nomatch (now : Nat) (ci : Doc) (bv : PValue)
    (S : List Doc) (stats : Stats)
    (hb : getKey ci "bioguide_id" = some bv) (hfalsy : pyFalsy bv = false)
    (hnm : ∀ d ∈ S, getKey d "bioguide_id" ≠ some bv) :
    contactProcessItem now (S, stats) (some ci)
      = (S, { stats with processed := stats.processed + 1 }) := by
  show (match contactLoad now ci S with
    | none => (S, { stats with processed := stats.processed + 1, errors := stats.errors + 1 })
    | some (S2, was) =>
        (S2, if was then
               { stats with processed := stats.processed + 1, updated := stats.updated + 1 }
             else { stats with processed := stats.processed + 1 })) = _
  rw [contactLoad_nomatch now ci bv S hb hfalsy hnm]
  rfl

/-- Every step of an enrichment run preserves the stored bioguide ids. -/
lemma contactProcessItem_ids (now : Nat) (st : List Doc × Stats)
    (item : Option Doc) :
    ((contactProcessItem now st item).1).map idOf = st.1.map idOf := by
  cases item with
  | none => rfl
  | some ci =>
      show ((match contactLoad now ci st.1 with
        | none =>
            (st.1, { st.2 with processed := st.2.processed + 1, errors := st.2.errors + 1 })
        | some (S2, was) =>
            (S2, if was then
                   { st.2 with processed := st.2.processed + 1, updated := st.2.updated + 1 }
                 else { st.2 with processed := st.2.processed + 1 })).1).map idOf
        = st.1.map idOf
      cases hl : contactLoad now ci st.1 with
      | none => rfl
      | some r =>
          obtain ⟨S2, was⟩ := r
          simp only
          exact contactLoad_ids now ci st.1 (S2, was) hl

/-- An entire enrichment run preserves the stored bioguide ids. -/
lemma contactRun_ids (now : Nat) (items : List (Option Doc)) (S : List Doc)
    (stats : Stats) :
    ((contactRun now items S stats).1).map idOf = S.map idOf := by
  induction items generalizing S stats with
  | nil => rfl
  | cons it its ih =>
      unfold contactRun
      rw [List.foldl_cons]
      have hstep := contactProcessItem_ids now (S, stats) it
      have := ih (contactProcessItem now (S, stats) it).1
        (contactProcessItem now (S, stats) it).2
      unfold contactRun at this
      rw [← hstep]
      simpa using this

/-- C6: the contact-info enrichment never creates a politician record — a
successful load preserves the stored id set and record count, a load whose
bioguide id matches no stored politician is a no-op reporting neither insert
nor update, its `process_item` counts such an item only as processed, and a
whole run leaves the stored id set identical. -/
theorem claim_C6_contact_enrichment :
    (∀ now ci S out, contactLoad now ci S = some out →
        out.1.map idOf = S.map idOf ∧ out.1.length = S.length)
    ∧ (∀ now ci bv S, getKey ci "bioguide_id" = some bv → pyFalsy bv = false →
        (∀ d ∈ S, getKey d "bioguide_id" ≠ some bv) →
        contactLoad now ci S = some (S, false))
    ∧ (∀ now ci bv S stats, getKey ci "bioguide_id" = some bv → pyFalsy bv = false →
        (∀ d ∈ S, getKey d "bioguide_id" ≠ some bv) →
        contactProcessItem now (S, stats) (some ci)
          = (S, { stats with processed := stats.processed + 1 }))
    ∧ (∀ now items S stats, ((contactRun now items S stats).1).map idOf = S.map idOf) := by
  refine ⟨?_, contactLoad_nomatch, contactProcessItem_nomatch, contactRun_ids⟩
  intro now ci S out h
  have hm := contactLoad_ids now ci S out h
  refine ⟨hm, ?_⟩
  have := congrArg List.length hm
  simpa using this

/-- Witness for C6: enriching a bioguide id absent from the store. -/
theorem claim_C6_contact_enrichment_witness :
    contactLoad 3 [("bioguide_id", PValue.vStr "Z9"), ("office", PValue.vStr "123 Main"),
        ("phone", PValue.vNone)] [c1Old] = some ([c1Old], false)
    ∧ contactProcessItem 3 ([c1Old], initStats)
        (some [("bioguide_id", PValue.vStr "Z9"), ("office", PValue.vStr "123 Main"),
               ("phone", PValue.vNone)])
      = ([c1Old], { initStats with processed := 1 }) := by
  constructor
  · exact claim_C6_contact_enrichment.2.1 3 _ (PValue.vStr "Z9") [c1Old]
      (by decide) (by decide) (by decide)
  · exact claim_C6_contact_enrichment.2.2.1 3 _ (PValue.vStr "Z9") [c1Old] initStats
      (by decide) (by decide) (by decide)

/-! ## The generic ETL engine (C4, C5) -/

/-- The combined transform-then-load attempt for one raw item; `none` when
either step raises. -/
def itemOutcome {Raw Item σ : Type} (transform : Raw → Option Item)
    (load : Item → σ → Option (σ × Bool)) (s : σ) (raw : Raw) :
    Option (σ × Bool) :=
  match transform raw with
  | none => none
  | some item => load item s

/-- `BaseIngester.process_item`: count the item as processed, then transform
and load it; a failure of either step increments only the error counter, a
success increments exactly one of inserted/updated. -/
def process_item {Raw Item σ : Type} (transform : Raw → Option Item)
    (load : Item → σ → Option (σ × Bool)) (st : σ × Stats) (raw : Raw) :
    σ × Stats :=
  match itemOutcome transform load st.1 raw with
  | none =>
      (st.1, { st.2 with processed := st.2.processed + 1, errors := st.2.errors + 1 })
  | some (db2, was_insert) =>
      (db2, if was_insert then
              { st.2 with processed := st.2.processed + 1, inserted := st.2.inserted + 1 }
            else
              { st.2 with processed := st.2.processed + 1, updated := st.2.updated + 1 })

/-- The item loop of `BaseIngester.run`. -/
def runItems {Raw Item σ : Type} (transform : Raw → Option Item)
    (load : Item → σ → Option (σ × Bool)) (db0 : σ) (stats0 : Stats)
    (items : List Raw) : σ × Stats :=
  items.foldl (process_item transform load) (db0, stats0)

/-- The database effect of processing one item. -/
def dbStep {Raw Item σ : Type} (transform : Raw → Option Item)
    (load : Item → σ → Option (σ × Bool)) (s : σ) (raw : Raw) : σ :=
  match itemOutcome transform load s raw with
  | none => s
  | some (s2, _) => s2

/-- One event of the fetch stream: the fetch generator either hits a source
error — incrementing only the error counter, as in the HTTP-failure handlers
of the concrete fetchers — or yields an item to the loop. -/
inductive FetchEv (Raw : Type) where
  | sourceError : FetchEv Raw
  | item : Raw → FetchEv Raw

/-- Whether a fetch event yields an item. -/
def FetchEv.isItem {Raw : Type} : FetchEv Raw → Bool
  | .sourceError => false
  | .item _ => true

/-- Consume one fetch event: a source error touches only the error counter,
a yielded item goes through `process_item`. -/
def fetchStep {Raw Item σ : Type} (transform : Raw → Option Item)
    (load : Item → σ → Option (σ × Bool)) (st : σ × Stats) :
    FetchEv Raw → σ × Stats
  | .sourceError => (st.1, { st.2 with errors := st.2.errors + 1 })
  | .item raw => process_item transform load st raw

/-- The fetch-and-process loop of `BaseIngester.run`, source errors
included. -/
def runEvents {Raw Item σ : Type} (transform : Raw → Option Item)
    (load : Item → σ → Option (σ × Bool)) (db0 : σ) (stats0 : Stats)
    (events : List (FetchEv Raw)) : σ × Stats :=
  events.foldl (fetchStep transform load) (db0, stats0)

/-- The database effect of one fetch event. -/
def evDbStep {Raw Item σ : Type} (transform : Raw → Option Item)
    (load : Item → σ → Option (σ × Bool)) (s : σ) : FetchEv Raw → σ
  | .sourceError => s
  | .item raw => dbStep transform load s raw

/-- Result of one engine run. -/
structure RunResult (σ : Type) where
  db : σ
  stats : Stats
  disconnected : Bool
  returned : Bool

/-- `BaseIngester.run`: stamp `started_at`, consume the fetch events —
source errors and yielded items — until the loop ends (`stop = some k`
models an exception or operator interrupt after `k` events), then — in the
`finally` block — stamp `completed_at` and disconnect; the statistics are
returned to the caller only when the loop ended normally. -/
def runEngine {Raw Item σ : Type} (transform : Raw → Option Item)
    (load : Item → σ → Option (σ × Bool)) (t0 t1 : Nat)
    (events : List (FetchEv Raw)) (stop : Option Nat) (db0 : σ)
    (stats0 : Stats) : RunResult σ :=
  let stats1 := { stats0 with started_at := some t0 }
  let consumed := match stop with
    | none => events
    | some k => events.take k
  let st := runEvents transform load db0 stats1 consumed
  { db := st.1,
    stats := { st.2 with completed_at := some t1 },
    disconnected := true,
    returned := stop.isNone }

/-- The required environment entries of `Settings` (pydantic raises before
any run when one is missing). -/
structure SettingsEnv where
  MONGODB_URI : Option String
  MONGODB_DATABASE : Option String
  CONGRESS_GOV_API_KEY : Option String

/-- Pydantic validation of the required settings. -/
def settingsOk (env : SettingsEnv) : Bool :=
  env.MONGODB_URI.isSome && env.MONGODB_DATABASE.isSome
    && env.CONGRESS_GOV_API_KEY.isSome

/-- Constructing the ingester and running it: a configuration error is
raised before the run begins, so no summary is produced at all. -/
def runPipeline {Raw Item σ : Type} (env : SettingsEnv)
    (transform : Raw → Option Item) (load : Item → σ → Option (σ × Bool))
    (t0 t1 : Nat) (events : List (FetchEv Raw)) (stop : Option Nat) (db0 : σ)
    (stats0 : Stats) : Option (RunResult σ) :=
  if settingsOk env then
    some (runEngine transform load t0 t1 events stop db0 stats0)
  else none

/-- One processed item: counters move by exactly one. -/
lemma process_item_counts {Raw Item σ : Type} (transform : Raw → Option Item)
    (load : Item → σ → Option (σ × Bool)) (st : σ × Stats) (raw : Raw) :
    (process_item transform load st raw).2.processed = st.2.processed + 1
    ∧ (process_item transform load st raw).2.inserted
        + (process_item transform load st raw).2.updated
        + (process_item transform load st raw).2.errors
      = st.2.inserted + st.2.updated + st.2.errors + 1
    ∧ (process_item transform load st raw).2.started_at = st.2.started_at
    ∧ (process_item transform load st raw).2.completed_at = st.2.completed_at := by
  unfold process_item
  cases ho : itemOutcome transform load st.1 raw with
  | none => exact ⟨rfl, by dsimp only; omega, rfl, rfl⟩
  | some r =>
      obtain ⟨db2, was⟩ := r
      cases was
      · exact ⟨rfl, by dsimp only; rw [if_neg (by simp)]; dsimp only; omega, rfl, rfl⟩
      · exact ⟨rfl, by dsimp only; rw [if_pos rfl]; dsimp only; omega, rfl, rfl⟩

/-- One processed item: the database moves by `dbStep`. -/
lemma process_item_db {Raw Item σ : Type} (transform : Raw → Option Item)
    (load : Item → σ → Option (σ × Bool)) (st : σ × Stats) (raw : Raw) :
    (process_item transform load st raw).1 = dbStep transform load st.1 raw := by
  unfold process_item dbStep
  cases ho : itemOutcome transform load st.1 raw with
  | none => rfl
  | some r => obtain ⟨db2, was⟩ := r; rfl

/-- One processed item: the error counter counts exactly the failures. -/
lemma process_item_errors {Raw Item σ : Type} (transform : Raw → Option Item)
    (load : Item → σ → Option (σ × Bool)) (st : σ × Stats) (raw : Raw) :
    (process_item transform load st raw).2.errors
      = st.2.errors + (if (itemOutcome transform load st.1 raw).isNone then 1 else 0) := by
  unfold process_item
  cases ho : itemOutcome transform load st.1 raw with
  | none => rfl
  | some r =>
      obtain ⟨db2, was⟩ := r
      cases was
      · dsimp only
        rw [if_neg (by simp)]
        simp
      · dsimp only
        rw [if_pos rfl]
        simp

/-- Counter bookkeeping over a whole item loop. -/
lemma runItems_counts {Raw Item σ : Type} (transform : Raw → Option Item)
    (load : Item → σ → Option (σ × Bool)) (items : List Raw) :
    ∀ (db0 : σ) (stats0 : Stats),
    (runItems transform load db0 stats0 items).2.processed
        = stats0.processed + items.length
    ∧ (runItems transform load db0 stats0 items).2.inserted
        + (runItems transform load db0 stats0 items).2.updated
        + (runItems transform load db0 stats0 items).2.errors
      = stats0.inserted + stats0.updated + stats0.errors + items.length
    ∧ (runItems transform load db0 stats0 items).2.started_at = stats0.started_at
    ∧ (runItems transform load db0 stats0 items).2.completed_at = stats0.completed_at := by
  induction items with
  | nil => intro db0 stats0; exact ⟨rfl, rfl, rfl, rfl⟩
  | cons r rs ih =>
      intro db0 stats0
      have hstep := process_item_counts transform load (db0, stats0) r
      have hrest := ih (process_item transform load (db0, stats0) r).1
        (process_item transform load (db0, stats0) r).2
      unfold runItems at *
      rw [List.foldl_cons]
      have heta : ((process_item transform load (db0, stats0) r).1,
          (process_item transform load (db0, stats0) r).2)
          = process_item transform load (db0, stats0) r := rfl
      rw [heta] at hrest
      dsimp only at hstep
      simp only [List.length_cons]
      refine ⟨?_, ?_, ?_, ?_⟩
      · rw [hrest.1, hstep.1]
        omega
      · rw [hrest.2.1]
        rw [hstep.2.1]
        omega
      · rw [hrest.2.2.1, hstep.2.2.1]
      · rw [hrest.2.2.2, hstep.2.2.2]

/-- The database after a whole item loop is the fold of per-item effects. -/
lemma runItems_db {Raw Item σ : Type} (transform : Raw → Option Item)
    (load : Item → σ → Option (σ × Bool)) (items : List Raw) :
    ∀ (db0 : σ) (stats0 : Stats),
    (runItems transform load db0 stats0 items).1
      = items.foldl (dbStep transform load) db0 := by
  induction items with
  | nil => intro db0 stats0; rfl
  | cons r rs ih =>
      intro db0 stats0
      unfold runItems at *
      rw [List.foldl_cons, List.foldl_cons]
      have heta : ((process_item transform load (db0, stats0) r).1,
          (process_item transform load (db0, stats0) r).2)
          = process_item transform load (db0, stats0) r := rfl
      rw [← heta]
      rw [ih (process_item transform load (db0, stats0) r).1
        (process_item transform load (db0, stats0) r).2]
      rw [process_item_db]

/-- When loads never fail, the error counter counts exactly the transform
failures. -/
lemma runItems_errors {Raw Item σ : Type} (transform : Raw → Option Item)
    (load : Item → σ → Option (σ × Bool))
    (hld : ∀ i s, (load i s).isSome = true) (items : List Raw) :
    ∀ (db0 : σ) (stats0 : Stats),
    (runItems transform load db0 stats0 items).2.errors
      = stats0.errors + items.countP (fun r => (transform r).isNone) := by
  induction items with
  | nil => intro db0 stats0; rfl
  | cons r rs ih =>
      intro db0 stats0
      unfold runItems at *
      rw [List.foldl_cons]
      have heta : ((process_item transform load (db0, stats0) r).1,
          (process_item transform load (db0, stats0) r).2)
          = process_item transform load (db0, stats0) r := rfl
      rw [← heta, ih]
      rw [process_item_errors]
      have hiso : (itemOutcome transform load db0 r).isNone = (transform r).isNone := by
        unfold itemOutcome
        cases htr : transform r with
        | none => rfl
        | some i =>
            simp only [Option.isNone_none]
            have := hld i db0
            cases hl : load i db0 with
            | none => rw [hl] at this; simp at this
            | some _ => rfl
      rw [List.countP_cons]
      simp only [hiso]
      cases htn : (transform r).isNone
      · simp
      · simp
        omega

/-- One fetch event: bookkeeping of the counters. -/
lemma fetchStep_counts {Raw Item σ : Type} (transform : Raw → Option Item)
    (load : Item → σ → Option (σ × Bool)) (st : σ × Stats) (e : FetchEv Raw) :
    (fetchStep transform load st e).2.processed
        = st.2.processed + (if e.isItem then 1 else 0)
    ∧ (fetchStep transform load st e).2.inserted
        + (fetchStep transform load st e).2.updated
        + (fetchStep transform load st e).2.errors
      = st.2.inserted + st.2.updated + st.2.errors + 1
    ∧ (fetchStep transform load st e).2.started_at = st.2.started_at
    ∧ (fetchStep transform load st e).2.completed_at = st.2.completed_at := by
  cases e with
  | sourceError =>
      refine ⟨?_, ?_, rfl, rfl⟩
      · show st.2.processed = st.2.processed + (if false = true then 1 else 0)
        rw [if_neg (by simp)]
        omega
      · show st.2.inserted + st.2.updated + (st.2.errors + 1)
          = st.2.inserted + st.2.updated + st.2.errors + 1
        omega
  | item raw =>
      have h := process_item_counts transform load st raw
      refine ⟨?_, h.2.1, h.2.2.1, h.2.2.2⟩
      show (process_item transform load st raw).2.processed
        = st.2.processed + (if true = true then 1 else 0)
      rw [if_pos rfl, h.1]

/-- Counter bookkeeping over a whole fetch-and-process loop: `processed`
counts the yielded items, and every event — source error or item — moves
`inserted + updated + errors` by exactly one. -/
lemma runEvents_counts {Raw Item σ : Type} (transform : Raw → Option Item)
    (load : Item → σ → Option (σ × Bool)) (events : List (FetchEv Raw)) :
    ∀ (db0 : σ) (stats0 : Stats),
    (runEvents transform load db0 stats0 events).2.processed
        = stats0.processed + events.countP (fun e => e.isItem)
    ∧ (runEvents transform load db0 stats0 events).2.inserted
        + (runEvents transform load db0 stats0 events).2.updated
        + (runEvents transform load db0 stats0 events).2.errors
      = stats0.inserted + stats0.updated + stats0.errors + events.length
    ∧ (runEvents transform load db0 stats0 events).2.started_at
        = stats0.started_at
    ∧ (runEvents transform load db0 stats0 events).2.completed_at
        = stats0.completed_at := by
  induction events with
  | nil => intro db0 stats0; exact ⟨rfl, rfl, rfl, rfl⟩
  | cons e es ih =>
      intro db0 stats0
      have hstep := fetchStep_counts transform load (db0, stats0) e
      have hrest := ih (fetchStep transform load (db0, stats0) e).1
        (fetchStep transform load (db0, stats0) e).2
      unfold runEvents at *
      rw [List.foldl_cons]
      have heta : ((fetchStep transform load (db0, stats0) e).1,
          (fetchStep transform load (db0, stats0) e).2)
          = fetchStep transform load (db0, stats0) e := rfl
      rw [heta] at hrest
      dsimp only at hstep
      simp only [List.length_cons, List.countP_cons]
      refine ⟨?_, ?_, ?_, ?_⟩
      · rw [hrest.1, hstep.1]
        cases e.isItem <;> simp <;> omega
      · rw [hrest.2.1, hstep.2.1]
        omega
      · rw [hrest.2.2.1, hstep.2.2.1]
      · rw [hrest.2.2.2, hstep.2.2.2]

/-- The database after a whole fetch-and-process loop is the fold of
per-event effects; a source error leaves it untouched. -/
lemma runEvents_db {Raw Item σ : Type} (transform : Raw → Option Item)
    (load : Item → σ → Option (σ × Bool)) (events : List (FetchEv Raw)) :
    ∀ (db0 : σ) (stats0 : Stats),
    (runEvents transform load db0 stats0 events).1
      = events.foldl (evDbStep transform load) db0 := by
  induction events with
  | nil => intro db0 stats0; rfl
  | cons e es ih =>
      intro db0 stats0
      unfold runEvents at *
      rw [List.foldl_cons, List.foldl_cons]
      have heta : ((fetchStep transform load (db0, stats0) e).1,
          (fetchStep transform load (db0, stats0) e).2)
          = fetchStep transform load (db0, stats0) e := rfl
      rw [← heta]
      rw [ih (fetchStep transform load (db0, stats0) e).1
        (fetchStep transform load (db0, stats0) e).2]
      have hdb : (fetchStep transform load (db0, stats0) e).1
          = evDbStep transform load db0 e := by
        cases e with
        | sourceError => rfl
        | item raw => exact process_item_db transform load (db0, stats0) raw
      rw [hdb]

/-- When loads never fail, the error counter after a run counts exactly the
fetch-phase source errors plus the transform-failing items. -/
lemma runEvents_errors {Raw Item σ : Type} (transform : Raw → Option Item)
    (load : Item → σ → Option (σ × Bool))
    (hld : ∀ i s, (load i s).isSome = true) (events : List (FetchEv Raw)) :
    ∀ (db0 : σ) (stats0 : Stats),
    (runEvents transform load db0 stats0 events).2.errors
      = stats0.errors + events.countP (fun e => !e.isItem)
        + events.countP (fun e => match e with
            | .sourceError => false
            | .item r => (transform r).isNone) := by
  induction events with
  | nil => intro db0 stats0; rfl
  | cons e es ih =>
      intro db0 stats0
      unfold runEvents at *
      rw [List.foldl_cons]
      have heta : ((fetchStep transform load (db0, stats0) e).1,
          (fetchStep transform load (db0, stats0) e).2)
          = fetchStep transform load (db0, stats0) e := rfl
      rw [← heta, ih]
      simp only [List.countP_cons]
      cases e with
      | sourceError =>
          show stats0.errors + 1 + _ + _ = _
          simp [FetchEv.isItem]
          omega
      | item raw =>
          have herr := process_item_errors transform load (db0, stats0) raw
          dsimp only at herr
          show (process_item transform load (db0, stats0) raw).2.errors + _ + _ = _
          rw [herr]
          have hiso : (itemOutcome transform load db0 raw).isNone
              = (transform raw).isNone := by
            unfold itemOutcome
            cases htr : transform raw with
            | none => rfl
            | some i =>
                simp only [Option.isNone_none]
                have := hld i db0
                cases hl : load i db0 with
                | none => rw [hl] at this; simp at this
                | some _ => rfl
          rw [hiso]
          simp [FetchEv.isItem]
          cases (transform raw).isNone <;> simp <;> omega

/-- In every event list, items and non-items partition the length. -/
lemma countP_isItem_add {Raw : Type} (events : List (FetchEv Raw)) :
    events.countP (fun e => e.isItem)
      + events.countP (fun e => !e.isItem) = events.length := by
  induction events with
  | nil => rfl
  | cons e es ih =>
      simp only [List.countP_cons, List.length_cons]
      cases he : e.isItem <;> simp [he] <;> omega

/-- Counterexample for C4 as frozen: a run whose fetch phase hits one source
error (an HTTP failure inside `fetch_data`) increments the error counter
without processing any item, so after that run `processed = 0` while
`inserted + updated + errors = 1`, refuting the unconditional identity
`processed = inserted + updated + errors`. -/
theorem claim_C4_counterexample :
    (runEngine (fun r : Nat => some r)
        (fun (i : Nat) (s : List Nat) => some (s ++ [i], true)) 0 1
        [FetchEv.sourceError] none [] initStats).stats.processed = 0
    ∧ (runEngine (fun r : Nat => some r)
        (fun (i : Nat) (s : List Nat) => some (s ++ [i], true)) 0 1
        [FetchEv.sourceError] none [] initStats).stats.errors = 1
    ∧ ¬ ((runEngine (fun r : Nat => some r)
          (fun (i : Nat) (s : List Nat) => some (s ++ [i], true)) 0 1
          [FetchEv.sourceError] none [] initStats).stats.processed
        = (runEngine (fun r : Nat => some r)
            (fun (i : Nat) (s : List Nat) => some (s ++ [i], true)) 0 1
            [FetchEv.sourceError] none [] initStats).stats.inserted
          + (runEngine (fun r : Nat => some r)
              (fun (i : Nat) (s : List Nat) => some (s ++ [i], true)) 0 1
              [FetchEv.sourceError] none [] initStats).stats.updated
          + (runEngine (fun r : Nat => some r)
              (fun (i : Nat) (s : List Nat) => some (s ++ [i], true)) 0 1
              [FetchEv.sourceError] none [] initStats).stats.errors) :=
  ⟨rfl, rfl, by decide⟩

/-- C4 (amended): item failures are isolated per item — a failing transform
or load increments only the error counter, leaves the store untouched, and
the loop continues with the next item — and after any completed run
`processed` counts exactly the yielded items; the identity
`processed = inserted + updated + errors` holds whenever the fetch phase
reported no source error, while in general each fetch-phase source error
adds one to `errors` without `processed`, so
`inserted + updated + errors = processed + (number of source errors)`;
when loads never fail, `errors` counts exactly the source errors plus the
malformed (transform-failing) items. -/
theorem claim_C4_item_error_isolation {Raw Item σ : Type}
    (transform : Raw → Option Item) (load : Item → σ → Option (σ × Bool))
    (db0 : σ) (events : List (FetchEv Raw)) (t0 t1 : Nat) :
    (runEngine transform load t0 t1 events none db0 initStats).stats.processed
        = events.countP (fun e => e.isItem)
    ∧ (runEngine transform load t0 t1 events none db0 initStats).stats.inserted
        + (runEngine transform load t0 t1 events none db0 initStats).stats.updated
        + (runEngine transform load t0 t1 events none db0 initStats).stats.errors
      = (runEngine transform load t0 t1 events none db0 initStats).stats.processed
        + events.countP (fun e => !e.isItem)
    ∧ (events.countP (fun e => !e.isItem) = 0 →
        (runEngine transform load t0 t1 events none db0 initStats).stats.processed
          = (runEngine transform load t0 t1 events none db0 initStats).stats.inserted
            + (runEngine transform load t0 t1 events none db0 initStats).stats.updated
            + (runEngine transform load t0 t1 events none db0 initStats).stats.errors)
    ∧ (runEngine transform load t0 t1 events none db0 initStats).db
        = events.foldl (evDbStep transform load) db0
    ∧ ((∀ i s, (load i s).isSome = true) →
        (runEngine transform load t0 t1 events none db0 initStats).stats.errors
          = events.countP (fun e => !e.isItem)
            + events.countP (fun e => match e with
                | .sourceError => false
                | .item r => (transform r).isNone)) := by
  have hc := runEvents_counts transform load events db0
    { initStats with started_at := some t0 }
  have hlen := countP_isItem_add events
  have hp : (runEngine transform load t0 t1 events none db0 initStats).stats.processed
      = events.countP (fun e => e.isItem) := by
    show (runEvents transform load db0 { initStats with started_at := some t0 }
      events).2.processed = _
    rw [hc.1]
    simp [initStats]
  have hsum : (runEngine transform load t0 t1 events none db0 initStats).stats.inserted
      + (runEngine transform load t0 t1 events none db0 initStats).stats.updated
      + (runEngine transform load t0 t1 events none db0 initStats).stats.errors
      = events.length := by
    show (runEvents transform load db0 { initStats with started_at := some t0 }
        events).2.inserted
      + (runEvents transform load db0 { initStats with started_at := some t0 }
        events).2.updated
      + (runEvents transform load db0 { initStats with started_at := some t0 }
        events).2.errors = _
    rw [hc.2.1]
    simp [initStats]
  refine ⟨hp, ?_, ?_, ?_, ?_⟩
  · rw [hsum, hp]
    omega
  · intro hz
    rw [hsum, hp]
    omega
  · show (runEvents transform load db0 { initStats with started_at := some t0 }
      events).1 = _
    exact runEvents_db transform load events db0 _
  · intro hld
    show (runEvents transform load db0 { initStats with started_at := some t0 }
      events).2.errors = _
    rw [runEvents_errors transform load hld events db0 _]
    simp [initStats]

/-- The 100-item fetch batch with exactly one malformed item used in the
C4 witness. -/
def c4Events : List (FetchEv (Option Nat)) :=
  (List.range 99).map (fun n => FetchEv.item (some n)) ++ [FetchEv.item none]

set_option maxRecDepth 4000 in
/-- Witness for C4: a clean 100-item fetch batch with one malformed item
yields `processed = 100`, `errors = 1`, the counting identity, and the 99
good items loaded. -/
theorem claim_C4_item_error_isolation_witness :
    (runEngine (fun r => r) (fun (i : Nat) (s : List Nat) => some (s ++ [i], true))
        0 1 c4Events none ([] : List Nat) initStats).stats.processed = 100
    ∧ (runEngine (fun r => r) (fun (i : Nat) (s : List Nat) => some (s ++ [i], true))
        0 1 c4Events none ([] : List Nat) initStats).stats.errors = 1
    ∧ (runEngine (fun r => r) (fun (i : Nat) (s : List Nat) => some (s ++ [i], true))
        0 1 c4Events none ([] : List Nat) initStats).stats.processed
      = (runEngine (fun r => r) (fun (i : Nat) (s : List Nat) => some (s ++ [i], true))
          0 1 c4Events none ([] : List Nat) initStats).stats.inserted
        + (runEngine (fun r => r) (fun (i : Nat) (s : List Nat) => some (s ++ [i], true))
            0 1 c4Events none ([] : List Nat) initStats).stats.updated
        + (runEngine (fun r => r) (fun (i : Nat) (s : List Nat) => some (s ++ [i], true))
            0 1 c4Events none ([] : List Nat) initStats).stats.errors
    ∧ (runEngine (fun r => r) (fun (i : Nat) (s : List Nat) => some (s ++ [i], true))
        0 1 c4Events none ([] : List Nat) initStats).db = List.range 99 := by
  have h := claim_C4_item_error_isolation (fun r => r)
    (fun (i : Nat) (s : List Nat) => some (s ++ [i], true)) ([] : List Nat)
    c4Events 0 1
  refine ⟨?_, ?_, h.2.2.1 (by decide), ?_⟩
  · rw [h.1]; decide
  · rw [h.2.2.2.2 (fun _ _ => rfl)]; decide
  · rw [h.2.2.2.1]; decide

/-- C5: every run — including one in which every item fails and one ended by
an interruption of the item loop — ends with both timestamps stamped in the
statistics and with the connection closed by the cleanup block; the
statistics are returned to the caller exactly when the loop was not
interrupted; and a summary fails to exist only on a configuration error. -/
theorem claim_C5_run_summary_cleanup {Raw Item σ : Type} :
    (∀ (env : SettingsEnv) (transform : Raw → Option Item)
        (load : Item → σ → Option (σ × Bool)) t0 t1 events stop db0 stats0,
        (runPipeline env transform load t0 t1 events stop db0 stats0).isSome
          = settingsOk env)
    ∧ (∀ (transform : Raw → Option Item) (load : Item → σ → Option (σ × Bool))
        t0 t1 events stop db0 stats0,
        (runEngine transform load t0 t1 events stop db0 stats0).stats.started_at = some t0
        ∧ (runEngine transform load t0 t1 events stop db0 stats0).stats.completed_at = some t1
        ∧ (runEngine transform load t0 t1 events stop db0 stats0).disconnected = true
        ∧ (stop = none →
            (runEngine transform load t0 t1 events stop db0 stats0).returned = true)) := by
  constructor
  · intro env transform load t0 t1 events stop db0 stats0
    unfold runPipeline
    cases h : settingsOk env <;> simp [h]
  · intro transform load t0 t1 events stop db0 stats0
    refine ⟨?_, rfl, rfl, ?_⟩
    · show (runEvents transform load db0 { stats0 with started_at := some t0 }
          (match stop with | none => events | some k => events.take k)).2.started_at = some t0
      rw [(runEvents_counts transform load _ db0 _).2.2.1]
    · intro hstop
      unfold runEngine
      rw [hstop]
      rfl

/-- Witness for C5: a run interrupted after one item still stamps both
timestamps and disconnects; a missing credential prevents any summary. -/
theorem claim_C5_run_summary_cleanup_witness :
    (runPipeline ⟨none, some "db", some "key"⟩ (fun r : Nat => some r)
        (fun (i : Nat) (s : Nat) => some (s + i, false)) 2 7
        [FetchEv.item 1, FetchEv.sourceError, FetchEv.item 3] (some 1) 0
        initStats).isSome = settingsOk ⟨none, some "db", some "key"⟩
    ∧ (runEngine (fun r : Nat => some r) (fun (i : Nat) (s : Nat) => some (s + i, false))
        2 7 [FetchEv.item 1, FetchEv.sourceError, FetchEv.item 3] (some 1) 0
        initStats).stats.started_at = some 2
    ∧ (runEngine (fun r : Nat => some r) (fun (i : Nat) (s : Nat) => some (s + i, false))
        2 7 [FetchEv.item 1, FetchEv.sourceError, FetchEv.item 3] (some 1) 0
        initStats).stats.completed_at = some 7
    ∧ (runEngine (fun r : Nat => some r) (fun (i : Nat) (s : Nat) => some (s + i, false))
        2 7 [FetchEv.item 1, FetchEv.sourceError, FetchEv.item 3] (some 1) 0
        initStats).disconnected = true
    ∧ (runEngine (fun r : Nat => some r) (fun (i : Nat) (s : Nat) => some (s + i, false))
        2 7 [FetchEv.item 1, FetchEv.sourceError, FetchEv.item 3] none 0
        initStats).returned = true := by
  refine ⟨claim_C5_run_summary_cleanup.1 _ _ _ 2 7
      [FetchEv.item 1, FetchEv.sourceError, FetchEv.item 3] (some 1) 0 initStats,
    ?_, ?_, ?_, ?_⟩
  · exact (claim_C5_run_summary_cleanup.2 _ _ 2 7
      [FetchEv.item 1, FetchEv.sourceError, FetchEv.item 3] (some 1) 0 initStats).1
  · exact (claim_C5_run_summary_cleanup.2 _ _ 2 7
      [FetchEv.item 1, FetchEv.sourceError, FetchEv.item 3] (some 1) 0 initStats).2.1
  · exact (claim_C5_run_summary_cleanup.2 _ _ 2 7
      [FetchEv.item 1, FetchEv.sourceError, FetchEv.item 3] (some 1) 0 initStats).2.2.1
  · exact (claim_C5_run_summary_cleanup.2 _ _ 2 7
      [FetchEv.item 1, FetchEv.sourceError, FetchEv.item 3] none 0 initStats).2.2.2 rfl

/-! ## Roll-call XML member positions (C9) -/

/-- An XML element: tag, attributes, text, children. -/
inductive Xml where
  | elem (tag : String) (attrs : List (String × String)) (txt : Option String)
      (children : List Xml)

/-- The tag of an element. -/
def Xml.tag : Xml → String
  | .elem t _ _ _ => t

/-- Attribute lookup (`Element.get`). -/
def Xml.attr (x : Xml) (k : String) : Option String :=
  match x with
  | .elem _ attrs _ _ => (attrs.find? (fun p => p.1 == k)).map (fun p => p.2)

/-- The text of an element (`Element.text`). -/
def Xml.txt : Xml → Option String
  | .elem _ _ t _ => t

/-- The children of an element. -/
def Xml.children : Xml → List Xml
  | .elem _ _ _ cs => cs

/-- `Element.find`: the first direct child with the given tag. -/
def Xml.findChild (x : Xml) (t : String) : Option Xml :=
  x.children.find? (fun c => c.tag == t)

mutual

/-- All proper descendants of an element, in document order. -/
def Xml.descendants : Xml → List Xml
  | .elem _ _ _ cs => Xml.descendantsList cs

/-- All elements of a forest together with their descendants. -/
def Xml.descendantsList : List Xml → List Xml
  | [] => []
  | x :: xs => x :: (Xml.descendants x ++ Xml.descendantsList xs)

end

/-- `VotesIngester._parse_house_clerk_xml`: collect, for every
`recorded-vote` descendant with a `legislator` child carrying `name-id` and
a `vote` child carrying text, a dict with the id and the cast position —
stored exactly as found in the feed. -/
def parseHouseClerkXml (root : Xml) : List Doc :=
  ((Xml.descendants root).filter (fun e => e.tag == "recorded-vote")).foldl
    (fun acc rv =>
      match rv.findChild "legislator", rv.findChild "vote" with
      | some leg, some ve =>
          match leg.attr "name-id", ve.txt with
          | some b, some p =>
              if b == "" || p == "" then acc
              else acc ++ [[("bioguideId", PValue.vStr b), ("voteCast", PValue.vStr p)]]
          | _, _ => acc
      | _, _ => acc) []

/-- `VotesIngester._save_member_positions`: upsert one `PoliticianVote`
document per parsed member vote, keyed by `(vote_id, bioguide_id)`, with the
`position` field taken verbatim from the parsed `voteCast` string (the
parser only ever produces string values for both fields). -/
def saveMemberPositions (vote_id : String) (member_votes : List Doc)
    (S : List Doc) : List Doc :=
  member_votes.foldl
    (fun T mv =>
      match getKey mv "bioguideId", getKey mv "voteCast" with
      | some (PValue.vStr b), some (PValue.vStr p) =>
          if b == "" || p == "" then T
          else (mongoUpsert [("vote_id", .vStr vote_id), ("bioguide_id", .vStr b)]
                  [("vote_id", .vStr vote_id), ("bioguide_id", .vStr b),
                   ("position", .vStr p)] T).1
      | _, _ => T) S

/-- A concrete House Clerk roll-call document with one "Aye" and one "No"
cast position. -/
def c9Xml : Xml :=
  .elem "rollcall-vote" [] none
    [.elem "vote-metadata" [] none [],
     .elem "vote-data" [] none
       [.elem "recorded-vote" [] none
          [.elem "legislator" [("name-id", "A000055")] (some "Aderholt") [],
           .elem "vote" [] (some "Aye") []],
        .elem "recorded-vote" [] none
          [.elem "legislator" [("name-id", "B000111")] (some "Abbott") [],
           .elem "vote" [] (some "No") []]]]

/-- C9: contrary to the claim, cast positions from the House Clerk XML are
stored verbatim — parsing the feed yields the raw strings "Aye" and "No",
saving member positions stores exactly those strings in the `position`
field, and neither lies in the canonical set `{Yea, Nay, Present,
Not Voting}` documented for `PoliticianVote.position`. -/
theorem claim_C9_positions_stored_verbatim :
    parseHouseClerkXml c9Xml
      = [[("bioguideId", PValue.vStr "A000055"), ("voteCast", PValue.vStr "Aye")],
         [("bioguideId", PValue.vStr "B000111"), ("voteCast", PValue.vStr "No")]]
    ∧ (saveMemberPositions "house-roll-17-118" (parseHouseClerkXml c9Xml) []).map
        (fun d => getKey d "position")
      = [some (PValue.vStr "Aye"), some (PValue.vStr "No")]
    ∧ "Aye" ∉ ["Yea", "Nay", "Present", "Not Voting"]
    ∧ "No" ∉ ["Yea", "Nay", "Present", "Not Voting"] := by
  exact ⟨by decide, by decide, by decide, by decide⟩

/-! ## The Congress members transform (C10) -/

/-- A JSON value from the Congress.gov API. -/
inductive JVal where
  | jNull
  | jStr (s : String)
  | jNum (n : Int)
  | jBool (b : Bool)
  | jArr (xs : List JVal)
  | jObj (fields : List (String × JVal))
deriving Inhabited

/-- Python truthiness of a JSON value. -/
def jvFalsy : JVal → Bool
  | .jNull => true
  | .jStr s => s == ""
  | .jNum n => n == 0
  | .jBool b => !b
  | .jArr xs => xs.isEmpty
  | .jObj fs => fs.isEmpty

/-- `v.get(k, dflt)`: `none` models the `AttributeError` on a non-dict. -/
def jDictGet (v : JVal) (k : String) (dflt : JVal) : Option JVal :=
  match v with
  | .jObj fs => some (((fs.find? (fun p => p.1 == k)).map (fun p => p.2)).getD dflt)
  | _ => none

/-- `v.get(k)`: `none` models the `AttributeError` on a non-dict; the inner
option is the Python `None` default. -/
def jDictGetN (v : JVal) (k : String) : Option (Option JVal) :=
  match v with
  | .jObj fs => some ((fs.find? (fun p => p.1 == k)).map (fun p => p.2))
  | _ => none

/-- Python `sub in s` on strings. -/
def pyContains (s sub : String) : Bool := decide (List.IsInfix sub.data s.data)

/-- Digits of a decimal literal. -/
def digitsToNat : List Char → Option Nat
  | [] => none
  | ds => if ds.all (fun c => c.isDigit) then
            some (ds.foldl (fun n c => n * 10 + (c.toNat - 48)) 0)
          else none

/-- Python `int(s)` on a string. -/
def pyIntOfStr (s : String) : Option Int :=
  match trimChars s.data with
  | [] => none
  | c :: rest =>
      if c = '-' then (digitsToNat rest).map (fun n => -(n : Int))
      else if c = '+' then (digitsToNat rest).map (fun n => (n : Int))
      else (digitsToNat (c :: rest)).map (fun n => (n : Int))

/-- Python `int(v)` on a JSON value. -/
def pyIntJ : JVal → Option Int
  | .jNum n => some n
  | .jBool b => some (if b then 1 else 0)
  | .jStr s => pyIntOfStr s
  | _ => none

/-- Python `str.split()` (whitespace words). -/
def wordsAux : List Char → List Char → List (List Char)
  | [], acc => if acc.isEmpty then [] else [acc.reverse]
  | c :: cs, acc =>
      if isSpaceChar c then
        if acc.isEmpty then wordsAux cs [] else acc.reverse :: wordsAux cs []
      else wordsAux cs (c :: acc)

/-- Split at the first occurrence of a separator (`s.split(sep, 1)`). -/
def splitFirst (sep : List Char) : List Char → Option (List Char × List Char)
  | [] => none
  | c :: cs =>
      if sep.isPrefixOf (c :: cs) then some ([], (c :: cs).drop sep.length)
      else match splitFirst sep cs with
        | some (a, b) => some (c :: a, b)
        | none => none

/-- Python `str()` of a scalar JSON value as used in f-strings; formatting
of nested containers is not modelled (it cannot arise in these fields). -/
def jvToStr : JVal → Option String
  | .jStr s => some s
  | .jNum n => some (toString n)
  | .jBool b => some (if b then "True" else "False")
  | .jNull => some "None"
  | _ => none

/-- One optional office-address component: skipped when absent or falsy,
kept when a string, a crash otherwise (the later `join` would raise). -/
def contactPart (dc : JVal) (k : String) : Option (Option String) := do
  let v ← jDictGetN dc k
  match v with
  | none => some none
  | some w =>
      if jvFalsy w then some none
      else match w with
        | .jStr s => some (some s)
        | _ => none

/-- Truthiness of an optional Python value. -/
def optJFalsy : Option JVal → Bool
  | none => true
  | some v => jvFalsy v

/-- The office/phone extraction from the detailed member payload
(`transform` lines on `_details`). -/
def extractContact (details : JVal) : Option (Option String × Option String) :=
  if jvFalsy details then some (none, none)
  else do
    let address_info ← jDictGet details "addressInformation" (.jObj [])
    if jvFalsy address_info then some (none, none)
    else do
      let oa ← jDictGetN address_info "officeAddress"
      let offices ← (match oa with
        | some v =>
            if jvFalsy v then
              (jDictGetN address_info "offices").map (fun o => o.getD (.jArr []))
            else some v
        | none => (jDictGetN address_info "offices").map (fun o => o.getD (.jArr [])))
      let op ← (match offices with
        | .jArr [] => some ((none : Option String), (none : Option JVal))
        | .jArr (dc :: _) =>
            (match dc with
             | .jObj _ => do
                 let line1 ← contactPart dc "line1"
                 let line2 ← contactPart dc "line2"
                 let city ← contactPart dc "city"
                 let cityPart ← (match city with
                   | none => some (none : Option String)
                   | some c => do
                       let st ← jDictGetN dc "state"
                       let c2 ← (match st with
                         | none => some c
                         | some v =>
                             if jvFalsy v then some c
                             else (jvToStr v).map (fun t => c ++ ", " ++ t))
                       let z ← jDictGetN dc "zip"
                       let c3 ← (match z with
                         | none => some c2
                         | some v =>
                             if jvFalsy v then some c2
                             else (jvToStr v).map (fun t => c2 ++ " " ++ t))
                       some (some c3))
                 let parts := [line1, line2, cityPart].filterMap id
                 let office := if parts.isEmpty then (none : Option String)
                               else some (String.intercalate ", " parts)
                 let pn ← jDictGetN dc "phoneNumber"
                 let phoneVal ← (match pn with
                   | some v => if jvFalsy v then jDictGetN dc "phone" else some (some v)
                   | none => jDictGetN dc "phone")
                 some (office, phoneVal)
             | _ => some ((none : Option String), (none : Option JVal)))
        | .jStr s => some (some s, (none : Option JVal))
        | _ => some ((none : Option String), (none : Option JVal)))
      let phone2 ← (if optJFalsy op.2 then jDictGetN address_info "phoneNumber"
                    else some op.2)
      let phone ← (match phone2 with
        | none => some (none : Option String)
        | some .jNull => some (none : Option String)
        | some (.jStr s) => some (some s)
        | some _ => none)
      some (op.1, phone)

/-- The chamber/district determination of `CongressMembersIngester.transform`:
a Senate term yields no district; otherwise the member is treated as House
and `district = int(raw["district"]) if raw["district"] else None`. -/
def transformDistrict (raw : JVal) (chamber_str : String) :
    Option (String × Option Int) :=
  if chamber_str == "senate" then some ("senate", none)
  else match jDictGetN raw "district" with
    | none => none
    | some none => some ("house", none)
    | some (some v) =>
        if jvFalsy v then some ("house", none)
        else (pyIntJ v).map (fun n => ("house", some n))

/-- The remainder of the transform after chamber and district are fixed:
party mapping, name parsing, bioguide check, title, contact extraction, and
construction of the `Politician` model (with its field validation). -/
def membersRest (now : Nat) (raw : JVal) (cd : String × Option Int) :
    Option Politician := do
  let partyRaw ← jDictGet raw "partyName" (.jStr "")
  let party_name ← (match partyRaw with
    | .jStr s => some s
    | _ => none)
  let party := if pyContains party_name "Republican" then "R"
    else if pyContains party_name "Democrat" then "D"
    else if pyContains party_name "Independent" then "I"
    else "O"
  let nameRaw ← jDictGet raw "name" (.jStr "")
  let full_name_raw ← (match nameRaw with
    | .jStr s => some s
    | _ => none)
  let fnl :=
    if pyContains full_name_raw ", " then
      match splitFirst [',', ' '] full_name_raw.data with
      | some (a, b) =>
          let ln := pyStrip ⟨a⟩
          let fn := pyStrip ⟨b⟩
          (fn, ln, fn ++ " " ++ ln)
      | none => ("", "", full_name_raw)
    else
      let parts := wordsAux full_name_raw.data []
      ((match parts with
        | [] => ""
        | w :: _ => (⟨w⟩ : String)),
       (if parts.length > 1 then (⟨parts.getLastD []⟩ : String) else ""),
       full_name_raw)
  let bioguide_id ← (do
    match ← jDictGetN raw "bioguideId" with
    | some (.jStr s) => if s == "" then none else some s
    | _ => none)
  let title := if cd.1 == "senate" then "Senator" else "Representative"
  let details ← jDictGet raw "_details" (.jObj [])
  let op ← extractContact details
  let website ← (do
    match ← jDictGetN raw "officialWebsiteUrl" with
    | none => some (none : Option String)
    | some .jNull => some (none : Option String)
    | some (.jStr s) => some (some s)
    | some _ => none)
  let state ← (do
    match ← jDictGetN raw "state_code" with
    | some (.jStr s) => if pyLen s == 2 then some s else none
    | _ => none)
  pure { bioguide_id := bioguide_id, first_name := fnl.1, last_name := fnl.2.1,
         full_name := fnl.2.2, party := party, state := state, chamber := cd.1,
         district := cd.2, in_office := true, title := some title,
         website := website, phone := op.2, office := op.1, committees := [],
         last_updated := now }

/-- `CongressMembersIngester.transform`: read the most recent term, derive
chamber and district, then the remaining fields. -/
def membersTransform (now : Nat) (raw : JVal) : Option Politician := do
  let termsRaw ← jDictGet raw "terms" (.jObj [])
  let termsItem ← jDictGet termsRaw "item" (.jArr [])
  let current_term ← (if jvFalsy termsItem then some (JVal.jObj [])
    else match termsItem with
      | .jArr xs => xs.getLast?
      | _ => none)
  let chamberRaw ← jDictGet current_term "chamber" (.jStr "")
  let chamber_str ← (match chamberRaw with
    | .jStr s => some (pyLower s)
    | _ => none)
  let cd ← transformDistrict raw chamber_str
  membersRest now raw cd


/-- Mongo equality holds for the exact stored value. -/
lemma mongoEq_true_of_getKey (d : Doc) (k : String) (v : PValue)
    (hg : getKey d k = some v) : mongoEq d k v = true := by
  unfold mongoEq
  rw [hg]
  simp

/-- A null query value matches a null or missing field. -/
lemma mongoEq_vNone_true (d : Doc) (k : String)
    (h : getKey d k = some PValue.vNone ∨ hasKey d k = false) :
    mongoEq d k PValue.vNone = true := by
  unfold mongoEq
  rcases h with h | h
  · rw [h]; simp
  · rw [getKey_eq_none_of_hasKey_false d k h]; simp

/-- The chamber and district of a transformed member come from
`transformDistrict`. -/
lemma membersRest_fields (now : Nat) (raw : JVal) (cd : String × Option Int)
    (p : Politician) (h : membersRest now raw cd = some p) :
    p.chamber = cd.1 ∧ p.district = cd.2 := by
  simp only [membersRest, Option.bind_eq_bind, Option.bind_eq_some, Option.pure_def,
    Option.some.injEq] at h
  obtain ⟨x1, h1, h⟩ := h
  obtain ⟨x2, h2, h⟩ := h
  obtain ⟨x3, h3, h⟩ := h
  obtain ⟨x4, h4, h⟩ := h
  obtain ⟨x5, h5, h⟩ := h
  obtain ⟨x6, h6, h⟩ := h
  obtain ⟨x7, h7, h⟩ := h
  obtain ⟨x8, h8, h⟩ := h
  obtain ⟨x9, h9, h⟩ := h
  rw [← h]
  exact ⟨rfl, rfl⟩

/-- A successful transform factors through `transformDistrict`. -/
lemma membersTransform_split (now : Nat) (raw : JVal) (p : Politician)
    (h : membersTransform now raw = some p) :
    ∃ chamber_str cd, transformDistrict raw chamber_str = some cd ∧
      membersRest now raw cd = some p := by
  simp only [membersTransform, Option.bind_eq_bind, Option.bind_eq_some] at h
  obtain ⟨x1, h1, h⟩ := h
  obtain ⟨x2, h2, h⟩ := h
  obtain ⟨x3, h3, h⟩ := h
  obtain ⟨x4, h4, h⟩ := h
  obtain ⟨cs, h5, h⟩ := h
  obtain ⟨cd, hcd, hrest⟩ := h
  exact ⟨cs, cd, hcd, hrest⟩

/-- The district produced by `transformDistrict` is `none` whenever the raw
district is missing or falsy. -/
lemma transformDistrict_falsy (raw : JVal) (cs : String) (cd : String × Option Int)
    (h : transformDistrict raw cs = some cd) :
    (jDictGetN raw "district" = some none → cd.2 = none)
    ∧ (∀ v, jDictGetN raw "district" = some (some v) → jvFalsy v = true →
        cd.2 = none) := by
  unfold transformDistrict at h
  split at h
  · cases h
    exact ⟨fun _ => rfl, fun _ _ _ => rfl⟩
  · constructor
    · intro hd
      rw [hd] at h
      cases h
      rfl
    · intro v hd hf
      rw [hd] at h
      have h' : (if jvFalsy v then some (("house", none) : String × Option Int)
          else (pyIntJ v).map (fun n => ("house", some n))) = some cd := h
      rw [if_pos hf] at h'
      cases h'
      rfl

/-- C10: in the members transform, a House member's district becomes `None`
whenever the raw district value is absent or falsy — in particular an
at-large district `0` is stored as `None` — and the seat-invalidation query
with a `None` district matches stored documents whose district field is
null or missing, so all at-large House records of a state share one seat
key. -/
theorem claim_C10_at_large_district :
    (∀ now raw p, membersTransform now raw = some p →
        (jDictGetN raw "district" = some none → p.district = none)
        ∧ (∀ v, jDictGetN raw "district" = some (some v) → jvFalsy v = true →
            p.district = none)
        ∧ (jDictGetN raw "district" = some (some (.jNum 0)) → p.district = none))
    ∧ (∀ p d, p.chamber = "house" → p.district = none →
        getKey d "state" = some (.vStr p.state) →
        getKey d "chamber" = some (.vStr "house") →
        getKey d "in_office" = some (.vBool true) →
        getKey d "bioguide_id" ≠ some (.vStr p.bioguide_id) →
        (getKey d "district" = some PValue.vNone ∨ hasKey d "district" = false) →
        houseSeatQuery p d = true) := by
  constructor
  · intro now raw p h
    obtain ⟨cs, cd, hcd, hrest⟩ := membersTransform_split now raw p h
    have hfields := membersRest_fields now raw cd p hrest
    have hfalsy := transformDistrict_falsy raw cs cd hcd
    refine ⟨?_, ?_, ?_⟩
    · intro hd
      rw [hfields.2]
      exact hfalsy.1 hd
    · intro v hd hf
      rw [hfields.2]
      exact hfalsy.2 v hd hf
    · intro hd
      rw [hfields.2]
      exact hfalsy.2 (.jNum 0) hd (by decide)
  · intro p d hch hdist hst hcham hio hbio hdis
    unfold houseSeatQuery mongoMatch
    simp only [List.all_cons, List.all_nil, Bool.and_true, Bool.and_eq_true,
      Bool.not_eq_true']
    refine ⟨⟨?_, ?_, ?_, ?_⟩, ?_⟩
    · exact mongoEq_true_of_getKey d "state" _ hst
    · rw [hdist]
      exact mongoEq_vNone_true d "district" hdis
    · exact mongoEq_true_of_getKey d "chamber" _ hcham
    · exact mongoEq_true_of_getKey d "in_office" _ hio
    · exact mongoEq_false_of_ne d "bioguide_id" _ hbio

/-- The concrete at-large raw member used in the C10 witness. -/
def c10Raw : JVal :=
  .jObj [("terms", .jObj [("item",
            .jArr [.jObj [("chamber", .jStr "House of Representatives")]])]),
         ("district", .jNum 0), ("partyName", .jStr "Republican"),
         ("name", .jStr "Doe, Jane"), ("bioguideId", .jStr "B2"),
         ("state_code", .jStr "AK")]

/-- The transformed politician for `c10Raw`. -/
def c10Pol : Politician :=
  { bioguide_id := "B2", first_name := "Jane", last_name := "Doe",
    full_name := "Jane Doe", party := "R", state := "AK", chamber := "house",
    district := none, in_office := true, title := some "Representative",
    website := none, phone := none, office := none, committees := [],
    last_updated := 5 }

/-- A stored at-large record of the same state with no district field. -/
def c10Doc : Doc :=
  [("bioguide_id", .vStr "B1"), ("state", .vStr "AK"),
   ("chamber", .vStr "house"), ("in_office", .vBool true)]

/-- Witness for C10: a raw district of 0 is stored as district `None`, and
the invalidation query matches a stored at-large record lacking the
district field. -/
theorem claim_C10_at_large_district_witness :
    membersTransform 5 c10Raw = some c10Pol
    ∧ c10Pol.district = none
    ∧ houseSeatQuery c10Pol c10Doc = true := by
  refine ⟨by decide, ?_, ?_⟩
  · exact (claim_C10_at_large_district.1 5 c10Raw c10Pol (by decide)).2.2 (by rfl)
  · exact claim_C10_at_large_district.2 c10Pol c10Doc (by decide) (by decide)
      (by decide) (by decide) (by decide) (by decide) (by decide)

/-! ## C2: seat uniqueness across successive loads -/

/-- Bool form of `claimSeat`: the document holds the incoming member's seat
and is in office. -/
def seatActive (p : Politician) (d : Doc) : Bool := decide (claimSeat p d)

/-- Number of stored documents carrying a given bioguide id. -/
def bioCount (b : String) (S : List Doc) : Nat :=
  S.countP (fun d => getKey d "bioguide_id" == some (PValue.vStr b))

/-- Mongo equality against a string value is plain field comparison. -/
lemma mongoEq_vStr_beq (d : Doc) (k b : String) :
    mongoEq d k (.vStr b) = (getKey d k == some (PValue.vStr b)) := by
  unfold mongoEq
  cases hg : getKey d k with
  | none => simp
  | some w => simp

/-- The upsert key match reads the stored bioguide id. -/
lemma mongoMatch_bio (b : String) (d : Doc) :
    mongoMatch [("bioguide_id", PValue.vStr b)] d
      = (getKey d "bioguide_id" == some (PValue.vStr b)) := by
  rw [mongoMatch_single, mongoEq_vStr_beq]

/-- Decomposition of `updateFirstMatch` around the first matching element. -/
lemma updateFirstMatch_split (q : Doc → Bool) (f : Doc → Doc) (l : List Doc)
    (h : l.any q = true) :
    ∃ A d0 B, l = A ++ d0 :: B ∧ (∀ a ∈ A, q a = false) ∧ q d0 = true ∧
      updateFirstMatch q f l = A ++ f d0 :: B := by
  induction l with
  | nil => simp at h
  | cons d ds ih =>
      cases hq : q d with
      | true =>
          refine ⟨[], d, ds, rfl, by simp, hq, ?_⟩
          unfold updateFirstMatch
          rw [if_pos hq]
          rfl
      | false =>
          have h' : ds.any q = true := by
            simp only [List.any_cons, hq, Bool.false_or] at h
            exact h
          obtain ⟨A, d0, B, hsplit, hA, hd0, hupd⟩ := ih h'
          refine ⟨d :: A, d0, B, by rw [hsplit]; rfl, ?_, hd0, ?_⟩
          · intro a ha
            rcases List.mem_cons.mp ha with rfl | ha'
            · exact hq
            · exact hA a ha'
          · unfold updateFirstMatch
            rw [if_neg (by simp [hq]), hupd]
            rfl

/-- Members of an `updateFirstMatch` result come from the input, updated or
not. -/
lemma mem_updateFirstMatch (q : Doc → Bool) (f : Doc → Doc) (l : List Doc)
    (x : Doc) (hx : x ∈ updateFirstMatch q f l) : x ∈ l ∨ ∃ d ∈ l, x = f d := by
  induction l with
  | nil => simp [updateFirstMatch] at hx
  | cons d ds ih =>
      unfold updateFirstMatch at hx
      split at hx
      · rcases List.mem_cons.mp hx with rfl | hx'
        · exact Or.inr ⟨d, List.mem_cons_self d ds, rfl⟩
        · exact Or.inl (List.mem_cons_of_mem d hx')
      · rcases List.mem_cons.mp hx with heq | hx'
        · refine Or.inl ?_
          rw [heq]
          exact List.mem_cons_self d ds
        · rcases ih hx' with h1 | ⟨d1, hd1, he⟩
          · exact Or.inl (List.mem_cons_of_mem d h1)
          · exact Or.inr ⟨d1, List.mem_cons_of_mem d hd1, he⟩

/-- With pairwise-distinct field names, `applySet` writes each listed
value. -/
lemma getKey_applySet_mem_nodup (fields : Doc) (d : Doc) (k : String) (v : PValue)
    (hnd : (keys fields).Nodup) (hmem : (k, v) ∈ fields) :
    getKey (applySet d fields) k = some v := by
  induction fields generalizing d with
  | nil => simp at hmem
  | cons f fs ih =>
      have hnd' : (keys fs).Nodup := by
        simp only [keys, List.map_cons, List.nodup_cons] at hnd
        exact hnd.2
      rcases List.mem_cons.mp hmem with heq | hmem'
      · have hk : f.1 = k := by rw [← heq]
        have hv : f.2 = v := by rw [← heq]
        have hnotin : f.1 ∉ keys fs := by
          simp only [keys, List.map_cons, List.nodup_cons] at hnd
          exact hnd.1
        have hne : ∀ kv ∈ fs, kv.1 ≠ k := by
          intro kv hkv hkk
          apply hnotin
          rw [hk, ← hkk]
          exact List.mem_map_of_mem Prod.fst hkv
        show getKey (applySet (setKey d f.1 f.2) fs) k = some v
        rw [getKey_applySet_not_mem fs (setKey d f.1 f.2) k hne, hk, hv,
          getKey_setKey_self]
      · show getKey (applySet (setKey d f.1 f.2) fs) k = some v
        exact ih (setKey d f.1 f.2) hnd' hmem'

/-- `applySet` never removes a key. -/
lemma hasKey_applySet_of (fields d : Doc) (k : String)
    (h : hasKey d k = true) : hasKey (applySet d fields) k = true := by
  induction fields generalizing d with
  | nil => exact h
  | cons f fs ih =>
      show hasKey (applySet (setKey d f.1 f.2) fs) k = true
      apply ih
      by_cases hk : k = f.1
      · subst hk
        exact hasKey_setKey_self d f.1 f.2
      · rw [hasKey_setKey_ne d f.1 k f.2 hk]
        exact h

/-- A written field is present after `applySet`. -/
lemma hasKey_applySet_mem (fields d : Doc) (k : String) (v : PValue)
    (hmem : (k, v) ∈ fields) : hasKey (applySet d fields) k = true := by
  induction fields generalizing d with
  | nil => simp at hmem
  | cons f fs ih =>
      show hasKey (applySet (setKey d f.1 f.2) fs) k = true
      rcases List.mem_cons.mp hmem with heq | hmem'
      · have hk : f.1 = k := by rw [← heq]
        apply hasKey_applySet_of
        rw [hk]
        exact hasKey_setKey_self d k f.2
      · exact ih (setKey d f.1 f.2) hmem'

/-- The invalidation pass never touches the stored bioguide id. -/
lemma flipIf_bio (p : Politician) (now : Nat) (d : Doc) :
    getKey (if houseSeatQuery p d then applySet d (flipFields now) else d)
      "bioguide_id" = getKey d "bioguide_id" := by
  split
  · exact getKey_flip d now "bioguide_id" (by decide) (by decide)
  · rfl

/-- A flipped document reads `in_office = false`. -/
lemma getKey_flip_in_office (d : Doc) (now : Nat) :
    getKey (applySet d (flipFields now)) "in_office" = some (.vBool false) := by
  show getKey (setKey (setKey d "in_office" (.vBool false)) "last_updated"
    (.vTime now)) "in_office" = some (.vBool false)
  rw [getKey_setKey_ne _ _ _ _ (by decide), getKey_setKey_self]

/-- After the invalidation pass, an active holder of the incoming member's
seat necessarily carries the incoming member's own bioguide id. -/
lemma flipIf_active_bio (p : Politician) (now : Nat) (d : Doc)
    (hwf : docHasSeatKeys d = true)
    (ha : seatActive p (if houseSeatQuery p d then applySet d (flipFields now)
        else d) = true) :
    getKey (if houseSeatQuery p d then applySet d (flipFields now) else d)
      "bioguide_id" = some (.vStr p.bioguide_id) := by
  by_cases hq : houseSeatQuery p d = true
  · rw [if_pos hq] at ha ⊢
    exfalso
    have hc : claimSeat p (applySet d (flipFields now)) := of_decide_eq_true ha
    have hi := hc.2.2.2
    rw [getKey_flip_in_office] at hi
    simp at hi
  · rw [if_neg hq] at ha ⊢
    have hc : claimSeat p d := of_decide_eq_true ha
    by_contra hb
    exact hq ((houseSeatQuery_iff p d hwf).mpr ⟨hc, hb⟩)

/-- Upserting the normalized dump of an active canonical House member onto
any base yields an active holder of the seat carrying the member's id. -/
lemma applySet_normDump_active (p : Politician) (d : Doc)
    (hch : p.chamber = "house")
    (hst : normalize_state (some p.state) = some p.state)
    (hio : p.in_office = true) :
    seatActive p (applySet d (normDump p)) = true
    ∧ getKey (applySet d (normDump p)) "bioguide_id" = some (.vStr p.bioguide_id)
    ∧ getKey (applySet d (normDump p)) "in_office" = some (.vBool true) := by
  have hnd : (keys (normDump p)).Nodup := by
    show (["bioguide_id", "first_name", "last_name", "full_name", "party",
      "state", "chamber", "district", "in_office", "title", "website", "phone",
      "office", "committees", "last_updated"] : List String).Nodup
    decide
  have hstate : getKey (applySet d (normDump p)) "state"
      = some (optSV (normalize_state (some p.state))) :=
    getKey_applySet_mem_nodup _ _ _ _ hnd (by simp [normDump])
  have hdist : getKey (applySet d (normDump p)) "district"
      = some (optIV p.district) :=
    getKey_applySet_mem_nodup _ _ _ _ hnd (by simp [normDump])
  have hcham : getKey (applySet d (normDump p)) "chamber"
      = some (optSV (normalize_chamber (some p.chamber))) :=
    getKey_applySet_mem_nodup _ _ _ _ hnd (by simp [normDump])
  have hoff : getKey (applySet d (normDump p)) "in_office"
      = some (.vBool p.in_office) :=
    getKey_applySet_mem_nodup _ _ _ _ hnd (by simp [normDump])
  have hbio : getKey (applySet d (normDump p)) "bioguide_id"
      = some (.vStr p.bioguide_id) :=
    getKey_applySet_mem_nodup _ _ _ _ hnd (by simp [normDump])
  have hchv : normalize_chamber (some "house") = some "house" := by decide
  refine ⟨?_, hbio, ?_⟩
  · apply decide_eq_true
    refine ⟨?_, hdist, ?_, ?_⟩
    · rw [hstate, hst]
      rfl
    · rw [hcham, hch, hchv]
      rfl
    · rw [hoff, hio]
  · rw [hoff, hio]

/-- `applySet` preserves well-formedness. -/
lemma docHasSeatKeys_applySet (d fields : Doc) (hwf : docHasSeatKeys d = true) :
    docHasSeatKeys (applySet d fields) = true := by
  unfold docHasSeatKeys at hwf ⊢
  simp only [Bool.and_eq_true] at hwf ⊢
  exact ⟨⟨⟨hasKey_applySet_of _ _ _ hwf.1.1.1, hasKey_applySet_of _ _ _ hwf.1.1.2⟩,
    hasKey_applySet_of _ _ _ hwf.1.2⟩, hasKey_applySet_of _ _ _ hwf.2⟩

/-- Writing a normalized dump produces a well-formed document. -/
lemma docHasSeatKeys_normDump (p : Politician) (d : Doc) :
    docHasSeatKeys (applySet d (normDump p)) = true := by
  unfold docHasSeatKeys
  simp only [Bool.and_eq_true]
  exact ⟨⟨⟨hasKey_applySet_mem _ _ _ (optSV (normalize_state (some p.state)))
      (by simp [normDump]),
    hasKey_applySet_mem _ _ _ (optIV p.district) (by simp [normDump])⟩,
    hasKey_applySet_mem _ _ _ (optSV (normalize_chamber (some p.chamber)))
      (by simp [normDump])⟩,
    hasKey_applySet_mem _ _ _ (.vBool p.in_office) (by simp [normDump])⟩

/-- The upsert of a normalized dump preserves well-formedness. -/
lemma mongoUpsert_wf_aux (qf : List (String × PValue)) (p : Politician)
    (S1 : List Doc) (hwf1 : ∀ d ∈ S1, docHasSeatKeys d = true) :
    ∀ x ∈ (mongoUpsert qf (normDump p) S1).1, docHasSeatKeys x = true := by
  intro x hx
  unfold mongoUpsert at hx
  split at hx
  · dsimp only at hx
    rcases mem_updateFirstMatch _ _ _ x hx with h1 | ⟨d1, hd1, he⟩
    · exact hwf1 x h1
    · rw [he]
      exact docHasSeatKeys_applySet d1 (normDump p) (hwf1 d1 hd1)
  · dsimp only at hx
    rcases List.mem_append.mp hx with h1 | h1
    · exact hwf1 x h1
    · rw [List.mem_singleton] at h1
      rw [h1]
      exact docHasSeatKeys_normDump p qf

/-- A load preserves well-formedness of the stored documents. -/
lemma politicianLoad_wf (now : Nat) (p : Politician) (S : List Doc)
    (out : List Doc × Bool) (h : politicianLoad now p S = some out)
    (hwf : ∀ d ∈ S, docHasSeatKeys d = true) :
    ∀ d ∈ out.1, docHasSeatKeys d = true := by
  simp only [politicianLoad] at h
  rw [normalize_politician_model_dump] at h
  simp only [Option.map_some', Option.some.injEq] at h
  subst h
  apply mongoUpsert_wf_aux
  split
  · intro d hd
    rw [show mongoUpdateMany (houseSeatQuery p) (flipFields now) S
        = S.map (fun x => if houseSeatQuery p x then applySet x (flipFields now)
          else x) from rfl] at hd
    obtain ⟨d0, hd0, he⟩ := List.mem_map.mp hd
    rw [← he]
    split
    · exact docHasSeatKeys_applySet _ _ (hwf d0 hd0)
    · exact hwf d0 hd0
  · exact hwf

/-- The invalidation pass preserves every bioguide count. -/
lemma bioCount_flipPhase (p : Politician) (now : Nat) (S : List Doc) (b : String) :
    bioCount b (mongoUpdateMany (houseSeatQuery p) (flipFields now) S)
      = bioCount b S := by
  unfold bioCount mongoUpdateMany
  rw [List.countP_map]
  apply List.countP_congr
  intro d hd
  simp only [Function.comp_apply]
  rw [flipIf_bio p now d]

/-- The upsert leaves every other bioguide count unchanged. -/
lemma mongoUpsert_bioCount_ne (p : Politician) (S1 : List Doc) (b : String)
    (hb : b ≠ p.bioguide_id) :
    bioCount b (mongoUpsert [("bioguide_id", PValue.vStr p.bioguide_id)]
      (normDump p) S1).1 = bioCount b S1 := by
  have hnd : (keys (normDump p)).Nodup := by
    show (["bioguide_id", "first_name", "last_name", "full_name", "party",
      "state", "chamber", "district", "in_office", "title", "website", "phone",
      "office", "committees", "last_updated"] : List String).Nodup
    decide
  have hup : ∀ d : Doc, (getKey (applySet d (normDump p)) "bioguide_id"
      == some (PValue.vStr b)) = false := by
    intro d
    rw [getKey_applySet_mem_nodup (normDump p) d "bioguide_id"
      (.vStr p.bioguide_id) hnd (by simp [normDump])]
    simp [Ne.symm hb]
  unfold mongoUpsert
  split
  · rename_i hany
    obtain ⟨A, d0, B, hsplit, hA, hd0, hupd⟩ := updateFirstMatch_split _ _ _ hany
    dsimp only
    rw [hupd, hsplit]
    unfold bioCount
    simp only [List.countP_append, List.countP_cons]
    have hd0' : (getKey d0 "bioguide_id" == some (PValue.vStr b)) = false := by
      rw [mongoMatch_bio] at hd0
      have : getKey d0 "bioguide_id" = some (PValue.vStr p.bioguide_id) := by
        simpa using hd0
      rw [this]
      simp [Ne.symm hb]
    rw [hup d0, hd0']
  · dsimp only
    unfold bioCount
    simp only [List.countP_append, List.countP_cons, List.countP_nil]
    rw [hup]
    simp

/-- After the upsert, exactly one stored document carries the incoming
bioguide id. -/
lemma mongoUpsert_bioCount_self (p : Politician) (S1 : List Doc)
    (hbc : bioCount p.bioguide_id S1 ≤ 1) :
    bioCount p.bioguide_id (mongoUpsert [("bioguide_id",
      PValue.vStr p.bioguide_id)] (normDump p) S1).1 = 1 := by
  have hnd : (keys (normDump p)).Nodup := by
    show (["bioguide_id", "first_name", "last_name", "full_name", "party",
      "state", "chamber", "district", "in_office", "title", "website", "phone",
      "office", "committees", "last_updated"] : List String).Nodup
    decide
  have hup : ∀ d : Doc, (getKey (applySet d (normDump p)) "bioguide_id"
      == some (PValue.vStr p.bioguide_id)) = true := by
    intro d
    rw [getKey_applySet_mem_nodup (normDump p) d "bioguide_id"
      (.vStr p.bioguide_id) hnd (by simp [normDump])]
    simp
  unfold mongoUpsert
  split
  · rename_i hany
    obtain ⟨A, d0, B, hsplit, hA, hd0, hupd⟩ := updateFirstMatch_split _ _ _ hany
    dsimp only
    rw [hupd]
    have hAz : A.countP (fun d => getKey d "bioguide_id"
        == some (PValue.vStr p.bioguide_id)) = 0 := by
      rw [List.countP_eq_zero]
      intro a ha
      rw [← mongoMatch_bio]
      simp [hA a ha]
    have hd0' : (getKey d0 "bioguide_id"
        == some (PValue.vStr p.bioguide_id)) = true := by
      rw [← mongoMatch_bio]
      exact hd0
    have hBz : B.countP (fun d => getKey d "bioguide_id"
        == some (PValue.vStr p.bioguide_id)) = 0 := by
      unfold bioCount at hbc
      rw [hsplit] at hbc
      simp only [List.countP_append, List.countP_cons, hd0', if_pos] at hbc
      omega
    unfold bioCount
    simp only [List.countP_append, List.countP_cons, hup d0, hAz, hBz]
    simp
  · rename_i hany
    dsimp only
    have hSz : bioCount p.bioguide_id S1 = 0 := by
      unfold bioCount
      rw [List.countP_eq_zero]
      intro a ha
      rw [← mongoMatch_bio]
      intro hma
      exact hany (List.any_eq_true.mpr ⟨a, ha, hma⟩)
    unfold bioCount at hSz ⊢
    simp only [List.countP_append, List.countP_cons, List.countP_nil, hSz, hup]
    simp

/-- A load leaves every other bioguide count unchanged. -/
lemma politicianLoad_bioCount_ne (now : Nat) (p : Politician) (S : List Doc)
    (out : List Doc × Bool) (h : politicianLoad now p S = some out)
    (b : String) (hb : b ≠ p.bioguide_id) :
    bioCount b out.1 = bioCount b S := by
  simp only [politicianLoad] at h
  rw [normalize_politician_model_dump] at h
  simp only [Option.map_some', Option.some.injEq] at h
  subst h
  rw [mongoUpsert_bioCount_ne p _ b hb]
  split
  · exact bioCount_flipPhase p now S b
  · rfl

/-- After a load, exactly one stored document carries the incoming id. -/
lemma politicianLoad_bioCount_self (now : Nat) (p : Politician) (S : List Doc)
    (out : List Doc × Bool) (h : politicianLoad now p S = some out)
    (hbc : bioCount p.bioguide_id S ≤ 1) :
    bioCount p.bioguide_id out.1 = 1 := by
  simp only [politicianLoad] at h
  rw [normalize_politician_model_dump] at h
  simp only [Option.map_some', Option.some.injEq] at h
  subst h
  apply mongoUpsert_bioCount_self
  split
  · rw [bioCount_flipPhase p now S p.bioguide_id]
    exact hbc
  · exact hbc

/-- After loading an active canonical House member into a well-formed store
with at most one document for the member's id, the documents active on the
member's seat are exactly one, and it carries the member's id. -/
lemma politicianLoad_seat_char (now : Nat) (p : Politician) (S : List Doc)
    (out : List Doc × Bool) (h : politicianLoad now p S = some out)
    (hwf : ∀ d ∈ S, docHasSeatKeys d = true)
    (hbc : bioCount p.bioguide_id S ≤ 1)
    (hch : p.chamber = "house")
    (hst : normalize_state (some p.state) = some p.state)
    (hio : p.in_office = true) :
    ∃ d, out.1.filter (seatActive p) = [d] ∧
      getKey d "bioguide_id" = some (.vStr p.bioguide_id) ∧
      getKey d "in_office" = some (.vBool true) := by
  simp only [politicianLoad] at h
  rw [normalize_politician_model_dump] at h
  simp only [Option.map_some', Option.some.injEq] at h
  subst h
  have hcb : (p.chamber == "house") = true := by simp [hch]
  rw [if_pos hcb]
  rw [show mongoUpdateMany (houseSeatQuery p) (flipFields now) S
      = S.map (fun x => if houseSeatQuery p x then applySet x (flipFields now)
        else x) from rfl]
  have hflip : ∀ d ∈ S.map (fun x => if houseSeatQuery p x
        then applySet x (flipFields now) else x),
      seatActive p d = true → getKey d "bioguide_id"
        = some (.vStr p.bioguide_id) := by
    intro d hd ha
    obtain ⟨d0, hd0, he⟩ := List.mem_map.mp hd
    rw [← he] at ha ⊢
    exact flipIf_active_bio p now d0 (hwf d0 hd0) ha
  have hbcm : bioCount p.bioguide_id (S.map (fun x => if houseSeatQuery p x
      then applySet x (flipFields now) else x)) ≤ 1 := by
    rw [show (S.map (fun x => if houseSeatQuery p x
        then applySet x (flipFields now) else x))
      = mongoUpdateMany (houseSeatQuery p) (flipFields now) S from rfl]
    rw [bioCount_flipPhase p now S p.bioguide_id]
    exact hbc
  generalize hS1 : (S.map (fun x => if houseSeatQuery p x
      then applySet x (flipFields now) else x)) = S1 at hflip hbcm ⊢
  clear hS1 hwf hbc
  unfold mongoUpsert
  split
  · rename_i hany
    obtain ⟨A, d0, B, hsplit, hA, hd0, hupd⟩ := updateFirstMatch_split _ _ _ hany
    dsimp only
    rw [hupd]
    have hact := applySet_normDump_active p d0 hch hst hio
    refine ⟨applySet d0 (normDump p), ?_, hact.2.1, hact.2.2⟩
    have hAn : A.filter (seatActive p) = [] := by
      rw [List.filter_eq_nil_iff]
      intro a ha hsa
      have hmem : a ∈ S1 := by
        rw [hsplit]
        exact List.mem_append_left _ ha
      have hb := hflip a hmem hsa
      have := hA a ha
      rw [mongoMatch_bio, hb] at this
      simp at this
    have hd0b : getKey d0 "bioguide_id" = some (.vStr p.bioguide_id) := by
      rw [mongoMatch_bio] at hd0
      simpa using hd0
    have hBn : B.filter (seatActive p) = [] := by
      rw [List.filter_eq_nil_iff]
      intro b hb hsb
      have hmem : b ∈ S1 := by
        rw [hsplit]
        exact List.mem_append_right _ (List.mem_cons_of_mem d0 hb)
      have hbb := hflip b hmem hsb
      have hcnt : B.countP (fun d => getKey d "bioguide_id"
          == some (PValue.vStr p.bioguide_id)) = 0 := by
        unfold bioCount at hbcm
        rw [hsplit] at hbcm
        simp only [List.countP_append, List.countP_cons] at hbcm
        rw [hd0b] at hbcm
        simp only [beq_self_eq_true, if_pos] at hbcm
        omega
      rw [List.countP_eq_zero] at hcnt
      exact hcnt b hb (by rw [hbb]; simp)
    rw [List.filter_append, List.filter_cons, hAn, hBn, hact.1]
    rfl
  · rename_i hany
    dsimp only
    have hact := applySet_normDump_active p
      [("bioguide_id", PValue.vStr p.bioguide_id)] hch hst hio
    refine ⟨applySet [("bioguide_id", PValue.vStr p.bioguide_id)] (normDump p),
      ?_, hact.2.1, hact.2.2⟩
    have hSn : S1.filter (seatActive p) = [] := by
      rw [List.filter_eq_nil_iff]
      intro a ha hsa
      have hb := hflip a ha hsa
      apply hany
      apply List.any_eq_true.mpr
      refine ⟨a, ha, ?_⟩
      rw [mongoMatch_bio, hb]
      simp
    rw [List.filter_append, hSn, List.filter_cons, hact.1]
    rfl

/-- C2: after two successive House-member loads for the same seat with
different bioguide ids, the two members' seat predicates coincide, and
exactly one stored record for that seat is in office — the most recently
ingested one; re-ingesting the same record again keeps its `in_office`
true, because the invalidation pass runs before the upsert of the new
occupant and never matches the incoming id. -/
theorem claim_C2_seat_uniqueness (now1 now2 now3 : Nat) (p1 p2 : Politician)
    (S : List Doc) (out1 out2 out3 : List Doc × Bool)
    (hwf : ∀ d ∈ S, docHasSeatKeys d = true)
    (hbc2 : bioCount p2.bioguide_id S ≤ 1)
    (hseat : p1.state = p2.state ∧ p1.district = p2.district)
    (hne : p1.bioguide_id ≠ p2.bioguide_id)
    (hch1 : p1.chamber = "house") (hch2 : p2.chamber = "house")
    (hst2 : normalize_state (some p2.state) = some p2.state)
    (hio2 : p2.in_office = true)
    (h1 : politicianLoad now1 p1 S = some out1)
    (h2 : politicianLoad now2 p2 out1.1 = some out2)
    (h3 : politicianLoad now3 p2 out2.1 = some out3) :
    (∀ d, seatActive p1 d = seatActive p2 d)
    ∧ (∃ d, out2.1.filter (seatActive p2) = [d] ∧
        getKey d "bioguide_id" = some (.vStr p2.bioguide_id) ∧
        getKey d "in_office" = some (.vBool true))
    ∧ (∃ d, out3.1.filter (seatActive p2) = [d] ∧
        getKey d "bioguide_id" = some (.vStr p2.bioguide_id) ∧
        getKey d "in_office" = some (.vBool true)) := by
  have hwf1 := politicianLoad_wf now1 p1 S out1 h1 hwf
  have hbc1 : bioCount p2.bioguide_id out1.1 ≤ 1 := by
    rw [politicianLoad_bioCount_ne now1 p1 S out1 h1 p2.bioguide_id
      (Ne.symm hne)]
    exact hbc2
  have hchar2 := politicianLoad_seat_char now2 p2 out1.1 out2 h2 hwf1 hbc1
    hch2 hst2 hio2
  have hwf2 := politicianLoad_wf now2 p2 out1.1 out2 h2 hwf1
  have hbc2' : bioCount p2.bioguide_id out2.1 ≤ 1 :=
    le_of_eq (politicianLoad_bioCount_self now2 p2 out1.1 out2 h2 hbc1)
  have hchar3 := politicianLoad_seat_char now3 p2 out2.1 out3 h3 hwf2 hbc2'
    hch2 hst2 hio2
  refine ⟨?_, hchar2, hchar3⟩
  intro d
  unfold seatActive
  apply decide_eq_decide.mpr
  unfold claimSeat
  rw [hseat.1, hseat.2]

/-- First occupant of the Utah district-1 House seat in the C2 witness. -/
def c2p1 : Politician :=
  { bioguide_id := "B1", first_name := "John", last_name := "Roe",
    full_name := "John Roe", party := "D", state := "UT", chamber := "house",
    district := some 1, in_office := true, title := some "Representative",
    website := none, phone := none, office := none, committees := [],
    last_updated := 1 }

/-- Second occupant of the same seat in the C2 witness. -/
def c2p2 : Politician :=
  { bioguide_id := "B2", first_name := "Jane", last_name := "Doe",
    full_name := "Jane Doe", party := "R", state := "UT", chamber := "house",
    district := some 1, in_office := true, title := some "Representative",
    website := none, phone := none, office := none, committees := [],
    last_updated := 2 }

/-- Stored document of the first occupant after the first load. -/
def c2doc1 : Doc :=
  [("bioguide_id", .vStr "B1"), ("first_name", .vStr "John"),
   ("last_name", .vStr "Roe"), ("full_name", .vStr "John Roe"),
   ("party", .vStr "D"), ("state", .vStr "UT"), ("chamber", .vStr "house"),
   ("district", .vInt 1), ("in_office", .vBool true),
   ("title", .vStr "Representative"), ("website", .vNone), ("phone", .vNone),
   ("office", .vNone), ("committees", .vList []), ("last_updated", .vTime 1)]

/-- The first occupant's document after being flipped out of office. -/
def c2doc1f : Doc :=
  [("bioguide_id", .vStr "B1"), ("first_name", .vStr "John"),
   ("last_name", .vStr "Roe"), ("full_name", .vStr "John Roe"),
   ("party", .vStr "D"), ("state", .vStr "UT"), ("chamber", .vStr "house"),
   ("district", .vInt 1), ("in_office", .vBool false),
   ("title", .vStr "Representative"), ("website", .vNone), ("phone", .vNone),
   ("office", .vNone), ("committees", .vList []), ("last_updated", .vTime 20)]

/-- Stored document of the second occupant. -/
def c2doc2 : Doc :=
  [("bioguide_id", .vStr "B2"), ("first_name", .vStr "Jane"),
   ("last_name", .vStr "Doe"), ("full_name", .vStr "Jane Doe"),
   ("party", .vStr "R"), ("state", .vStr "UT"), ("chamber", .vStr "house"),
   ("district", .vInt 1), ("in_office", .vBool true),
   ("title", .vStr "Representative"), ("website", .vNone), ("phone", .vNone),
   ("office", .vNone), ("committees", .vList []), ("last_updated", .vTime 2)]

/-- Witness for C2: loading B1 then B2 into an empty store for the Utah
district-1 House seat, then re-loading B2, leaves exactly one active record
for the seat, carried by B2, after the second and after the third load. -/
theorem claim_C2_seat_uniqueness_witness :
    (∃ d, ([c2doc1f, c2doc2] : List Doc).filter (seatActive c2p2) = [d] ∧
        getKey d "bioguide_id" = some (.vStr c2p2.bioguide_id) ∧
        getKey d "in_office" = some (.vBool true))
    ∧ (∃ d, ([c2doc1f, c2doc2] : List Doc).filter (seatActive c2p2) = [d] ∧
        getKey d "bioguide_id" = some (.vStr c2p2.bioguide_id) ∧
        getKey d "in_office" = some (.vBool true)) := by
  have h := claim_C2_seat_uniqueness 10 20 30 c2p1 c2p2 []
    ([c2doc1], true) ([c2doc1f, c2doc2], true) ([c2doc1f, c2doc2], false)
    (by simp) (by decide) ⟨rfl, rfl⟩ (by decide) rfl rfl (by decide) rfl
    (by decide) (by decide) (by decide)
  exact ⟨h.2.1, h.2.2⟩

/-! ## C3: idempotence of the load passes -/

/-- The per-document seat-invalidation step of one politician load. -/
def flipGuard (now : Nat) (p : Politician) (d : Doc) : Doc :=
  if p.chamber == "house" && houseSeatQuery p d then applySet d (flipFields now)
  else d

/-- The per-document upsert step of one politician load. -/
def upStep (p : Politician) (d : Doc) : Doc :=
  if mongoMatch [("bioguide_id", PValue.vStr p.bioguide_id)] d then
    applySet d (normDump p)
  else d

/-- The whole per-document effect of one politician load. -/
def docStep (now : Nat) (p : Politician) (d : Doc) : Doc :=
  upStep p (flipGuard now p d)

/-- Per-document effect of a sequence of politician loads. -/
def docChain (now : Nat) (ps : List Politician) (d : Doc) : Doc :=
  ps.foldl (fun e p => docStep now p e) d

/-- The fresh document created when the upsert finds no match. -/
def newbornDoc (p : Politician) : Doc :=
  applySet [("bioguide_id", PValue.vStr p.bioguide_id)] (normDump p)

/-- Run the politician load pass over a record sequence, counting inserts. -/
def politicianLoadSeq (now : Nat) (ps : List Politician) (S : List Doc) :
    Option (List Doc × Nat) :=
  match ps with
  | [] => some (S, 0)
  | p :: rest =>
      (politicianLoad now p S).bind (fun r =>
        (politicianLoadSeq now rest r.1).map
          (fun r2 => (r2.1, (if r.2 then 1 else 0) + r2.2)))

lemma docChain_cons (now : Nat) (p : Politician) (rest : List Politician)
    (d : Doc) : docChain now (p :: rest) d = docChain now rest (docStep now p d) :=
  rfl

/-- The key list of the normalized dump has no repeats. -/
lemma normDump_keys_nodup (p : Politician) : (keys (normDump p)).Nodup := by
  show (["bioguide_id", "first_name", "last_name", "full_name", "party",
    "state", "chamber", "district", "in_office", "title", "website", "phone",
    "office", "committees", "last_updated"] : List String).Nodup
  decide

/-- A key of a document carries some value. -/
lemma exists_val_of_mem_keys (d : Doc) (k : String) (h : k ∈ keys d) :
    ∃ v, (k, v) ∈ d := by
  obtain ⟨kv, hkv, he⟩ := List.mem_map.mp h
  exact ⟨kv.2, by rw [← he]; exact hkv⟩

/-- Documents with equal repeat-free key lists and equal reads are equal. -/
lemma doc_ext (x : Doc) (y : Doc) (hk : keys x = keys y)
    (hnd : (keys x).Nodup) (hg : ∀ k, getKey x k = getKey y k) : x = y := by
  induction x generalizing y with
  | nil =>
      cases y with
      | nil => rfl
      | cons b ys => simp [keys] at hk
  | cons a xs ih =>
      cases y with
      | nil => simp [keys] at hk
      | cons b ys =>
          simp only [keys, List.map_cons, List.cons.injEq] at hk
          obtain ⟨h1, h2⟩ := hk
          have hhead := hg a.1
          rw [getKey_cons, getKey_cons, if_pos (by simp),
            if_pos (by simp [h1])] at hhead
          simp only [Option.some.injEq] at hhead
          simp only [keys, List.map_cons, List.nodup_cons] at hnd
          have hab : a = b := by
            cases a; cases b; simp_all
          have htail : ∀ k, getKey xs k = getKey ys k := by
            intro k
            by_cases hka : a.1 = k
            · have hx : getKey xs k = none := by
                apply getKey_eq_none_of_hasKey_false
                cases hh : hasKey xs k with
                | false => rfl
                | true =>
                    exfalso
                    apply hnd.1
                    rw [hka]
                    exact (hasKey_iff_mem_keys xs k).mp hh
              have hy : getKey ys k = none := by
                apply getKey_eq_none_of_hasKey_false
                cases hh : hasKey ys k with
                | false => rfl
                | true =>
                    exfalso
                    apply hnd.1
                    rw [hka, h2]
                    exact (hasKey_iff_mem_keys ys k).mp hh
              rw [hx, hy]
            · have := hg k
              rw [getKey_cons, getKey_cons, if_neg (by simp [hka]),
                if_neg (by simp [h1 ▸ hka])] at this
              exact this
          rw [hab, ih ys h2 hnd.2 htail]

/-- `setKey` preserves repeat-freeness of the key list. -/
lemma keys_setKey_nodup (d : Doc) (k : String) (v : PValue)
    (h : (keys d).Nodup) : (keys (setKey d k v)).Nodup := by
  rw [keys_setKey]
  split
  · exact h
  · rename_i hk
    have hnot : k ∉ keys d := by
      intro hm
      exact hk ((hasKey_iff_mem_keys d k).mpr hm)
    simp [List.nodup_append, h, hnot]

/-- `applySet` preserves repeat-freeness of the key list. -/
lemma keys_applySet_nodup (fields d : Doc) (h : (keys d).Nodup) :
    (keys (applySet d fields)).Nodup := by
  induction fields generalizing d with
  | nil => exact h
  | cons f fs ih =>
      show (keys (applySet (setKey d f.1 f.2) fs)).Nodup
      exact ih (setKey d f.1 f.2) (keys_setKey_nodup d f.1 f.2 h)

/-- Writing only already-present fields leaves the key list unchanged. -/
lemma keys_applySet_of_present (fields d : Doc)
    (h : ∀ k ∈ keys fields, hasKey d k = true) :
    keys (applySet d fields) = keys d := by
  induction fields generalizing d with
  | nil => rfl
  | cons f fs ih =>
      show keys (applySet (setKey d f.1 f.2) fs) = keys d
      have h1 : hasKey d f.1 = true := h f.1 (List.mem_cons_self f.1 (keys fs))
      have hkeys : keys (setKey d f.1 f.2) = keys d := by
        rw [keys_setKey, if_pos h1]
      have hrec : ∀ k ∈ keys fs, hasKey (setKey d f.1 f.2) k = true := by
        intro k hk
        by_cases hkf : k = f.1
        · subst hkf
          exact hasKey_setKey_self d f.1 f.2
        · rw [hasKey_setKey_ne d f.1 k f.2 hkf]
          exact h k (List.mem_cons_of_mem f.1 hk)
      rw [ih (setKey d f.1 f.2) hrec, hkeys]

/-- Re-applying a `$set` document onto its own previous output is absorbed:
the earlier write already fixed every listed field. -/
lemma applySet_absorb (nd c s : Doc) (hndk : (keys nd).Nodup)
    (hnodup : (keys (applySet c nd)).Nodup)
    (hks : keys s = keys (applySet c nd))
    (hagree : ∀ k, k ∉ keys nd → getKey s k = getKey (applySet c nd) k) :
    applySet s nd = applySet c nd := by
  have hpres : ∀ k ∈ keys nd, hasKey s k = true := by
    intro k hk
    obtain ⟨v, hv⟩ := exists_val_of_mem_keys nd k hk
    have h1 : hasKey (applySet c nd) k = true := hasKey_applySet_mem nd c k v hv
    rw [hasKey_iff_mem_keys, hks]
    exact (hasKey_iff_mem_keys _ k).mp h1
  have hkeq : keys (applySet s nd) = keys s := keys_applySet_of_present nd s hpres
  apply doc_ext
  · rw [hkeq, hks]
  · rw [hkeq, hks]
    exact hnodup
  · intro k
    by_cases hk : k ∈ keys nd
    · obtain ⟨v, hv⟩ := exists_val_of_mem_keys nd k hk
      rw [getKey_applySet_mem_nodup nd s k v hndk hv,
        getKey_applySet_mem_nodup nd c k v hndk hv]
    · have hne : ∀ kv ∈ nd, kv.1 ≠ k := by
        intro kv hkv hkk
        exact hk (by rw [← hkk]; exact List.mem_map_of_mem Prod.fst hkv)
      rw [getKey_applySet_not_mem nd s k hne]
      exact hagree k hk

/-- Mapping a conditional update over untouched elements is the identity. -/
lemma map_ite_id (q : Doc → Bool) (f : Doc → Doc) (l : List Doc)
    (h : ∀ a ∈ l, q a = false) :
    l.map (fun d => if q d then f d else d) = l := by
  induction l with
  | nil => rfl
  | cons a as ih =>
      simp only [List.map_cons]
      rw [if_neg (by simp [h a (List.mem_cons_self a as)]),
        ih (fun x hx => h x (List.mem_cons_of_mem a hx))]

/-- With at most one match, updating the first match is a per-element map. -/
lemma updateFirstMatch_eq_map (q : Doc → Bool) (f : Doc → Doc) (l : List Doc)
    (h : l.countP q ≤ 1) :
    updateFirstMatch q f l = l.map (fun d => if q d then f d else d) := by
  induction l with
  | nil => rfl
  | cons d ds ih =>
      unfold updateFirstMatch
      cases hq : q d with
      | true =>
          rw [if_pos rfl]
          have hz : ∀ a ∈ ds, q a = false := by
            rw [List.countP_cons] at h
            simp only [hq, if_pos] at h
            have h0 : ds.countP q = 0 := by omega
            rw [List.countP_eq_zero] at h0
            intro a ha
            have := h0 a ha
            revert this
            cases q a <;> simp
          simp only [List.map_cons]
          rw [if_pos hq, map_ite_id q f ds hz]
      | false =>
          rw [if_neg (by simp)]
          simp only [List.map_cons]
          rw [if_neg (by simp [hq])]
          congr 1
          apply ih
          rw [List.countP_cons] at h
          simpa [hq] using h

/-- The invalidation step never touches the stored bioguide id. -/
lemma flipGuard_bio (now : Nat) (p : Politician) (d : Doc) :
    getKey (flipGuard now p d) "bioguide_id" = getKey d "bioguide_id" := by
  unfold flipGuard
  split
  · exact getKey_flip d now "bioguide_id" (by decide) (by decide)
  · rfl

/-- The upsert step never changes the stored bioguide id. -/
lemma upStep_bio (p : Politician) (d : Doc) :
    getKey (upStep p d) "bioguide_id" = getKey d "bioguide_id" := by
  unfold upStep
  split
  · rename_i hm
    rw [mongoMatch_bio] at hm
    have hget : getKey d "bioguide_id" = some (.vStr p.bioguide_id) := by
      simpa using hm
    rw [getKey_applySet_mem_nodup (normDump p) d "bioguide_id"
      (.vStr p.bioguide_id) (normDump_keys_nodup p) (by simp [normDump]), hget]
  · rfl

/-- One load step never changes any stored bioguide id. -/
lemma docStep_bio (now : Nat) (p : Politician) (d : Doc) :
    getKey (docStep now p d) "bioguide_id" = getKey d "bioguide_id" := by
  unfold docStep
  rw [upStep_bio, flipGuard_bio]

/-- A load sequence never changes any stored bioguide id. -/
lemma docChain_bio (now : Nat) (ps : List Politician) (d : Doc) :
    getKey (docChain now ps d) "bioguide_id" = getKey d "bioguide_id" := by
  induction ps generalizing d with
  | nil => rfl
  | cons p rest ih =>
      rw [docChain_cons, ih (docStep now p d), docStep_bio]

/-- The invalidation step preserves key-list repeat-freeness. -/
lemma flipGuard_keys_nodup (now : Nat) (p : Politician) (d : Doc)
    (h : (keys d).Nodup) : (keys (flipGuard now p d)).Nodup := by
  unfold flipGuard
  split
  · exact keys_applySet_nodup _ _ h
  · exact h

/-- One load step preserves key-list repeat-freeness. -/
lemma docStep_keys_nodup (now : Nat) (p : Politician) (d : Doc)
    (h : (keys d).Nodup) : (keys (docStep now p d)).Nodup := by
  have hflip := flipGuard_keys_nodup now p d h
  unfold docStep upStep
  split
  · exact keys_applySet_nodup _ _ hflip
  · exact hflip

/-- A load sequence preserves key-list repeat-freeness. -/
lemma docChain_keys_nodup (now : Nat) (ps : List Politician) (d : Doc)
    (h : (keys d).Nodup) : (keys (docChain now ps d)).Nodup := by
  induction ps generalizing d with
  | nil => exact h
  | cons p rest ih =>
      rw [docChain_cons]
      exact ih (docStep now p d) (docStep_keys_nodup now p d h)

/-- On a document with a different id, the load step is invalidation only. -/
lemma docStep_foreign (now : Nat) (p : Politician) (d : Doc)
    (hf : getKey d "bioguide_id" ≠ some (.vStr p.bioguide_id)) :
    docStep now p d = flipGuard now p d := by
  have hm : mongoMatch [("bioguide_id", PValue.vStr p.bioguide_id)]
      (flipGuard now p d) = false := by
    rw [mongoMatch_bio, flipGuard_bio]
    exact beq_eq_false_iff_ne.mpr hf
  unfold docStep upStep
  rw [if_neg (by simp [hm])]

/-- A document not marked in office is never flipped. -/
lemma flipGuard_not_active (now : Nat) (p : Politician) (d : Doc)
    (hio : getKey d "in_office" ≠ some (.vBool true)) :
    flipGuard now p d = d := by
  have hq : houseSeatQuery p d = false := by
    unfold houseSeatQuery mongoMatch
    simp only [List.all_cons, List.all_nil]
    rw [mongoEq_false_of_ne_val d "in_office" (.vBool true) (by decide) hio]
    simp
  unfold flipGuard
  rw [if_neg (by simp [hq])]

/-- A foreign document not marked in office is untouched by a load step. -/
lemma docStep_inert (now : Nat) (p : Politician) (d : Doc)
    (hf : getKey d "bioguide_id" ≠ some (.vStr p.bioguide_id))
    (hio : getKey d "in_office" ≠ some (.vBool true)) :
    docStep now p d = d := by
  rw [docStep_foreign now p d hf, flipGuard_not_active now p d hio]

/-- A foreign document not marked in office is untouched by a whole load
sequence. -/
lemma docChain_inert (now : Nat) (L : List Politician) (d : Doc)
    (hf : ∀ p ∈ L, getKey d "bioguide_id" ≠ some (.vStr p.bioguide_id))
    (hio : getKey d "in_office" ≠ some (.vBool true)) :
    docChain now L d = d := by
  induction L with
  | nil => rfl
  | cons p rest ih =>
      rw [docChain_cons,
        docStep_inert now p d (hf p (List.mem_cons_self p rest)) hio]
      exact ih (fun q hq => hf q (List.mem_cons_of_mem p hq))

/-- A foreign document either survives a load sequence unchanged or ends
flipped out of office. -/
lemma docChain_dich (now : Nat) (L : List Politician) (d : Doc)
    (hf : ∀ p ∈ L, getKey d "bioguide_id" ≠ some (.vStr p.bioguide_id)) :
    docChain now L d = d
    ∨ getKey (docChain now L d) "in_office" = some (.vBool false) := by
  induction L generalizing d with
  | nil => exact Or.inl rfl
  | cons p rest ih =>
      rw [docChain_cons,
        docStep_foreign now p d (hf p (List.mem_cons_self p rest))]
      unfold flipGuard
      split
      · have hioe : getKey (applySet d (flipFields now)) "in_office"
            = some (.vBool false) := getKey_flip_in_office d now
        have hbioe : getKey (applySet d (flipFields now)) "bioguide_id"
            = getKey d "bioguide_id" :=
          getKey_flip d now "bioguide_id" (by decide) (by decide)
        have hchain : docChain now rest (applySet d (flipFields now))
            = applySet d (flipFields now) := by
          apply docChain_inert
          · intro q hq
            rw [hbioe]
            exact hf q (List.mem_cons_of_mem p hq)
          · rw [hioe]
            simp
        rw [hchain]
        exact Or.inr hioe
      · exact ih d (fun q hq => hf q (List.mem_cons_of_mem p hq))

/-- Re-running a load sequence over a foreign document's first-run result
changes nothing. -/
lemma docChain_foreign_fix (now : Nat) (L : List Politician) (d : Doc)
    (hf : ∀ p ∈ L, getKey d "bioguide_id" ≠ some (.vStr p.bioguide_id)) :
    docChain now L (docChain now L d) = docChain now L d := by
  rcases docChain_dich now L d hf with h | h
  · rw [h]
    exact h
  · apply docChain_inert
    · intro q hq
      rw [docChain_bio]
      exact hf q hq
    · rw [h]
      simp

/-- Over a foreign document carrying the two flip fields, a load sequence
preserves the key list and every field outside the two flip fields. -/
lemma docChain_foreign_agree (now : Nat) (L : List Politician) (d : Doc)
    (hf : ∀ p ∈ L, getKey d "bioguide_id" ≠ some (.vStr p.bioguide_id))
    (hio : hasKey d "in_office" = true)
    (hlu : hasKey d "last_updated" = true) :
    keys (docChain now L d) = keys d
    ∧ ∀ k, k ≠ "in_office" → k ≠ "last_updated" →
        getKey (docChain now L d) k = getKey d k := by
  induction L generalizing d with
  | nil => exact ⟨rfl, fun k _ _ => rfl⟩
  | cons p rest ih =>
      rw [docChain_cons,
        docStep_foreign now p d (hf p (List.mem_cons_self p rest))]
      unfold flipGuard
      split
      · have h1 : hasKey (setKey d "in_office" (PValue.vBool false))
            "last_updated" = true := by
          rw [hasKey_setKey_ne d "in_office" "last_updated" _ (by decide)]
          exact hlu
        have hkeys_e : keys (applySet d (flipFields now)) = keys d := by
          show keys (setKey (setKey d "in_office" (PValue.vBool false))
            "last_updated" (PValue.vTime now)) = keys d
          rw [keys_setKey, if_pos h1, keys_setKey, if_pos hio]
        have hbio_e : getKey (applySet d (flipFields now)) "bioguide_id"
            = getKey d "bioguide_id" :=
          getKey_flip d now "bioguide_id" (by decide) (by decide)
        have hio_e : hasKey (applySet d (flipFields now)) "in_office" = true := by
          rw [hasKey_iff_mem_keys, hkeys_e, ← hasKey_iff_mem_keys]
          exact hio
        have hlu_e : hasKey (applySet d (flipFields now)) "last_updated" = true := by
          rw [hasKey_iff_mem_keys, hkeys_e, ← hasKey_iff_mem_keys]
          exact hlu
        obtain ⟨ihk, ihg⟩ := ih (applySet d (flipFields now))
          (fun q hq => by rw [hbio_e]; exact hf q (List.mem_cons_of_mem p hq))
          hio_e hlu_e
        refine ⟨by rw [ihk, hkeys_e], ?_⟩
        intro k hk1 hk2
        rw [ihg k hk1 hk2, getKey_flip d now k hk1 hk2]
      · exact ih d (fun q hq => hf q (List.mem_cons_of_mem p hq)) hio hlu

/-- The flip fields are among the dump fields. -/
lemma mem_keys_normDump_in_office (p : Politician) :
    ("in_office" : String) ∈ keys (normDump p) := by
  show ("in_office" : String) ∈ ["bioguide_id", "first_name", "last_name",
    "full_name", "party", "state", "chamber", "district", "in_office",
    "title", "website", "phone", "office", "committees", "last_updated"]
  decide

lemma mem_keys_normDump_last_updated (p : Politician) :
    ("last_updated" : String) ∈ keys (normDump p) := by
  show ("last_updated" : String) ∈ ["bioguide_id", "first_name", "last_name",
    "full_name", "party", "state", "chamber", "district", "in_office",
    "title", "website", "phone", "office", "committees", "last_updated"]
  decide

/-- A document last written by a member's upsert is restored to the same
value when the whole load sequence runs again over it, provided every other
load in the sequence carries a different id. -/
lemma docChain_class1_fix (now : Nat) (L1 L2 : List Politician)
    (p : Politician) (c : Doc) (hc : (keys c).Nodup)
    (hL1 : ∀ q ∈ L1, q.bioguide_id ≠ p.bioguide_id)
    (hL2 : ∀ q ∈ L2, q.bioguide_id ≠ p.bioguide_id) :
    docChain now (L1 ++ p :: L2) (docChain now L2 (applySet c (normDump p)))
      = docChain now L2 (applySet c (normDump p)) := by
  have hbioe : getKey (applySet c (normDump p)) "bioguide_id"
      = some (.vStr p.bioguide_id) :=
    getKey_applySet_mem_nodup (normDump p) c "bioguide_id"
      (.vStr p.bioguide_id) (normDump_keys_nodup p) (by simp [normDump])
  have hioe : hasKey (applySet c (normDump p)) "in_office" = true :=
    hasKey_applySet_mem (normDump p) c "in_office" (.vBool p.in_office)
      (by simp [normDump])
  have hlue : hasKey (applySet c (normDump p)) "last_updated" = true :=
    hasKey_applySet_mem (normDump p) c "last_updated" (.vTime p.last_updated)
      (by simp [normDump])
  have hfor2 : ∀ q ∈ L2, getKey (applySet c (normDump p)) "bioguide_id"
      ≠ some (.vStr q.bioguide_id) := by
    intro q hq hcontra
    rw [hbioe] at hcontra
    simp only [Option.some.injEq, PValue.vStr.injEq] at hcontra
    exact hL2 q hq hcontra.symm
  obtain ⟨hkr, hgr⟩ := docChain_foreign_agree now L2 (applySet c (normDump p))
    hfor2 hioe hlue
  have hbior : getKey (docChain now L2 (applySet c (normDump p))) "bioguide_id"
      = some (.vStr p.bioguide_id) := by
    rw [docChain_bio, hbioe]
  have hfor1 : ∀ q ∈ L1, getKey (docChain now L2 (applySet c (normDump p)))
      "bioguide_id" ≠ some (.vStr q.bioguide_id) := by
    intro q hq hcontra
    rw [hbior] at hcontra
    simp only [Option.some.injEq, PValue.vStr.injEq] at hcontra
    exact hL1 q hq hcontra.symm
  have hior : hasKey (docChain now L2 (applySet c (normDump p)))
      "in_office" = true := by
    rw [hasKey_iff_mem_keys, hkr, ← hasKey_iff_mem_keys]
    exact hioe
  have hlur : hasKey (docChain now L2 (applySet c (normDump p)))
      "last_updated" = true := by
    rw [hasKey_iff_mem_keys, hkr, ← hasKey_iff_mem_keys]
    exact hlue
  obtain ⟨hks', hgs'⟩ := docChain_foreign_agree now L1
    (docChain now L2 (applySet c (normDump p))) hfor1 hior hlur
  have hbios' : getKey (docChain now L1 (docChain now L2
      (applySet c (normDump p)))) "bioguide_id" = some (.vStr p.bioguide_id) := by
    rw [docChain_bio, hbior]
  have hstep : docStep now p (docChain now L1 (docChain now L2
      (applySet c (normDump p))))
      = applySet (docChain now L1 (docChain now L2 (applySet c (normDump p))))
          (normDump p) := by
    have hg : flipGuard now p (docChain now L1 (docChain now L2
        (applySet c (normDump p))))
        = docChain now L1 (docChain now L2 (applySet c (normDump p))) := by
      have hq : houseSeatQuery p (docChain now L1 (docChain now L2
          (applySet c (normDump p)))) = false := by
        unfold houseSeatQuery
        rw [mongoEq_true_of_getKey _ _ _ hbios']
        simp
      unfold flipGuard
      rw [if_neg (by simp [hq])]
    unfold docStep
    rw [hg]
    unfold upStep
    rw [if_pos (by rw [mongoMatch_bio, hbios']; simp)]
  have habsorb : applySet (docChain now L1 (docChain now L2
      (applySet c (normDump p)))) (normDump p) = applySet c (normDump p) := by
    apply applySet_absorb (normDump p) c _ (normDump_keys_nodup p)
      (keys_applySet_nodup (normDump p) c hc)
    · rw [hks', hkr]
    · intro k hk
      have hk1 : k ≠ "in_office" := by
        intro hc1
        rw [hc1] at hk
        exact hk (mem_keys_normDump_in_office p)
      have hk2 : k ≠ "last_updated" := by
        intro hc2
        rw [hc2] at hk
        exact hk (mem_keys_normDump_last_updated p)
      rw [hgs' k hk1 hk2, hgr k hk1 hk2]
  have hchainsplit : docChain now (L1 ++ p :: L2) (docChain now L2
      (applySet c (normDump p)))
      = docChain now L2 (docStep now p (docChain now L1 (docChain now L2
          (applySet c (normDump p))))) := by
    unfold docChain
    rw [List.foldl_append]
    rfl
  rw [hchainsplit, hstep, habsorb]

/-- One load step preserves every bioguide count. -/
lemma bioCount_map_docStep (now : Nat) (p : Politician) (S : List Doc)
    (b : String) : bioCount b (S.map (docStep now p)) = bioCount b S := by
  unfold bioCount
  rw [List.countP_map]
  apply List.countP_congr
  intro d hd
  simp only [Function.comp_apply]
  rw [docStep_bio]

/-- The newborn document carries the incoming id. -/
lemma newbornDoc_bio (p : Politician) :
    getKey (newbornDoc p) "bioguide_id" = some (.vStr p.bioguide_id) :=
  getKey_applySet_mem_nodup (normDump p) _ "bioguide_id"
    (.vStr p.bioguide_id) (normDump_keys_nodup p) (by simp [normDump])

/-- Appending the newborn document adjusts only the incoming id's count. -/
lemma bioCount_append_newborn (p : Politician) (S : List Doc) (b : String) :
    bioCount b (S ++ [newbornDoc p])
      = bioCount b S + (if b = p.bioguide_id then 1 else 0) := by
  unfold bioCount
  rw [List.countP_append]
  have hpred : (getKey (newbornDoc p) "bioguide_id" == some (PValue.vStr b))
      = (if b = p.bioguide_id then true else false) := by
    rw [newbornDoc_bio]
    by_cases hb : b = p.bioguide_id
    · subst hb
      simp
    · rw [if_neg hb]
      simp [Ne.symm hb]
  have h2 : List.countP (fun d => getKey d "bioguide_id"
      == some (PValue.vStr b)) [newbornDoc p]
      = (if b = p.bioguide_id then 1 else 0) := by
    rw [List.countP_cons, List.countP_nil]
    simp only [hpred]
    by_cases hb : b = p.bioguide_id <;> simp [hb]
  rw [h2]

/-- A politician load, described store-wise: every stored document moves
through the per-document step, and a newborn is appended exactly when the
incoming id is absent. -/
lemma politicianLoad_store (now : Nat) (p : Politician) (S : List Doc)
    (hbc : bioCount p.bioguide_id S ≤ 1) :
    politicianLoad now p S =
      some (if bioCount p.bioguide_id S = 0
        then (S.map (docStep now p) ++ [newbornDoc p], true)
        else (S.map (docStep now p), false)) := by
  have hphase : (if (p.chamber == "house") = true then
      mongoUpdateMany (houseSeatQuery p) (flipFields now) S else S)
      = S.map (flipGuard now p) := by
    split
    · rename_i hcb
      show S.map _ = S.map _
      apply List.map_congr_left
      intro d hd
      unfold flipGuard
      rw [hcb]
      simp
    · rename_i hcb
      have hcb' : (p.chamber == "house") = false := by
        revert hcb
        cases p.chamber == "house" <;> simp
      have hid : ∀ d ∈ S, flipGuard now p d = d := by
        intro d hd
        unfold flipGuard
        rw [if_neg (by simp [hcb'])]
      have : S.map (flipGuard now p) = S.map (fun d => d) :=
        List.map_congr_left hid
      rw [this]
      simp
  have hcount : (S.map (flipGuard now p)).countP
      (mongoMatch [("bioguide_id", PValue.vStr p.bioguide_id)])
      = bioCount p.bioguide_id S := by
    rw [List.countP_map]
    unfold bioCount
    apply List.countP_congr
    intro d hd
    simp only [Function.comp_apply]
    rw [mongoMatch_bio, flipGuard_bio]
  have hmain : mongoUpsert [("bioguide_id", PValue.vStr p.bioguide_id)]
      (normDump p) (S.map (flipGuard now p))
      = (if bioCount p.bioguide_id S = 0
        then (S.map (docStep now p) ++ [newbornDoc p], true)
        else (S.map (docStep now p), false)) := by
    by_cases hz : bioCount p.bioguide_id S = 0
    · have hzero : (S.map (flipGuard now p)).countP
          (mongoMatch [("bioguide_id", PValue.vStr p.bioguide_id)]) = 0 := by
        rw [hcount, hz]
      have hany : (S.map (flipGuard now p)).any
          (mongoMatch [("bioguide_id", PValue.vStr p.bioguide_id)]) = false := by
        rw [List.any_eq_false]
        rw [List.countP_eq_zero] at hzero
        exact hzero
      unfold mongoUpsert
      rw [if_neg (by simp [hany]), if_pos hz]
      have hmaps : S.map (flipGuard now p) = S.map (docStep now p) := by
        apply List.map_congr_left
        intro d hd
        rw [List.countP_eq_zero] at hzero
        have hm := hzero (flipGuard now p d) (List.mem_map_of_mem _ hd)
        unfold docStep upStep
        rw [if_neg hm]
      rw [hmaps]
      rfl
    · have hpos : 0 < (S.map (flipGuard now p)).countP
          (mongoMatch [("bioguide_id", PValue.vStr p.bioguide_id)]) := by
        rw [hcount]
        omega
      have hany : (S.map (flipGuard now p)).any
          (mongoMatch [("bioguide_id", PValue.vStr p.bioguide_id)]) = true := by
        rw [List.any_eq_true]
        obtain ⟨a, ha, hpa⟩ := List.countP_pos_iff.mp hpos
        exact ⟨a, ha, hpa⟩
      unfold mongoUpsert
      rw [if_pos hany, if_neg hz]
      rw [updateFirstMatch_eq_map _ _ _ (by rw [hcount]; exact hbc)]
      rw [List.map_map]
      rfl
  simp only [politicianLoad]
  rw [normalize_politician_model_dump]
  simp only [Option.map_some']
  rw [hphase, hmain]

/-- Second-run shape: when every incoming id is already stored once, the
load pass maps every document through its chain and inserts nothing. -/
lemma politicianLoadSeq_run2 (now : Nat) (ps : List Politician) (T : List Doc)
    (huniq : ∀ b, bioCount b T ≤ 1)
    (hall : ∀ p ∈ ps, bioCount p.bioguide_id T = 1) :
    politicianLoadSeq now ps T = some (T.map (docChain now ps), 0) := by
  induction ps generalizing T with
  | nil =>
      have h : T.map (docChain now []) = T := by
        have h0 : T.map (docChain now []) = T.map (fun d => d) := rfl
        rw [h0]
        simp
      show some (T, 0) = some (T.map (docChain now []), 0)
      rw [h]
  | cons p rest ih =>
      have h1 : bioCount p.bioguide_id T = 1 :=
        hall p (List.mem_cons_self p rest)
      have hload := politicianLoad_store now p T (huniq p.bioguide_id)
      rw [if_neg (by rw [h1]; exact one_ne_zero)] at hload
      show (politicianLoad now p T).bind _ = _
      rw [hload]
      simp only [Option.some_bind]
      have huniq' : ∀ b, bioCount b (T.map (docStep now p)) ≤ 1 := by
        intro b
        rw [bioCount_map_docStep]
        exact huniq b
      have hall' : ∀ q ∈ rest, bioCount q.bioguide_id (T.map (docStep now p)) = 1 := by
        intro q hq
        rw [bioCount_map_docStep]
        exact hall q (List.mem_cons_of_mem p hq)
      rw [ih (T.map (docStep now p)) huniq' hall']
      simp only [Option.map_some']
      rw [List.map_map]
      rfl

/-- First-run shape: the pass succeeds and yields a store with unique ids,
repeat-free key lists, one document per incoming id, untouched foreign
counts, and every document reachable as a chain image of an initial
document or of a newborn. -/
lemma politicianLoadSeq_run1 (now : Nat) (ps : List Politician) (S : List Doc)
    (huniq : ∀ b, bioCount b S ≤ 1)
    (hkeys : ∀ d ∈ S, (keys d).Nodup)
    (hdist : (ps.map Politician.bioguide_id).Nodup) :
    ∃ T n, politicianLoadSeq now ps S = some (T, n)
      ∧ (∀ b, bioCount b T ≤ 1)
      ∧ (∀ d ∈ T, (keys d).Nodup)
      ∧ (∀ b, (∀ p ∈ ps, b ≠ p.bioguide_id) → bioCount b T = bioCount b S)
      ∧ (∀ p ∈ ps, bioCount p.bioguide_id T = 1)
      ∧ (∀ d ∈ T, (∃ d0 ∈ S, d = docChain now ps d0)
          ∨ ∃ L1 p' L2, ps = L1 ++ p' :: L2
              ∧ d = docChain now L2 (newbornDoc p')) := by
  induction ps generalizing S with
  | nil =>
      refine ⟨S, 0, rfl, huniq, hkeys, fun b _ => rfl, by simp, ?_⟩
      intro d hd
      exact Or.inl ⟨d, hd, rfl⟩
  | cons p rest ih =>
      have hload := politicianLoad_store now p S (huniq p.bioguide_id)
      have hdist' : (rest.map Politician.bioguide_id).Nodup := by
        simp only [List.map_cons, List.nodup_cons] at hdist
        exact hdist.2
      have hpnotin : p.bioguide_id ∉ rest.map Politician.bioguide_id := by
        simp only [List.map_cons, List.nodup_cons] at hdist
        exact hdist.1
      by_cases hz : bioCount p.bioguide_id S = 0
      · rw [if_pos hz] at hload
        set S' := S.map (docStep now p) ++ [newbornDoc p] with hS'
        have huniq' : ∀ b, bioCount b S' ≤ 1 := by
          intro b
          rw [hS', bioCount_append_newborn, bioCount_map_docStep]
          by_cases hb : b = p.bioguide_id
          · rw [if_pos hb, hb, hz]
          · rw [if_neg hb]
            have := huniq b
            omega
        have hkeys' : ∀ d ∈ S', (keys d).Nodup := by
          intro d hd
          rw [hS'] at hd
          rcases List.mem_append.mp hd with hm | hm
          · obtain ⟨d0, hd0, he⟩ := List.mem_map.mp hm
            rw [← he]
            exact docStep_keys_nodup now p d0 (hkeys d0 hd0)
          · rw [List.mem_singleton] at hm
            rw [hm]
            apply keys_applySet_nodup
            show (["bioguide_id"] : List String).Nodup
            decide
        obtain ⟨T, n, hseq, huniqT, hkeysT, hpresT, hallT, hcharT⟩ :=
          ih S' huniq' hkeys' hdist'
        refine ⟨T, 1 + n, ?_, huniqT, hkeysT, ?_, ?_, ?_⟩
        · show (politicianLoad now p S).bind _ = _
          rw [hload]
          simp only [Option.some_bind]
          rw [hseq]
          simp only [Option.map_some']
          simp
        · intro b hb
          rw [hpresT b (fun q hq => hb q (List.mem_cons_of_mem p hq)), hS',
            bioCount_append_newborn, bioCount_map_docStep,
            if_neg (hb p (List.mem_cons_self p rest))]
          omega
        · intro q hq
          rcases List.mem_cons.mp hq with heq | hm
          · rw [heq]
            rw [hpresT p.bioguide_id ?hfr, hS', bioCount_append_newborn,
              bioCount_map_docStep, hz, if_pos rfl]
            case hfr =>
              intro q' hq' heq'
              exact hpnotin (heq' ▸ List.mem_map_of_mem Politician.bioguide_id hq')
          · exact hallT q hm
        · intro d hd
          rcases hcharT d hd with ⟨d0', hd0', he⟩ | ⟨L1, p', L2, hsplit, he⟩
          · rw [hS'] at hd0'
            rcases List.mem_append.mp hd0' with hm | hm
            · obtain ⟨d0, hd0, he0⟩ := List.mem_map.mp hm
              refine Or.inl ⟨d0, hd0, ?_⟩
              rw [he, ← he0, ← docChain_cons]
            · rw [List.mem_singleton] at hm
              refine Or.inr ⟨[], p, rest, rfl, ?_⟩
              rw [he, hm]
          · refine Or.inr ⟨p :: L1, p', L2, ?_, he⟩
            rw [hsplit]
            rfl
      · rw [if_neg hz] at hload
        set S' := S.map (docStep now p) with hS'
        have huniq' : ∀ b, bioCount b S' ≤ 1 := by
          intro b
          rw [hS', bioCount_map_docStep]
          exact huniq b
        have hkeys' : ∀ d ∈ S', (keys d).Nodup := by
          intro d hd
          rw [hS'] at hd
          obtain ⟨d0, hd0, he⟩ := List.mem_map.mp hd
          rw [← he]
          exact docStep_keys_nodup now p d0 (hkeys d0 hd0)
        obtain ⟨T, n, hseq, huniqT, hkeysT, hpresT, hallT, hcharT⟩ :=
          ih S' huniq' hkeys' hdist'
        refine ⟨T, n, ?_, huniqT, hkeysT, ?_, ?_, ?_⟩
        · show (politicianLoad now p S).bind _ = _
          rw [hload]
          simp only [Option.some_bind]
          rw [hseq]
          simp only [Option.map_some']
          rw [if_neg (by simp)]
          simp
        · intro b hb
          rw [hpresT b (fun q hq => hb q (List.mem_cons_of_mem p hq)), hS',
            bioCount_map_docStep]
        · intro q hq
          rcases List.mem_cons.mp hq with heq | hm
          · rw [heq]
            rw [hpresT p.bioguide_id ?hfr2, hS', bioCount_map_docStep]
            · have := huniq p.bioguide_id
              omega
            case hfr2 =>
              intro q' hq' heq'
              exact hpnotin (heq' ▸ List.mem_map_of_mem Politician.bioguide_id hq')
          · exact hallT q hm
        · intro d hd
          rcases hcharT d hd with ⟨d0', hd0', he⟩ | ⟨L1, p', L2, hsplit, he⟩
          · rw [hS'] at hd0'
            obtain ⟨d0, hd0, he0⟩ := List.mem_map.mp hd0'
            refine Or.inl ⟨d0, hd0, ?_⟩
            rw [he, ← he0, ← docChain_cons]
          · refine Or.inr ⟨p :: L1, p', L2, ?_, he⟩
            rw [hsplit]
            rfl

/-- Splitting a repeat-free id list around one member. -/
lemma bios_split_ne (L1 L2 : List Politician) (p : Politician)
    (hdist : ((L1 ++ p :: L2).map Politician.bioguide_id).Nodup) :
    (∀ q ∈ L1, q.bioguide_id ≠ p.bioguide_id)
    ∧ (∀ q ∈ L2, q.bioguide_id ≠ p.bioguide_id) := by
  rw [List.map_append, List.map_cons] at hdist
  rw [List.nodup_append] at hdist
  obtain ⟨h1, h2, h3⟩ := hdist
  rw [List.nodup_cons] at h2
  constructor
  · intro q hq heq
    exact h3 (List.mem_map_of_mem Politician.bioguide_id hq)
      (by rw [heq]; exact List.mem_cons_self _ _)
  · intro q hq heq
    exact h2.1 (by rw [← heq]; exact List.mem_map_of_mem Politician.bioguide_id hq)

/-- Re-running the politician load pass with the same timestamp over its
own output returns the output unchanged with zero inserts. -/
lemma politicianLoadSeq_idem (now : Nat) (ps : List Politician) (S : List Doc)
    (T : List Doc) (n : Nat)
    (hdist : (ps.map Politician.bioguide_id).Nodup)
    (huniq : ∀ b, bioCount b S ≤ 1)
    (hkeys : ∀ d ∈ S, (keys d).Nodup)
    (hrun : politicianLoadSeq now ps S = some (T, n)) :
    politicianLoadSeq now ps T = some (T, 0) := by
  obtain ⟨T', n', hseq, huniqT, hkeysT, hpresT, hallT, hcharT⟩ :=
    politicianLoadSeq_run1 now ps S huniq hkeys hdist
  rw [hrun] at hseq
  simp only [Option.some.injEq, Prod.mk.injEq] at hseq
  obtain ⟨hT, hn⟩ := hseq
  subst hT
  have hrun2 := politicianLoadSeq_run2 now ps T huniqT hallT
  have hfix : ∀ d ∈ T, docChain now ps d = d := by
    intro d hd
    rcases hcharT d hd with ⟨d0, hd0, rfl⟩ | ⟨L1, p', L2, hsplit, rfl⟩
    · by_cases hb : ∃ p' ∈ ps, getKey d0 "bioguide_id" = some (.vStr p'.bioguide_id)
      · obtain ⟨p', hp', hbio⟩ := hb
        obtain ⟨L1, L2, hsplit⟩ := List.append_of_mem hp'
        subst hsplit
        obtain ⟨hL1, hL2⟩ := bios_split_ne L1 L2 p' hdist
        have hb1 : getKey (docChain now L1 d0) "bioguide_id"
            = some (.vStr p'.bioguide_id) := by
          rw [docChain_bio, hbio]
        have hinner : docStep now p' (docChain now L1 d0)
            = applySet (flipGuard now p' (docChain now L1 d0)) (normDump p') := by
          unfold docStep upStep
          rw [if_pos (by rw [mongoMatch_bio, flipGuard_bio, hb1]; simp)]
        have hchain : docChain now (L1 ++ p' :: L2) d0
            = docChain now L2 (docStep now p' (docChain now L1 d0)) := by
          unfold docChain
          rw [List.foldl_append]
          rfl
        rw [hchain, hinner]
        exact docChain_class1_fix now L1 L2 p'
          (flipGuard now p' (docChain now L1 d0))
          (flipGuard_keys_nodup now p' _
            (docChain_keys_nodup now L1 d0 (hkeys d0 hd0)))
          hL1 hL2
      · push_neg at hb
        exact docChain_foreign_fix now ps d0 hb
    · subst hsplit
      obtain ⟨hL1, hL2⟩ := bios_split_ne L1 L2 p' hdist
      exact docChain_class1_fix now L1 L2 p'
        [("bioguide_id", PValue.vStr p'.bioguide_id)]
        (by show (["bioguide_id"] : List String).Nodup; decide)
        hL1 hL2
  have hmap : T.map (docChain now ps) = T := by
    have h1 : T.map (docChain now ps) = T.map (fun d => d) :=
      List.map_congr_left hfix
    rw [h1]
    simp
  rw [hmap] at hrun2
  exact hrun2

/-- The `Vote` pydantic model (src/models/legislation.py); dates are day
numbers and datetimes are seconds. -/
structure Vote where
  vote_id : String
  bill_id : Option String
  chamber : String
  congress : Int
  session : Int
  roll_number : Int
  question : String
  result : String
  vote_date : Nat
  yea_count : Int
  nay_count : Int
  present_count : Int
  not_voting_count : Int
  congress_gov_url : Option String
  last_updated : Nat
deriving DecidableEq

/-- `vote.model_dump()` with the `vote_date` date converted to a midnight
datetime, exactly as `VotesIngester.load` prepares it for storage. -/
def voteData (v : Vote) : Doc :=
  [("vote_id", .vStr v.vote_id), ("bill_id", optSV v.bill_id),
   ("chamber", .vStr v.chamber), ("congress", .vInt v.congress),
   ("session", .vInt v.session), ("roll_number", .vInt v.roll_number),
   ("question", .vStr v.question), ("result", .vStr v.result),
   ("vote_date", .vTime (86400 * v.vote_date)),
   ("yea_count", .vInt v.yea_count), ("nay_count", .vInt v.nay_count),
   ("present_count", .vInt v.present_count),
   ("not_voting_count", .vInt v.not_voting_count),
   ("congress_gov_url", optSV v.congress_gov_url),
   ("last_updated", .vTime v.last_updated)]

/-- `VotesIngester.load`: upsert the vote event keyed by `vote_id`. -/
def voteLoad (v : Vote) (S : List Doc) : List Doc × Bool :=
  mongoUpsert [("vote_id", .vStr v.vote_id)] (voteData v) S

/-- The per-document effect of one vote load. -/
def voteStep (v : Vote) (d : Doc) : Doc :=
  if mongoMatch [("vote_id", PValue.vStr v.vote_id)] d then
    applySet d (voteData v)
  else d

/-- Per-document effect of a sequence of vote loads. -/
def voteChain (vs : List Vote) (d : Doc) : Doc :=
  vs.foldl (fun e v => voteStep v e) d

/-- The fresh document created when a vote upsert finds no match. -/
def voteNewborn (v : Vote) : Doc :=
  applySet [("vote_id", PValue.vStr v.vote_id)] (voteData v)

/-- Run the vote load pass over a record sequence, counting inserts. -/
def voteLoadSeq (vs : List Vote) (S : List Doc) : List Doc × Nat :=
  match vs with
  | [] => (S, 0)
  | v :: rest =>
      ((voteLoadSeq rest (voteLoad v S).1).1,
       (if (voteLoad v S).2 then 1 else 0)
         + (voteLoadSeq rest (voteLoad v S).1).2)

lemma voteChain_cons (v : Vote) (rest : List Vote) (d : Doc) :
    voteChain (v :: rest) d = voteChain rest (voteStep v d) := rfl

/-- Number of stored documents carrying a given vote id. -/
def voteIdCount (i : String) (S : List Doc) : Nat :=
  S.countP (fun d => getKey d "vote_id" == some (PValue.vStr i))

/-- The vote upsert key match reads the stored vote id. -/
lemma mongoMatch_voteId (i : String) (d : Doc) :
    mongoMatch [("vote_id", PValue.vStr i)] d
      = (getKey d "vote_id" == some (PValue.vStr i)) := by
  rw [mongoMatch_single, mongoEq_vStr_beq]

/-- The key list of the prepared vote record has no repeats. -/
lemma voteData_keys_nodup (v : Vote) : (keys (voteData v)).Nodup := by
  show (["vote_id", "bill_id", "chamber", "congress", "session",
    "roll_number", "question", "result", "vote_date", "yea_count",
    "nay_count", "present_count", "not_voting_count", "congress_gov_url",
    "last_updated"] : List String).Nodup
  decide

/-- One vote load step never changes any stored vote id. -/
lemma voteStep_vid (v : Vote) (d : Doc) :
    getKey (voteStep v d) "vote_id" = getKey d "vote_id" := by
  unfold voteStep
  split
  · rename_i hm
    rw [mongoMatch_voteId] at hm
    have hget : getKey d "vote_id" = some (.vStr v.vote_id) := by
      simpa using hm
    rw [getKey_applySet_mem_nodup (voteData v) d "vote_id" (.vStr v.vote_id)
      (voteData_keys_nodup v) (by simp [voteData]), hget]
  · rfl

/-- A vote load sequence never changes any stored vote id. -/
lemma voteChain_vid (vs : List Vote) (d : Doc) :
    getKey (voteChain vs d) "vote_id" = getKey d "vote_id" := by
  induction vs generalizing d with
  | nil => rfl
  | cons v rest ih =>
      rw [voteChain_cons, ih (voteStep v d), voteStep_vid]

/-- One vote load step preserves key-list repeat-freeness. -/
lemma voteStep_keys_nodup (v : Vote) (d : Doc) (h : (keys d).Nodup) :
    (keys (voteStep v d)).Nodup := by
  unfold voteStep
  split
  · exact keys_applySet_nodup _ _ h
  · exact h

/-- A document with a different vote id is untouched by a vote load step. -/
lemma voteStep_foreign (v : Vote) (d : Doc)
    (hf : getKey d "vote_id" ≠ some (.vStr v.vote_id)) :
    voteStep v d = d := by
  unfold voteStep
  rw [if_neg (by rw [mongoMatch_voteId]; simp [beq_eq_false_iff_ne.mpr hf])]

/-- A document foreign to every vote in a sequence is untouched by the
whole sequence. -/
lemma voteChain_inert (vs : List Vote) (d : Doc)
    (hf : ∀ v ∈ vs, getKey d "vote_id" ≠ some (.vStr v.vote_id)) :
    voteChain vs d = d := by
  induction vs with
  | nil => rfl
  | cons v rest ih =>
      rw [voteChain_cons, voteStep_foreign v d (hf v (List.mem_cons_self v rest))]
      exact ih (fun w hw => hf w (List.mem_cons_of_mem v hw))

/-- A document last written by a vote's upsert is restored to the same
value when the whole vote sequence runs again over it. -/
lemma voteChain_class1_fix (L1 L2 : List Vote) (v : Vote) (c : Doc)
    (hc : (keys c).Nodup)
    (hL1 : ∀ w ∈ L1, w.vote_id ≠ v.vote_id)
    (hL2 : ∀ w ∈ L2, w.vote_id ≠ v.vote_id) :
    voteChain (L1 ++ v :: L2) (voteChain L2 (applySet c (voteData v)))
      = voteChain L2 (applySet c (voteData v)) := by
  have hvide : getKey (applySet c (voteData v)) "vote_id"
      = some (.vStr v.vote_id) :=
    getKey_applySet_mem_nodup (voteData v) c "vote_id" (.vStr v.vote_id)
      (voteData_keys_nodup v) (by simp [voteData])
  have hfor2 : ∀ w ∈ L2, getKey (applySet c (voteData v)) "vote_id"
      ≠ some (.vStr w.vote_id) := by
    intro w hw hcontra
    rw [hvide] at hcontra
    simp only [Option.some.injEq, PValue.vStr.injEq] at hcontra
    exact hL2 w hw hcontra.symm
  have hr : voteChain L2 (applySet c (voteData v)) = applySet c (voteData v) :=
    voteChain_inert L2 _ hfor2
  rw [hr]
  have hsplit : voteChain (L1 ++ v :: L2) (applySet c (voteData v))
      = voteChain L2 (voteStep v (voteChain L1 (applySet c (voteData v)))) := by
    unfold voteChain
    rw [List.foldl_append]
    rfl
  have hfor1 : ∀ w ∈ L1, getKey (applySet c (voteData v)) "vote_id"
      ≠ some (.vStr w.vote_id) := by
    intro w hw hcontra
    rw [hvide] at hcontra
    simp only [Option.some.injEq, PValue.vStr.injEq] at hcontra
    exact hL1 w hw hcontra.symm
  have h1 : voteChain L1 (applySet c (voteData v)) = applySet c (voteData v) :=
    voteChain_inert L1 _ hfor1
  have hstep : voteStep v (applySet c (voteData v)) = applySet c (voteData v) := by
    unfold voteStep
    rw [if_pos (by rw [mongoMatch_voteId, hvide]; simp)]
    exact applySet_absorb (voteData v) c _ (voteData_keys_nodup v)
      (keys_applySet_nodup (voteData v) c hc) rfl (fun k _ => rfl)
  rw [hsplit, h1, hstep]
  exact hr

/-- One vote load step preserves every vote-id count. -/
lemma voteIdCount_map_voteStep (v : Vote) (S : List Doc) (i : String) :
    voteIdCount i (S.map (voteStep v)) = voteIdCount i S := by
  unfold voteIdCount
  rw [List.countP_map]
  apply List.countP_congr
  intro d hd
  simp only [Function.comp_apply]
  rw [voteStep_vid]

/-- The newborn vote document carries the incoming vote id. -/
lemma voteNewborn_vid (v : Vote) :
    getKey (voteNewborn v) "vote_id" = some (.vStr v.vote_id) :=
  getKey_applySet_mem_nodup (voteData v) _ "vote_id" (.vStr v.vote_id)
    (voteData_keys_nodup v) (by simp [voteData])

/-- Appending the newborn vote document adjusts only the incoming id's
count. -/
lemma voteIdCount_append_newborn (v : Vote) (S : List Doc) (i : String) :
    voteIdCount i (S ++ [voteNewborn v])
      = voteIdCount i S + (if i = v.vote_id then 1 else 0) := by
  unfold voteIdCount
  rw [List.countP_append]
  have hpred : (getKey (voteNewborn v) "vote_id" == some (PValue.vStr i))
      = (if i = v.vote_id then true else false) := by
    rw [voteNewborn_vid]
    by_cases hb : i = v.vote_id
    · subst hb
      simp
    · rw [if_neg hb]
      simp [Ne.symm hb]
  have h2 : List.countP (fun d => getKey d "vote_id"
      == some (PValue.vStr i)) [voteNewborn v]
      = (if i = v.vote_id then 1 else 0) := by
    rw [List.countP_cons, List.countP_nil]
    simp only [hpred]
    by_cases hb : i = v.vote_id <;> simp [hb]
  rw [h2]

/-- A vote load, described store-wise. -/
lemma voteLoad_store (v : Vote) (S : List Doc)
    (hbc : voteIdCount v.vote_id S ≤ 1) :
    voteLoad v S =
      (if voteIdCount v.vote_id S = 0
        then (S.map (voteStep v) ++ [voteNewborn v], true)
        else (S.map (voteStep v), false)) := by
  have hcount : S.countP (mongoMatch [("vote_id", PValue.vStr v.vote_id)])
      = voteIdCount v.vote_id S := by
    unfold voteIdCount
    apply List.countP_congr
    intro d hd
    rw [mongoMatch_voteId]
  by_cases hz : voteIdCount v.vote_id S = 0
  · have hzero : S.countP (mongoMatch [("vote_id", PValue.vStr v.vote_id)]) = 0 := by
      rw [hcount, hz]
    have hany : S.any (mongoMatch [("vote_id", PValue.vStr v.vote_id)]) = false := by
      rw [List.any_eq_false]
      rw [List.countP_eq_zero] at hzero
      exact hzero
    unfold voteLoad mongoUpsert
    rw [if_neg (by simp [hany]), if_pos hz]
    have hmaps : S.map (voteStep v) = S := by
      apply map_ite_id
      intro d hd
      rw [List.countP_eq_zero] at hzero
      have := hzero d hd
      revert this
      cases mongoMatch [("vote_id", PValue.vStr v.vote_id)] d <;> simp
    rw [hmaps]
    rfl
  · have hpos : 0 < S.countP (mongoMatch [("vote_id", PValue.vStr v.vote_id)]) := by
      rw [hcount]
      omega
    have hany : S.any (mongoMatch [("vote_id", PValue.vStr v.vote_id)]) = true := by
      rw [List.any_eq_true]
      obtain ⟨a, ha, hpa⟩ := List.countP_pos_iff.mp hpos
      exact ⟨a, ha, hpa⟩
    unfold voteLoad mongoUpsert
    rw [if_pos hany, if_neg hz]
    rw [updateFirstMatch_eq_map _ _ _ (by rw [hcount]; exact hbc)]
    rfl

/-- Second-run shape for votes: with every id stored once, the pass maps
every document through its chain and inserts nothing. -/
lemma voteLoadSeq_run2 (vs : List Vote) (T : List Doc)
    (huniq : ∀ i, voteIdCount i T ≤ 1)
    (hall : ∀ v ∈ vs, voteIdCount v.vote_id T = 1) :
    voteLoadSeq vs T = (T.map (voteChain vs), 0) := by
  induction vs generalizing T with
  | nil =>
      have h : T.map (voteChain []) = T := by
        have h0 : T.map (voteChain []) = T.map (fun d => d) := rfl
        rw [h0]
        simp
      show (T, 0) = (T.map (voteChain []), 0)
      rw [h]
  | cons v rest ih =>
      have h1 : voteIdCount v.vote_id T = 1 := hall v (List.mem_cons_self v rest)
      have hload := voteLoad_store v T (huniq v.vote_id)
      rw [if_neg (by rw [h1]; exact one_ne_zero)] at hload
      show ((voteLoadSeq rest (voteLoad v T).1).1,
        (if (voteLoad v T).2 then 1 else 0)
          + (voteLoadSeq rest (voteLoad v T).1).2) = _
      rw [hload]
      have huniq' : ∀ i, voteIdCount i (T.map (voteStep v)) ≤ 1 := by
        intro i
        rw [voteIdCount_map_voteStep]
        exact huniq i
      have hall' : ∀ w ∈ rest, voteIdCount w.vote_id (T.map (voteStep v)) = 1 := by
        intro w hw
        rw [voteIdCount_map_voteStep]
        exact hall w (List.mem_cons_of_mem v hw)
      dsimp only
      rw [ih (T.map (voteStep v)) huniq' hall']
      dsimp only
      rw [if_neg (by simp)]
      rw [List.map_map]
      rfl

/-- First-run shape for votes. -/
lemma voteLoadSeq_run1 (vs : List Vote) (S : List Doc)
    (huniq : ∀ i, voteIdCount i S ≤ 1)
    (hkeys : ∀ d ∈ S, (keys d).Nodup)
    (hdist : (vs.map Vote.vote_id).Nodup) :
    (∀ i, voteIdCount i (voteLoadSeq vs S).1 ≤ 1)
    ∧ (∀ d ∈ (voteLoadSeq vs S).1, (keys d).Nodup)
    ∧ (∀ i, (∀ v ∈ vs, i ≠ v.vote_id) →
        voteIdCount i (voteLoadSeq vs S).1 = voteIdCount i S)
    ∧ (∀ v ∈ vs, voteIdCount v.vote_id (voteLoadSeq vs S).1 = 1)
    ∧ (∀ d ∈ (voteLoadSeq vs S).1, (∃ d0 ∈ S, d = voteChain vs d0)
        ∨ ∃ L1 v' L2, vs = L1 ++ v' :: L2 ∧ d = voteChain L2 (voteNewborn v')) := by
  induction vs generalizing S with
  | nil =>
      refine ⟨huniq, hkeys, fun i _ => rfl, by simp, ?_⟩
      intro d hd
      exact Or.inl ⟨d, hd, rfl⟩
  | cons v rest ih =>
      have hload := voteLoad_store v S (huniq v.vote_id)
      have hdist' : (rest.map Vote.vote_id).Nodup := by
        simp only [List.map_cons, List.nodup_cons] at hdist
        exact hdist.2
      have hvnotin : v.vote_id ∉ rest.map Vote.vote_id := by
        simp only [List.map_cons, List.nodup_cons] at hdist
        exact hdist.1
      have hseq1 : (voteLoadSeq (v :: rest) S).1
          = (voteLoadSeq rest (voteLoad v S).1).1 := rfl
      by_cases hz : voteIdCount v.vote_id S = 0
      · rw [if_pos hz] at hload
        set S' := S.map (voteStep v) ++ [voteNewborn v] with hS'
        have hfst : (voteLoad v S).1 = S' := by rw [hload]
        have huniq' : ∀ i, voteIdCount i S' ≤ 1 := by
          intro i
          rw [hS', voteIdCount_append_newborn, voteIdCount_map_voteStep]
          by_cases hb : i = v.vote_id
          · rw [if_pos hb, hb, hz]
          · rw [if_neg hb]
            have := huniq i
            omega
        have hkeys' : ∀ d ∈ S', (keys d).Nodup := by
          intro d hd
          rw [hS'] at hd
          rcases List.mem_append.mp hd with hm | hm
          · obtain ⟨d0, hd0, he⟩ := List.mem_map.mp hm
            rw [← he]
            exact voteStep_keys_nodup v d0 (hkeys d0 hd0)
          · rw [List.mem_singleton] at hm
            rw [hm]
            apply keys_applySet_nodup
            show (["vote_id"] : List String).Nodup
            decide
        obtain ⟨huniqT, hkeysT, hpresT, hallT, hcharT⟩ := ih S' huniq' hkeys' hdist'
        rw [hseq1, hfst]
        refine ⟨huniqT, hkeysT, ?_, ?_, ?_⟩
        · intro i hi
          rw [hpresT i (fun w hw => hi w (List.mem_cons_of_mem v hw)), hS',
            voteIdCount_append_newborn, voteIdCount_map_voteStep,
            if_neg (hi v (List.mem_cons_self v rest))]
          omega
        · intro w hw
          rcases List.mem_cons.mp hw with heq | hm
          · rw [heq]
            rw [hpresT v.vote_id ?hfr, hS', voteIdCount_append_newborn,
              voteIdCount_map_voteStep, hz, if_pos rfl]
            case hfr =>
              intro w' hw' heq'
              exact hvnotin (heq' ▸ List.mem_map_of_mem Vote.vote_id hw')
          · exact hallT w hm
        · intro d hd
          rcases hcharT d hd with ⟨d0', hd0', he⟩ | ⟨L1, v', L2, hsplit, he⟩
          · rw [hS'] at hd0'
            rcases List.mem_append.mp hd0' with hm | hm
            · obtain ⟨d0, hd0, he0⟩ := List.mem_map.mp hm
              refine Or.inl ⟨d0, hd0, ?_⟩
              rw [he, ← he0, ← voteChain_cons]
            · rw [List.mem_singleton] at hm
              refine Or.inr ⟨[], v, rest, rfl, ?_⟩
              rw [he, hm]
          · refine Or.inr ⟨v :: L1, v', L2, ?_, he⟩
            rw [hsplit]
            rfl
      · rw [if_neg hz] at hload
        set S' := S.map (voteStep v) with hS'
        have hfst : (voteLoad v S).1 = S' := by rw [hload]
        have huniq' : ∀ i, voteIdCount i S' ≤ 1 := by
          intro i
          rw [hS', voteIdCount_map_voteStep]
          exact huniq i
        have hkeys' : ∀ d ∈ S', (keys d).Nodup := by
          intro d hd
          rw [hS'] at hd
          obtain ⟨d0, hd0, he⟩ := List.mem_map.mp hd
          rw [← he]
          exact voteStep_keys_nodup v d0 (hkeys d0 hd0)
        obtain ⟨huniqT, hkeysT, hpresT, hallT, hcharT⟩ := ih S' huniq' hkeys' hdist'
        rw [hseq1, hfst]
        refine ⟨huniqT, hkeysT, ?_, ?_, ?_⟩
        · intro i hi
          rw [hpresT i (fun w hw => hi w (List.mem_cons_of_mem v hw)), hS',
            voteIdCount_map_voteStep]
        · intro w hw
          rcases List.mem_cons.mp hw with heq | hm
          · rw [heq]
            rw [hpresT v.vote_id ?hfr2, hS', voteIdCount_map_voteStep]
            · have := huniq v.vote_id
              omega
            case hfr2 =>
              intro w' hw' heq'
              exact hvnotin (heq' ▸ List.mem_map_of_mem Vote.vote_id hw')
          · exact hallT w hm
        · intro d hd
          rcases hcharT d hd with ⟨d0', hd0', he⟩ | ⟨L1, v', L2, hsplit, he⟩
          · rw [hS'] at hd0'
            obtain ⟨d0, hd0, he0⟩ := List.mem_map.mp hd0'
            refine Or.inl ⟨d0, hd0, ?_⟩
            rw [he, ← he0, ← voteChain_cons]
          · refine Or.inr ⟨v :: L1, v', L2, ?_, he⟩
            rw [hsplit]
            rfl

/-- Splitting a repeat-free vote-id list around one member. -/
lemma vids_split_ne (L1 L2 : List Vote) (v : Vote)
    (hdist : ((L1 ++ v :: L2).map Vote.vote_id).Nodup) :
    (∀ w ∈ L1, w.vote_id ≠ v.vote_id)
    ∧ (∀ w ∈ L2, w.vote_id ≠ v.vote_id) := by
  rw [List.map_append, List.map_cons] at hdist
  rw [List.nodup_append] at hdist
  obtain ⟨h1, h2, h3⟩ := hdist
  rw [List.nodup_cons] at h2
  constructor
  · intro w hw heq
    exact h3 (List.mem_map_of_mem Vote.vote_id hw)
      (by rw [heq]; exact List.mem_cons_self _ _)
  · intro w hw heq
    exact h2.1 (by rw [← heq]; exact List.mem_map_of_mem Vote.vote_id hw)

/-- A vote load sequence preserves key-list repeat-freeness. -/
lemma voteChain_keys_nodup (vs : List Vote) (d : Doc) (h : (keys d).Nodup) :
    (keys (voteChain vs d)).Nodup := by
  induction vs generalizing d with
  | nil => exact h
  | cons v rest ih =>
      rw [voteChain_cons]
      exact ih (voteStep v d) (voteStep_keys_nodup v d h)

/-- Re-running the vote load pass over its own output returns the output
unchanged with zero inserts. -/
lemma voteLoadSeq_idem (vs : List Vote) (S T : List Doc) (n : Nat)
    (hdist : (vs.map Vote.vote_id).Nodup)
    (huniq : ∀ i, voteIdCount i S ≤ 1)
    (hkeys : ∀ d ∈ S, (keys d).Nodup)
    (hrun : voteLoadSeq vs S = (T, n)) :
    voteLoadSeq vs T = (T, 0) := by
  obtain ⟨huniqT, hkeysT, hpresT, hallT, hcharT⟩ :=
    voteLoadSeq_run1 vs S huniq hkeys hdist
  have hT : (voteLoadSeq vs S).1 = T := by rw [hrun]
  rw [hT] at huniqT hkeysT hpresT hallT hcharT
  have hrun2 := voteLoadSeq_run2 vs T huniqT hallT
  have hfix : ∀ d ∈ T, voteChain vs d = d := by
    intro d hd
    rcases hcharT d hd with ⟨d0, hd0, rfl⟩ | ⟨L1, v', L2, hsplit, rfl⟩
    · by_cases hb : ∃ v' ∈ vs, getKey d0 "vote_id" = some (.vStr v'.vote_id)
      · obtain ⟨v', hv', hvid⟩ := hb
        obtain ⟨L1, L2, hsplit⟩ := List.append_of_mem hv'
        subst hsplit
        obtain ⟨hL1, hL2⟩ := vids_split_ne L1 L2 v' hdist
        have hv1 : getKey (voteChain L1 d0) "vote_id"
            = some (.vStr v'.vote_id) := by
          rw [voteChain_vid, hvid]
        have hinner : voteStep v' (voteChain L1 d0)
            = applySet (voteChain L1 d0) (voteData v') := by
          unfold voteStep
          rw [if_pos (by rw [mongoMatch_voteId, hv1]; simp)]
        have hchain : voteChain (L1 ++ v' :: L2) d0
            = voteChain L2 (voteStep v' (voteChain L1 d0)) := by
          unfold voteChain
          rw [List.foldl_append]
          rfl
        rw [hchain, hinner]
        exact voteChain_class1_fix L1 L2 v' (voteChain L1 d0)
          (voteChain_keys_nodup L1 d0 (hkeys d0 hd0)) hL1 hL2
      · push_neg at hb
        have h0 : voteChain vs d0 = d0 := voteChain_inert vs d0 hb
        rw [h0]
        exact h0
    · subst hsplit
      obtain ⟨hL1, hL2⟩ := vids_split_ne L1 L2 v' hdist
      exact voteChain_class1_fix L1 L2 v'
        [("vote_id", PValue.vStr v'.vote_id)]
        (by show (["vote_id"] : List String).Nodup; decide)
        hL1 hL2
  have hmap : T.map (voteChain vs) = T := by
    have h1 : T.map (voteChain vs) = T.map (fun d => d) :=
      List.map_congr_left hfix
    rw [h1]
    simp
  rw [hmap] at hrun2
  exact hrun2

/-- Normalizing a string status value runs the bill-status normalizer. -/
lemma normalize_bill_status_value_vStr (s : String) :
    normalize_bill_status_value (.vStr s)
      = some (optSV (normalize_bill_status (some s))) := by
  unfold normalize_bill_status_value
  by_cases h : s = ""
  · subst h
    simp [pyFalsy, normalize_bill_status, optSV]
  · rw [if_neg (by simp [pyFalsy, h])]

/-- An optional date stored as a midnight datetime, or null. -/
def optDV : Option Nat → PValue
  | some d => .vTime (86400 * d)
  | none => .vNone

/-- The `Bill` pydantic model (src/models/legislation.py); enum fields
carry their dump values, dates are day numbers, datetimes seconds. -/
structure Bill where
  bill_id : String
  bill_type : String
  number : Int
  congress : Int
  title : String
  short_title : Option String
  summary : Option String
  status : String
  introduced_date : Nat
  latest_action_date : Option Nat
  latest_action_text : Option String
  sponsor_bioguide_id : Option String
  cosponsor_bioguide_ids : List String
  policy_area : Option String
  subjects : List String
  congress_gov_url : Option String
  full_text_url : Option String
  last_updated : Nat
deriving DecidableEq

/-- `bill.model_dump()` with the two date fields converted to midnight
datetimes and the enum fields as strings, exactly as
`CongressBillsIngester.load` prepares it before normalization. -/
def billData (b : Bill) : Doc :=
  [("bill_id", .vStr b.bill_id), ("bill_type", .vStr b.bill_type),
   ("number", .vInt b.number), ("congress", .vInt b.congress),
   ("title", .vStr b.title), ("short_title", optSV b.short_title),
   ("summary", optSV b.summary), ("status", .vStr b.status),
   ("introduced_date", .vTime (86400 * b.introduced_date)),
   ("latest_action_date", optDV b.latest_action_date),
   ("latest_action_text", optSV b.latest_action_text),
   ("sponsor_bioguide_id", optSV b.sponsor_bioguide_id),
   ("cosponsor_bioguide_ids", .vList (b.cosponsor_bioguide_ids.map PValue.vStr)),
   ("policy_area", optSV b.policy_area),
   ("subjects", .vList (b.subjects.map PValue.vStr)),
   ("congress_gov_url", optSV b.congress_gov_url),
   ("full_text_url", optSV b.full_text_url),
   ("last_updated", .vTime b.last_updated)]

/-- The normalized bill record in closed form: only `status` is rewritten,
and `last_updated` is already present so no stamp is added. -/
def normBillData (b : Bill) : Doc :=
  [("bill_id", .vStr b.bill_id), ("bill_type", .vStr b.bill_type),
   ("number", .vInt b.number), ("congress", .vInt b.congress),
   ("title", .vStr b.title), ("short_title", optSV b.short_title),
   ("summary", optSV b.summary),
   ("status", optSV (normalize_bill_status (some b.status))),
   ("introduced_date", .vTime (86400 * b.introduced_date)),
   ("latest_action_date", optDV b.latest_action_date),
   ("latest_action_text", optSV b.latest_action_text),
   ("sponsor_bioguide_id", optSV b.sponsor_bioguide_id),
   ("cosponsor_bioguide_ids", .vList (b.cosponsor_bioguide_ids.map PValue.vStr)),
   ("policy_area", optSV b.policy_area),
   ("subjects", .vList (b.subjects.map PValue.vStr)),
   ("congress_gov_url", optSV b.congress_gov_url),
   ("full_text_url", optSV b.full_text_url),
   ("last_updated", .vTime b.last_updated)]

/-- Normalizing a prepared bill dump always succeeds and yields the closed
form, independently of the stamping time. -/
lemma normalize_billData (now : Nat) (b : Bill) :
    normalize_legislation now (billData b) = some (normBillData b) := by
  simp [normalize_legislation, billData, normBillData, normField,
    normalize_bill_status_value_vStr, setKey, hasKey, getKey, List.find?]

/-- `CongressBillsIngester.load`: normalize the prepared dump and upsert it
keyed by `bill_id`. -/
def billLoad (now : Nat) (b : Bill) (S : List Doc) :
    Option (List Doc × Bool) :=
  (normalize_legislation now (billData b)).map
    (fun nd => mongoUpsert [("bill_id", .vStr b.bill_id)] nd S)

/-- The per-document effect of one bill load. -/
def billStep (b : Bill) (d : Doc) : Doc :=
  if mongoMatch [("bill_id", PValue.vStr b.bill_id)] d then
    applySet d (normBillData b)
  else d

/-- Per-document effect of a sequence of bill loads. -/
def billChain (bs : List Bill) (d : Doc) : Doc :=
  bs.foldl (fun e b => billStep b e) d

/-- The fresh document created when a bill upsert finds no match. -/
def billNewborn (b : Bill) : Doc :=
  applySet [("bill_id", PValue.vStr b.bill_id)] (normBillData b)

/-- Run the bill load pass over a record sequence, counting inserts. -/
def billLoadSeq (now : Nat) (bs : List Bill) (S : List Doc) :
    Option (List Doc × Nat) :=
  match bs with
  | [] => some (S, 0)
  | b :: rest =>
      (billLoad now b S).bind (fun r =>
        (billLoadSeq now rest r.1).map
          (fun r2 => (r2.1, (if r.2 then 1 else 0) + r2.2)))

lemma billChain_cons (b : Bill) (rest : List Bill) (d : Doc) :
    billChain (b :: rest) d = billChain rest (billStep b d) := rfl

/-- Number of stored documents carrying a given bill id. -/
def billIdCount (i : String) (S : List Doc) : Nat :=
  S.countP (fun d => getKey d "bill_id" == some (PValue.vStr i))

/-- The bill upsert key match reads the stored bill id. -/
lemma mongoMatch_billId (i : String) (d : Doc) :
    mongoMatch [("bill_id", PValue.vStr i)] d
      = (getKey d "bill_id" == some (PValue.vStr i)) := by
  rw [mongoMatch_single, mongoEq_vStr_beq]

/-- The key list of the normalized bill record has no repeats. -/
lemma normBillData_keys_nodup (b : Bill) : (keys (normBillData b)).Nodup := by
  show (["bill_id", "bill_type", "number", "congress", "title", "short_title",
    "summary", "status", "introduced_date", "latest_action_date",
    "latest_action_text", "sponsor_bioguide_id", "cosponsor_bioguide_ids",
    "policy_area", "subjects", "congress_gov_url", "full_text_url",
    "last_updated"] : List String).Nodup
  decide

/-- One bill load step never changes any stored bill id. -/
lemma billStep_bid (b : Bill) (d : Doc) :
    getKey (billStep b d) "bill_id" = getKey d "bill_id" := by
  unfold billStep
  split
  · rename_i hm
    rw [mongoMatch_billId] at hm
    have hget : getKey d "bill_id" = some (.vStr b.bill_id) := by
      simpa using hm
    rw [getKey_applySet_mem_nodup (normBillData b) d "bill_id" (.vStr b.bill_id)
      (normBillData_keys_nodup b) (by simp [normBillData]), hget]
  · rfl

/-- A bill load sequence never changes any stored bill id. -/
lemma billChain_bid (bs : List Bill) (d : Doc) :
    getKey (billChain bs d) "bill_id" = getKey d "bill_id" := by
  induction bs generalizing d with
  | nil => rfl
  | cons b rest ih =>
      rw [billChain_cons, ih (billStep b d), billStep_bid]

/-- One bill load step preserves key-list repeat-freeness. -/
lemma billStep_keys_nodup (b : Bill) (d : Doc) (h : (keys d).Nodup) :
    (keys (billStep b d)).Nodup := by
  unfold billStep
  split
  · exact keys_applySet_nodup _ _ h
  · exact h

/-- A bill load sequence preserves key-list repeat-freeness. -/
lemma billChain_keys_nodup (bs : List Bill) (d : Doc) (h : (keys d).Nodup) :
    (keys (billChain bs d)).Nodup := by
  induction bs generalizing d with
  | nil => exact h
  | cons b rest ih =>
      rw [billChain_cons]
      exact ih (billStep b d) (billStep_keys_nodup b d h)

/-- A document with a different bill id is untouched by a bill load step. -/
lemma billStep_foreign (b : Bill) (d : Doc)
    (hf : getKey d "bill_id" ≠ some (.vStr b.bill_id)) :
    billStep b d = d := by
  unfold billStep
  rw [if_neg (by rw [mongoMatch_billId]; simp [beq_eq_false_iff_ne.mpr hf])]

/-- A document foreign to every bill in a sequence is untouched by the
whole sequence. -/
lemma billChain_inert (bs : List Bill) (d : Doc)
    (hf : ∀ b ∈ bs, getKey d "bill_id" ≠ some (.vStr b.bill_id)) :
    billChain bs d = d := by
  induction bs with
  | nil => rfl
  | cons b rest ih =>
      rw [billChain_cons, billStep_foreign b d (hf b (List.mem_cons_self b rest))]
      exact ih (fun w hw => hf w (List.mem_cons_of_mem b hw))

/-- A document last written by a bill's upsert is restored to the same
value when the whole bill sequence runs again over it. -/
lemma billChain_class1_fix (L1 L2 : List Bill) (b : Bill) (c : Doc)
    (hc : (keys c).Nodup)
    (hL1 : ∀ w ∈ L1, w.bill_id ≠ b.bill_id)
    (hL2 : ∀ w ∈ L2, w.bill_id ≠ b.bill_id) :
    billChain (L1 ++ b :: L2) (billChain L2 (applySet c (normBillData b)))
      = billChain L2 (applySet c (normBillData b)) := by
  have hbide : getKey (applySet c (normBillData b)) "bill_id"
      = some (.vStr b.bill_id) :=
    getKey_applySet_mem_nodup (normBillData b) c "bill_id" (.vStr b.bill_id)
      (normBillData_keys_nodup b) (by simp [normBillData])
  have hfor2 : ∀ w ∈ L2, getKey (applySet c (normBillData b)) "bill_id"
      ≠ some (.vStr w.bill_id) := by
    intro w hw hcontra
    rw [hbide] at hcontra
    simp only [Option.some.injEq, PValue.vStr.injEq] at hcontra
    exact hL2 w hw hcontra.symm
  have hr : billChain L2 (applySet c (normBillData b))
      = applySet c (normBillData b) :=
    billChain_inert L2 _ hfor2
  rw [hr]
  have hsplit : billChain (L1 ++ b :: L2) (applySet c (normBillData b))
      = billChain L2 (billStep b (billChain L1 (applySet c (normBillData b)))) := by
    unfold billChain
    rw [List.foldl_append]
    rfl
  have hfor1 : ∀ w ∈ L1, getKey (applySet c (normBillData b)) "bill_id"
      ≠ some (.vStr w.bill_id) := by
    intro w hw hcontra
    rw [hbide] at hcontra
    simp only [Option.some.injEq, PValue.vStr.injEq] at hcontra
    exact hL1 w hw hcontra.symm
  have h1 : billChain L1 (applySet c (normBillData b))
      = applySet c (normBillData b) :=
    billChain_inert L1 _ hfor1
  have hstep : billStep b (applySet c (normBillData b))
      = applySet c (normBillData b) := by
    unfold billStep
    rw [if_pos (by rw [mongoMatch_billId, hbide]; simp)]
    exact applySet_absorb (normBillData b) c _ (normBillData_keys_nodup b)
      (keys_applySet_nodup (normBillData b) c hc) rfl (fun k _ => rfl)
  rw [hsplit, h1, hstep]
  exact hr

/-- One bill load step preserves every bill-id count. -/
lemma billIdCount_map_billStep (b : Bill) (S : List Doc) (i : String) :
    billIdCount i (S.map (billStep b)) = billIdCount i S := by
  unfold billIdCount
  rw [List.countP_map]
  apply List.countP_congr
  intro d hd
  simp only [Function.comp_apply]
  rw [billStep_bid]

/-- The newborn bill document carries the incoming bill id. -/
lemma billNewborn_bid (b : Bill) :
    getKey (billNewborn b) "bill_id" = some (.vStr b.bill_id) :=
  getKey_applySet_mem_nodup (normBillData b) _ "bill_id" (.vStr b.bill_id)
    (normBillData_keys_nodup b) (by simp [normBillData])

/-- Appending the newborn bill document adjusts only the incoming id's
count. -/
lemma billIdCount_append_newborn (b : Bill) (S : List Doc) (i : String) :
    billIdCount i (S ++ [billNewborn b])
      = billIdCount i S + (if i = b.bill_id then 1 else 0) := by
  unfold billIdCount
  rw [List.countP_append]
  have hpred : (getKey (billNewborn b) "bill_id" == some (PValue.vStr i))
      = (if i = b.bill_id then true else false) := by
    rw [billNewborn_bid]
    by_cases hb : i = b.bill_id
    · subst hb
      simp
    · rw [if_neg hb]
      simp [Ne.symm hb]
  have h2 : List.countP (fun d => getKey d "bill_id"
      == some (PValue.vStr i)) [billNewborn b]
      = (if i = b.bill_id then 1 else 0) := by
    rw [List.countP_cons, List.countP_nil]
    simp only [hpred]
    by_cases hb : i = b.bill_id <;> simp [hb]
  rw [h2]

/-- A bill load, described store-wise; the result does not depend on the
stamping time, because the dump always carries `last_updated`. -/
lemma billLoad_store (now : Nat) (b : Bill) (S : List Doc)
    (hbc : billIdCount b.bill_id S ≤ 1) :
    billLoad now b S =
      some (if billIdCount b.bill_id S = 0
        then (S.map (billStep b) ++ [billNewborn b], true)
        else (S.map (billStep b), false)) := by
  have hcount : S.countP (mongoMatch [("bill_id", PValue.vStr b.bill_id)])
      = billIdCount b.bill_id S := by
    unfold billIdCount
    apply List.countP_congr
    intro d hd
    rw [mongoMatch_billId]
  have hmain : mongoUpsert [("bill_id", PValue.vStr b.bill_id)]
      (normBillData b) S
      = (if billIdCount b.bill_id S = 0
        then (S.map (billStep b) ++ [billNewborn b], true)
        else (S.map (billStep b), false)) := by
    by_cases hz : billIdCount b.bill_id S = 0
    · have hzero : S.countP (mongoMatch [("bill_id", PValue.vStr b.bill_id)]) = 0 := by
        rw [hcount, hz]
      have hany : S.any (mongoMatch [("bill_id", PValue.vStr b.bill_id)]) = false := by
        rw [List.any_eq_false]
        rw [List.countP_eq_zero] at hzero
        exact hzero
      unfold mongoUpsert
      rw [if_neg (by simp [hany]), if_pos hz]
      have hmaps : S.map (billStep b) = S := by
        apply map_ite_id
        intro d hd
        rw [List.countP_eq_zero] at hzero
        have := hzero d hd
        revert this
        cases mongoMatch [("bill_id", PValue.vStr b.bill_id)] d <;> simp
      rw [hmaps]
      rfl
    · have hpos : 0 < S.countP (mongoMatch [("bill_id", PValue.vStr b.bill_id)]) := by
        rw [hcount]
        omega
      have hany : S.any (mongoMatch [("bill_id", PValue.vStr b.bill_id)]) = true := by
        rw [List.any_eq_true]
        obtain ⟨a, ha, hpa⟩ := List.countP_pos_iff.mp hpos
        exact ⟨a, ha, hpa⟩
      unfold mongoUpsert
      rw [if_pos hany, if_neg hz]
      rw [updateFirstMatch_eq_map _ _ _ (by rw [hcount]; exact hbc)]
      rfl
  unfold billLoad
  rw [normalize_billData]
  simp only [Option.map_some']
  rw [hmain]

/-- Second-run shape for bills: with every id stored once, the pass maps
every document through its chain and inserts nothing, at any stamping
time. -/
lemma billLoadSeq_run2 (now : Nat) (bs : List Bill) (T : List Doc)
    (huniq : ∀ i, billIdCount i T ≤ 1)
    (hall : ∀ b ∈ bs, billIdCount b.bill_id T = 1) :
    billLoadSeq now bs T = some (T.map (billChain bs), 0) := by
  induction bs generalizing T with
  | nil =>
      have h : T.map (billChain []) = T := by
        have h0 : T.map (billChain []) = T.map (fun d => d) := rfl
        rw [h0]
        simp
      show some (T, 0) = some (T.map (billChain []), 0)
      rw [h]
  | cons b rest ih =>
      have h1 : billIdCount b.bill_id T = 1 := hall b (List.mem_cons_self b rest)
      have hload := billLoad_store now b T (huniq b.bill_id)
      rw [if_neg (by rw [h1]; exact one_ne_zero)] at hload
      show (billLoad now b T).bind _ = _
      rw [hload]
      simp only [Option.some_bind]
      have huniq' : ∀ i, billIdCount i (T.map (billStep b)) ≤ 1 := by
        intro i
        rw [billIdCount_map_billStep]
        exact huniq i
      have hall' : ∀ w ∈ rest, billIdCount w.bill_id (T.map (billStep b)) = 1 := by
        intro w hw
        rw [billIdCount_map_billStep]
        exact hall w (List.mem_cons_of_mem b hw)
      rw [ih (T.map (billStep b)) huniq' hall']
      simp only [Option.map_some']
      rw [List.map_map]
      rfl

/-- First-run shape for bills. -/
lemma billLoadSeq_run1 (now : Nat) (bs : List Bill) (S : List Doc)
    (huniq : ∀ i, billIdCount i S ≤ 1)
    (hkeys : ∀ d ∈ S, (keys d).Nodup)
    (hdist : (bs.map Bill.bill_id).Nodup) :
    ∃ T n, billLoadSeq now bs S = some (T, n)
      ∧ (∀ i, billIdCount i T ≤ 1)
      ∧ (∀ d ∈ T, (keys d).Nodup)
      ∧ (∀ i, (∀ b ∈ bs, i ≠ b.bill_id) → billIdCount i T = billIdCount i S)
      ∧ (∀ b ∈ bs, billIdCount b.bill_id T = 1)
      ∧ (∀ d ∈ T, (∃ d0 ∈ S, d = billChain bs d0)
          ∨ ∃ L1 b' L2, bs = L1 ++ b' :: L2
              ∧ d = billChain L2 (billNewborn b')) := by
  induction bs generalizing S with
  | nil =>
      refine ⟨S, 0, rfl, huniq, hkeys, fun i _ => rfl, by simp, ?_⟩
      intro d hd
      exact Or.inl ⟨d, hd, rfl⟩
  | cons b rest ih =>
      have hload := billLoad_store now b S (huniq b.bill_id)
      have hdist' : (rest.map Bill.bill_id).Nodup := by
        simp only [List.map_cons, List.nodup_cons] at hdist
        exact hdist.2
      have hbnotin : b.bill_id ∉ rest.map Bill.bill_id := by
        simp only [List.map_cons, List.nodup_cons] at hdist
        exact hdist.1
      by_cases hz : billIdCount b.bill_id S = 0
      · rw [if_pos hz] at hload
        set S' := S.map (billStep b) ++ [billNewborn b] with hS'
        have huniq' : ∀ i, billIdCount i S' ≤ 1 := by
          intro i
          rw [hS', billIdCount_append_newborn, billIdCount_map_billStep]
          by_cases hb : i = b.bill_id
          · rw [if_pos hb, hb, hz]
          · rw [if_neg hb]
            have := huniq i
            omega
        have hkeys' : ∀ d ∈ S', (keys d).Nodup := by
          intro d hd
          rw [hS'] at hd
          rcases List.mem_append.mp hd with hm | hm
          · obtain ⟨d0, hd0, he⟩ := List.mem_map.mp hm
            rw [← he]
            exact billStep_keys_nodup b d0 (hkeys d0 hd0)
          · rw [List.mem_singleton] at hm
            rw [hm]
            apply keys_applySet_nodup
            show (["bill_id"] : List String).Nodup
            decide
        obtain ⟨T, n, hseq, huniqT, hkeysT, hpresT, hallT, hcharT⟩ :=
          ih S' huniq' hkeys' hdist'
        refine ⟨T, 1 + n, ?_, huniqT, hkeysT, ?_, ?_, ?_⟩
        · show (billLoad now b S).bind _ = _
          rw [hload]
          simp only [Option.some_bind]
          rw [hseq]
          simp only [Option.map_some']
          simp
        · intro i hi
          rw [hpresT i (fun w hw => hi w (List.mem_cons_of_mem b hw)), hS',
            billIdCount_append_newborn, billIdCount_map_billStep,
            if_neg (hi b (List.mem_cons_self b rest))]
          omega
        · intro w hw
          rcases List.mem_cons.mp hw with heq | hm
          · rw [heq]
            rw [hpresT b.bill_id ?hfr, hS', billIdCount_append_newborn,
              billIdCount_map_billStep, hz, if_pos rfl]
            case hfr =>
              intro w' hw' heq'
              exact hbnotin (heq' ▸ List.mem_map_of_mem Bill.bill_id hw')
          · exact hallT w hm
        · intro d hd
          rcases hcharT d hd with ⟨d0', hd0', he⟩ | ⟨L1, b', L2, hsplit, he⟩
          · rw [hS'] at hd0'
            rcases List.mem_append.mp hd0' with hm | hm
            · obtain ⟨d0, hd0, he0⟩ := List.mem_map.mp hm
              refine Or.inl ⟨d0, hd0, ?_⟩
              rw [he, ← he0, ← billChain_cons]
            · rw [List.mem_singleton] at hm
              refine Or.inr ⟨[], b, rest, rfl, ?_⟩
              rw [he, hm]
          · refine Or.inr ⟨b :: L1, b', L2, ?_, he⟩
            rw [hsplit]
            rfl
      · rw [if_neg hz] at hload
        set S' := S.map (billStep b) with hS'
        have huniq' : ∀ i, billIdCount i S' ≤ 1 := by
          intro i
          rw [hS', billIdCount_map_billStep]
          exact huniq i
        have hkeys' : ∀ d ∈ S', (keys d).Nodup := by
          intro d hd
          rw [hS'] at hd
          obtain ⟨d0, hd0, he⟩ := List.mem_map.mp hd
          rw [← he]
          exact billStep_keys_nodup b d0 (hkeys d0 hd0)
        obtain ⟨T, n, hseq, huniqT, hkeysT, hpresT, hallT, hcharT⟩ :=
          ih S' huniq' hkeys' hdist'
        refine ⟨T, n, ?_, huniqT, hkeysT, ?_, ?_, ?_⟩
        · show (billLoad now b S).bind _ = _
          rw [hload]
          simp only [Option.some_bind]
          rw [hseq]
          simp only [Option.map_some']
          rw [if_neg (by simp)]
          simp
        · intro i hi
          rw [hpresT i (fun w hw => hi w (List.mem_cons_of_mem b hw)), hS',
            billIdCount_map_billStep]
        · intro w hw
          rcases List.mem_cons.mp hw with heq | hm
          · rw [heq]
            rw [hpresT b.bill_id ?hfr2, hS', billIdCount_map_billStep]
            · have := huniq b.bill_id
              omega
            case hfr2 =>
              intro w' hw' heq'
              exact hbnotin (heq' ▸ List.mem_map_of_mem Bill.bill_id hw')
          · exact hallT w hm
        · intro d hd
          rcases hcharT d hd with ⟨d0', hd0', he⟩ | ⟨L1, b', L2, hsplit, he⟩
          · rw [hS'] at hd0'
            obtain ⟨d0, hd0, he0⟩ := List.mem_map.mp hd0'
            refine Or.inl ⟨d0, hd0, ?_⟩
            rw [he, ← he0, ← billChain_cons]
          · refine Or.inr ⟨b :: L1, b', L2, ?_, he⟩
            rw [hsplit]
            rfl

/-- Splitting a repeat-free bill-id list around one member. -/
lemma bids_split_ne (L1 L2 : List Bill) (b : Bill)
    (hdist : ((L1 ++ b :: L2).map Bill.bill_id).Nodup) :
    (∀ w ∈ L1, w.bill_id ≠ b.bill_id)
    ∧ (∀ w ∈ L2, w.bill_id ≠ b.bill_id) := by
  rw [List.map_append, List.map_cons] at hdist
  rw [List.nodup_append] at hdist
  obtain ⟨h1, h2, h3⟩ := hdist
  rw [List.nodup_cons] at h2
  constructor
  · intro w hw heq
    exact h3 (List.mem_map_of_mem Bill.bill_id hw)
      (by rw [heq]; exact List.mem_cons_self _ _)
  · intro w hw heq
    exact h2.1 (by rw [← heq]; exact List.mem_map_of_mem Bill.bill_id hw)

/-- Re-running the bill load pass over its own output returns the output
unchanged with zero inserts, at any later stamping time. -/
lemma billLoadSeq_idem (now now2 : Nat) (bs : List Bill) (S T : List Doc)
    (n : Nat) (hdist : (bs.map Bill.bill_id).Nodup)
    (huniq : ∀ i, billIdCount i S ≤ 1)
    (hkeys : ∀ d ∈ S, (keys d).Nodup)
    (hrun : billLoadSeq now bs S = some (T, n)) :
    billLoadSeq now2 bs T = some (T, 0) := by
  obtain ⟨T', n', hseq, huniqT, hkeysT, hpresT, hallT, hcharT⟩ :=
    billLoadSeq_run1 now bs S huniq hkeys hdist
  rw [hrun] at hseq
  simp only [Option.some.injEq, Prod.mk.injEq] at hseq
  obtain ⟨hT, hn⟩ := hseq
  subst hT
  have hrun2 := billLoadSeq_run2 now2 bs T huniqT hallT
  have hfix : ∀ d ∈ T, billChain bs d = d := by
    intro d hd
    rcases hcharT d hd with ⟨d0, hd0, rfl⟩ | ⟨L1, b', L2, hsplit, rfl⟩
    · by_cases hb : ∃ b' ∈ bs, getKey d0 "bill_id" = some (.vStr b'.bill_id)
      · obtain ⟨b', hb', hbid⟩ := hb
        obtain ⟨L1, L2, hsplit⟩ := List.append_of_mem hb'
        subst hsplit
        obtain ⟨hL1, hL2⟩ := bids_split_ne L1 L2 b' hdist
        have hb1 : getKey (billChain L1 d0) "bill_id"
            = some (.vStr b'.bill_id) := by
          rw [billChain_bid, hbid]
        have hinner : billStep b' (billChain L1 d0)
            = applySet (billChain L1 d0) (normBillData b') := by
          unfold billStep
          rw [if_pos (by rw [mongoMatch_billId, hb1]; simp)]
        have hchain : billChain (L1 ++ b' :: L2) d0
            = billChain L2 (billStep b' (billChain L1 d0)) := by
          unfold billChain
          rw [List.foldl_append]
          rfl
        rw [hchain, hinner]
        exact billChain_class1_fix L1 L2 b' (billChain L1 d0)
          (billChain_keys_nodup L1 d0 (hkeys d0 hd0)) hL1 hL2
      · push_neg at hb
        have h0 : billChain bs d0 = d0 := billChain_inert bs d0 hb
        rw [h0]
        exact h0
    · subst hsplit
      obtain ⟨hL1, hL2⟩ := bids_split_ne L1 L2 b' hdist
      exact billChain_class1_fix L1 L2 b'
        [("bill_id", PValue.vStr b'.bill_id)]
        (by show (["bill_id"] : List String).Nodup; decide)
        hL1 hL2
  have hmap : T.map (billChain bs) = T := by
    have h1 : T.map (billChain bs) = T.map (fun d => d) :=
      List.map_congr_left hfix
    rw [h1]
    simp
  rw [hmap] at hrun2
  exact hrun2

/-- Even at a different second-run timestamp, a politician re-run inserts
nothing and keeps the record count: every id is already stored once. -/
lemma politicianLoadSeq_second_run_counts (now now2 : Nat)
    (ps : List Politician) (S T : List Doc) (n : Nat)
    (hdist : (ps.map Politician.bioguide_id).Nodup)
    (huniq : ∀ b, bioCount b S ≤ 1)
    (hkeys : ∀ d ∈ S, (keys d).Nodup)
    (hrun : politicianLoadSeq now ps S = some (T, n)) :
    ∃ T2, politicianLoadSeq now2 ps T = some (T2, 0)
      ∧ T2.length = T.length := by
  obtain ⟨T', n', hseq, huniqT, hkeysT, hpresT, hallT, hcharT⟩ :=
    politicianLoadSeq_run1 now ps S huniq hkeys hdist
  rw [hrun] at hseq
  simp only [Option.some.injEq, Prod.mk.injEq] at hseq
  obtain ⟨hT, hn⟩ := hseq
  subst hT
  refine ⟨T.map (docChain now2 ps), ?_, by simp⟩
  exact politicianLoadSeq_run2 now2 ps T huniqT hallT

/-- First occupant of the Utah district-1 House seat in the C3 scenario. -/
def c3p1 : Politician :=
  { bioguide_id := "B1", first_name := "John", last_name := "Roe",
    full_name := "John Roe", party := "D", state := "UT", chamber := "house",
    district := some 1, in_office := true, title := some "Representative",
    website := none, phone := none, office := none, committees := [],
    last_updated := 1 }

/-- Second occupant of the same seat in the C3 scenario. -/
def c3p2 : Politician :=
  { bioguide_id := "B2", first_name := "Jane", last_name := "Doe",
    full_name := "Jane Doe", party := "R", state := "UT", chamber := "house",
    district := some 1, in_office := true, title := some "Representative",
    website := none, phone := none, office := none, committees := [],
    last_updated := 2 }

/-- A concrete roll-call vote for the C3 witness. -/
def c3v : Vote :=
  { vote_id := "house-roll-7-119", bill_id := some "hr-10-119",
    chamber := "house", congress := 119, session := 1, roll_number := 7,
    question := "On Passage", result := "Passed", vote_date := 20000,
    yea_count := 220, nay_count := 210, present_count := 1,
    not_voting_count := 4, congress_gov_url := none, last_updated := 9 }

/-- Store after one run of the C3 politician sequence at time 10. -/
def c3S1 : List Doc :=
  [[("bioguide_id", .vStr "B1"), ("first_name", .vStr "John"),
    ("last_name", .vStr "Roe"), ("full_name", .vStr "John Roe"),
    ("party", .vStr "D"), ("state", .vStr "UT"), ("chamber", .vStr "house"),
    ("district", .vInt 1), ("in_office", .vBool false),
    ("title", .vStr "Representative"), ("website", .vNone), ("phone", .vNone),
    ("office", .vNone), ("committees", .vList []),
    ("last_updated", .vTime 10)],
   [("bioguide_id", .vStr "B2"), ("first_name", .vStr "Jane"),
    ("last_name", .vStr "Doe"), ("full_name", .vStr "Jane Doe"),
    ("party", .vStr "R"), ("state", .vStr "UT"), ("chamber", .vStr "house"),
    ("district", .vInt 1), ("in_office", .vBool true),
    ("title", .vStr "Representative"), ("website", .vNone), ("phone", .vNone),
    ("office", .vNone), ("committees", .vList []),
    ("last_updated", .vTime 2)]]

/-- Store after re-running the same sequence at the later time 20: the
flipped document's `last_updated` has moved. -/
def c3S2 : List Doc :=
  [[("bioguide_id", .vStr "B1"), ("first_name", .vStr "John"),
    ("last_name", .vStr "Roe"), ("full_name", .vStr "John Roe"),
    ("party", .vStr "D"), ("state", .vStr "UT"), ("chamber", .vStr "house"),
    ("district", .vInt 1), ("in_office", .vBool false),
    ("title", .vStr "Representative"), ("website", .vNone), ("phone", .vNone),
    ("office", .vNone), ("committees", .vList []),
    ("last_updated", .vTime 20)],
   [("bioguide_id", .vStr "B2"), ("first_name", .vStr "Jane"),
    ("last_name", .vStr "Doe"), ("full_name", .vStr "Jane Doe"),
    ("party", .vStr "R"), ("state", .vStr "UT"), ("chamber", .vStr "house"),
    ("district", .vInt 1), ("in_office", .vBool true),
    ("title", .vStr "Representative"), ("website", .vNone), ("phone", .vNone),
    ("office", .vNone), ("committees", .vList []),
    ("last_updated", .vTime 2)]]

/-- Vote store after one run of the C3 vote sequence. -/
def c3VS : List Doc :=
  [[("vote_id", .vStr "house-roll-7-119"), ("bill_id", .vStr "hr-10-119"),
    ("chamber", .vStr "house"), ("congress", .vInt 119),
    ("session", .vInt 1), ("roll_number", .vInt 7),
    ("question", .vStr "On Passage"), ("result", .vStr "Passed"),
    ("vote_date", .vTime 1728000000), ("yea_count", .vInt 220),
    ("nay_count", .vInt 210), ("present_count", .vInt 1),
    ("not_voting_count", .vInt 4), ("congress_gov_url", .vNone),
    ("last_updated", .vTime 9)]]

/-- Counterexample for C3 as stated: because the seat-invalidation pass
restamps `last_updated` with the current time, re-running the politician
load pass at a later time over two same-seat records changes the stored
state, so exact double-run idempotence fails (the record count and the
zero-insert part do hold). -/
theorem claim_C3_counterexample :
    politicianLoadSeq 10 [c3p1, c3p2] [] = some (c3S1, 2)
    ∧ politicianLoadSeq 20 [c3p1, c3p2] c3S1 = some (c3S2, 0)
    ∧ c3S2 ≠ c3S1 :=
  ⟨by decide, by decide, by decide⟩

/-- C3 (amended): every load is an upsert keyed by the record's natural id
(`bioguide_id` for politicians, `vote_id` for votes, `bill_id` for bills),
never a blind insert.  For records with pairwise-distinct ids on a store
holding at most one document per id: re-running the politician pass at any
second timestamp performs zero inserts and keeps the record count, and with
the timestamp held fixed returns exactly the same store; re-running the
vote pass or the bill pass (whose stored records carry their own
timestamps) returns exactly the same store with zero inserts at any
timestamp. -/
theorem claim_C3_load_idempotence :
    (∀ now ps S T n, (ps.map Politician.bioguide_id).Nodup →
        (∀ b, bioCount b S ≤ 1) → (∀ d ∈ S, (keys d).Nodup) →
        politicianLoadSeq now ps S = some (T, n) →
        politicianLoadSeq now ps T = some (T, 0))
    ∧ (∀ now now2 ps S T n, (ps.map Politician.bioguide_id).Nodup →
        (∀ b, bioCount b S ≤ 1) → (∀ d ∈ S, (keys d).Nodup) →
        politicianLoadSeq now ps S = some (T, n) →
        ∃ T2, politicianLoadSeq now2 ps T = some (T2, 0)
          ∧ T2.length = T.length)
    ∧ (∀ vs S T n, (vs.map Vote.vote_id).Nodup →
        (∀ i, voteIdCount i S ≤ 1) → (∀ d ∈ S, (keys d).Nodup) →
        voteLoadSeq vs S = (T, n) →
        voteLoadSeq vs T = (T, 0))
    ∧ (∀ now now2 bs S T n, (bs.map Bill.bill_id).Nodup →
        (∀ i, billIdCount i S ≤ 1) → (∀ d ∈ S, (keys d).Nodup) →
        billLoadSeq now bs S = some (T, n) →
        billLoadSeq now2 bs T = some (T, 0)) :=
  ⟨fun now ps S T n hdist huniq hkeys hrun =>
      politicianLoadSeq_idem now ps S T n hdist huniq hkeys hrun,
   fun now now2 ps S T n hdist huniq hkeys hrun =>
      politicianLoadSeq_second_run_counts now now2 ps S T n hdist huniq hkeys hrun,
   fun vs S T n hdist huniq hkeys hrun =>
      voteLoadSeq_idem vs S T n hdist huniq hkeys hrun,
   fun now now2 bs S T n hdist huniq hkeys hrun =>
      billLoadSeq_idem now now2 bs S T n hdist huniq hkeys hrun⟩

/-- A concrete bill for the C3 witness. -/
def c3b : Bill :=
  { bill_id := "hr-10-119", bill_type := "hr", number := 10, congress := 119,
    title := "An Act", short_title := none, summary := none,
    status := "introduced", introduced_date := 19900,
    latest_action_date := none, latest_action_text := none,
    sponsor_bioguide_id := some "B2", cosponsor_bioguide_ids := [],
    policy_area := none, subjects := [], congress_gov_url := none,
    full_text_url := none, last_updated := 8 }

/-- Bill store after one run of the C3 bill sequence. -/
def c3BS : List Doc :=
  [[("bill_id", .vStr "hr-10-119"), ("bill_type", .vStr "hr"),
    ("number", .vInt 10), ("congress", .vInt 119), ("title", .vStr "An Act"),
    ("short_title", .vNone), ("summary", .vNone),
    ("status", .vStr "introduced"), ("introduced_date", .vTime 1719360000),
    ("latest_action_date", .vNone), ("latest_action_text", .vNone),
    ("sponsor_bioguide_id", .vStr "B2"), ("cosponsor_bioguide_ids", .vList []),
    ("policy_area", .vNone), ("subjects", .vList []),
    ("congress_gov_url", .vNone), ("full_text_url", .vNone),
    ("last_updated", .vTime 8)]]

/-- Witness for C3: re-running the two-politician sequence at the shared
time 10 over its first-run output returns it unchanged with zero inserts;
at the later time 20 it still inserts nothing and keeps the record count;
and the one-vote and one-bill sequences are exactly idempotent. -/
theorem claim_C3_load_idempotence_witness :
    politicianLoadSeq 10 [c3p1, c3p2] c3S1 = some (c3S1, 0)
    ∧ (∃ T2, politicianLoadSeq 20 [c3p1, c3p2] c3S1 = some (T2, 0)
        ∧ T2.length = c3S1.length)
    ∧ voteLoadSeq [c3v] c3VS = (c3VS, 0)
    ∧ billLoadSeq 99 [c3b] c3BS = some (c3BS, 0) := by
  refine ⟨?_, ?_, ?_, ?_⟩
  · exact claim_C3_load_idempotence.1 10 [c3p1, c3p2] [] c3S1 2
      (by decide) (fun b => Nat.zero_le 1) (by simp) (by decide)
  · exact claim_C3_load_idempotence.2.1 10 20 [c3p1, c3p2] [] c3S1 2
      (by decide) (fun b => Nat.zero_le 1) (by simp) (by decide)
  · exact claim_C3_load_idempotence.2.2.1 [c3v] [] c3VS 1
      (by decide) (fun i => Nat.zero_le 1) (by simp) (by decide)
  · exact claim_C3_load_idempotence.2.2.2 10 99 [c3b] [] c3BS 1
      (by decide) (fun i => Nat.zero_le 1) (by simp) (by decide)
